import Mathlib

/-!
A shallow embedding of `server.cpp` and of the snippet interpreter.

The service compiles and runs submitted C++ programs.  This development embeds the
parts of `src/server.cpp` that the specification talks about:

* `json_escape`, `handle_run_cpp`: the execution pipeline (compile, then run), with the
  two calls of `run_process_capture` it makes;
* `run_process_capture`: the process sandbox, driven by what the operating system
  answers to the parent (the write to the child's stdin, pipe reads, `waitpid` results,
  clock readings), and the steps of the child it forks;
* `parse_http_request`, `read_http_from_socket`: the request framing layer, driven by
  the results of the successive `recv` calls;
* `url_decode`, `parse_query`, `sanitize_cpp_filename` and the two snippet endpoints of
  `main`, over a file system given as a map from paths to contents;
* the branch `POST /run` of `main`, with the JSON library as a collaborator;
* the command `div` of the snippet interpreter `user_codes/start_code2.cpp`.

A `std::string` is a `List Char`, one `Char` per byte.  C++ `int` values are plain
`Int`: in the server they stay far from the 32 bit range, and in the interpreter the
extraction of an `int` clamps to `INT_MIN` .. `INT_MAX` and the one quotient that leaves
the range, `INT_MIN / -1`, is marked as undefined.
-/

set_option linter.unusedVariables false

namespace Server

/-- A `std::string`: the list of its bytes. -/
abbrev Str := List Char

/-- Decimal text of an `int`, as produced by `std::to_string`. -/
def to_string (n : Int) : Str := (toString n).toList

/-! ## `json_escape` (server.cpp, lines 352-369) -/

/-- The body of the `switch` in `json_escape`: what one byte appends to `out`. -/
def json_escape_char (c : Char) : Str :=
  if c = Char.ofNat 92 then [Char.ofNat 92, Char.ofNat 92]
  else if c = Char.ofNat 34 then [Char.ofNat 92, Char.ofNat 34]
  else if c = '\n' then [Char.ofNat 92, 'n']
  else if c = '\r' then [Char.ofNat 92, 'r']
  else if c = '\t' then [Char.ofNat 92, 't']
  else if c.toNat < 0x20 then []
  else [c]

/-- The loop `for (char c : s)` of `json_escape`, appending to `out`. -/
def json_escape (s : Str) : Str :=
  s.foldl (fun out c => out ++ json_escape_char c) []

/-! ## The process sandbox (server.cpp, lines 228-350) -/

/-- The record `ProcResult`, with the default member initialisers of the source. -/
structure ProcResult where
  exit_code : Int := -1
  timed_out : Bool := false
  output : Str := []
deriving DecidableEq, Repr

/-- What `waitpid` stores in `status` when it reports the child: a normal exit
(`WIFEXITED`, with `WEXITSTATUS`), a death by signal (`WIFSIGNALED`, with `WTERMSIG`),
or a status for which neither test holds. -/
inductive WaitStatus where
  | exited (code : Nat)
  | signaled (sig : Nat)
  | other
deriving DecidableEq, Repr

/-- What the parent observes in one iteration of the polling loop: the results of the
successive non-blocking `recv` calls (a chunk of `n` bytes; the empty chunk or the end
of the list stands for a result `n <= 0`), the answer of `waitpid(pid, &status, WNOHANG)`
(`some st` when it returned `pid`), and the clock reading `elapsed_ms`, which is only
looked at when the child has not terminated. -/
structure Poll where
  recvs : List Str
  wait : Option WaitStatus
  elapsed_ms : Int
deriving DecidableEq, Repr

/-- What becomes of the call `write(stdin_pipe[1], input.c_str(), input.size())` of
line 293, which the parent makes on a blocking pipe, before it reads its clock, when
the input is not empty.  `returned`: the call comes back; the code does not look at the
value it returns.  `blocked`: the pipe is full and the child neither reads from it nor
closes it, so the call never comes back.  `sigpipe`: no process holds the read end any
more, for instance because the child has exited; the call raises SIGPIPE, which the
server does not handle or ignore, and the server process ends. -/
inductive WriteOutcome where
  | returned
  | blocked
  | sigpipe
deriving DecidableEq, Repr

/-- Everything `run_process_capture` learns from the operating system: whether the two
`pipe` calls and `fork` succeed, what becomes of the write of the input, the
observations of the successive loop iterations, and the results of the blocking `read`
calls of the final drain.  A parent that does not come back from the write observes no
iteration of the loop: this is `in_loop`. -/
structure ProcEnv where
  pipe_ok : Bool
  fork_ok : Bool
  write_input : WriteOutcome := WriteOutcome.returned
  polls : List Poll
  final_reads : List Str
  in_loop : write_input ≠ WriteOutcome.returned → polls = [] := by
    first
      | exact fun h => absurd rfl h
      | exact fun _ => rfl

/-- The drain loops (lines 304-308 and 340-345): append every chunk to the output
until a read returns `n <= 0`. -/
def drain (out : Str) : List Str → Str
  | [] => out
  | c :: cs => if c.length > 0 then drain (out ++ c) cs else out

/-- Lines 316-319: the exit status classification. -/
def classify (res : ProcResult) : WaitStatus → ProcResult
  | .exited code => { res with exit_code := (code : Int) }
  | .signaled sig => { res with exit_code := 128 + (sig : Int) }
  | .other => res

/-- The loop `while (!finished)` (lines 300-337).  `none`: the observations ran out
while the child was still running within its deadline. -/
def poll_loop (timeout_ms : Int) : List Poll → ProcResult → Option ProcResult
  | [], _ => none
  | p :: ps, res =>
    let res1 : ProcResult := { res with output := drain res.output p.recvs }
    match p.wait with
    | some status => some (classify res1 status)
    | none =>
      if p.elapsed_ms > timeout_ms then
        some { res1 with timed_out := true, exit_code := 124 }
      else poll_loop timeout_ms ps res1

/-- The parent side of `run_process_capture`: the record it returns.  `none`: the call
does not return within the observations, because the server is blocked for ever or
killed by SIGPIPE in the write of the input (lines 292-294), or because the listed
observations of the loop ran out.  The arguments and the limit flag only reach the
child, see `run_process_capture_child`. -/
def run_process_capture (env : ProcEnv) (args : List Str) (input : Str)
    (timeout_ms : Int) (limit_resources : Bool) : Option ProcResult :=
  let res : ProcResult := {}
  if !env.pipe_ok then
    some { res with output := "Internal error: pipe() failed.\n".toList }
  else if !env.fork_ok then
    some { res with output := "Internal error: fork() failed.\n".toList }
  else if input ≠ [] ∧ env.write_input ≠ WriteOutcome.returned then none
  else
    match poll_loop timeout_ms env.polls res with
    | none => none
    | some res1 => some { res1 with output := drain res1.output env.final_reads }

/-! ## The execution pipeline (server.cpp, lines 371-419) -/

/-- The arguments of one call of `run_process_capture`, as `handle_run_cpp` makes it. -/
structure SandboxCall where
  args : List Str
  input : Str
  timeout_ms : Int
  limit_resources : Bool
deriving DecidableEq, Repr

/-- The call of `run_process_capture` with the arguments `call`, in the environment
`penv`. -/
def invoke (penv : ProcEnv) (call : SandboxCall) : Option ProcResult :=
  run_process_capture penv call.args call.input call.timeout_ms call.limit_resources

/-- The collaborators of `handle_run_cpp` over a world state `σ`: creating the
`user_codes` directory, opening and writing the source file (`none`: the stream could
not be opened), and what the operating system shows to a call of `run_process_capture`
made in a world, with the world after the call. -/
structure RunEnv (σ : Type) where
  create_directories : σ → σ
  write_source : σ → Str → Option σ
  os : σ → SandboxCall → ProcEnv × σ

def source_path : Str := "user_codes/temp.cpp".toList

def binary_path : Str := "user_codes/temp.out".toList

/-- The compile invocation (lines 391-396). -/
def compile_call : SandboxCall :=
  { args := ["g++".toList, source_path, "-std=c++17".toList, "-O2".toList, "-o".toList,
             binary_path],
    input := [], timeout_ms := 5000, limit_resources := false }

/-- The run invocation (lines 404-409). -/
def run_call (input : Str) : SandboxCall :=
  { args := [binary_path], input := input, timeout_ms := 2000, limit_resources := true }

/-- The function `handle_run_cpp`: the JSON text it returns, together with the list of
the calls of `run_process_capture` it made, in order.  `none` as text: the function does
not return, because a call it made does not. -/
def handle_run_cpp {σ : Type} (env : RunEnv σ) (w : σ) (code input : Str) :
    Option Str × List SandboxCall :=
  let w0 := env.create_directories w
  match env.write_source w0 code with
  | none =>
    (some "\x7b\"ok\":false,\"error\":\"Failed to write source file\"\x7d".toList, [])
  | some w1 =>
    let os1 := env.os w1 compile_call
    match invoke os1.1 compile_call with
    | none => (none, [compile_call])
    | some compile =>
      if compile.exit_code ≠ 0 then
        (some ("\x7b\"ok\":false,\"stage\":\"compile\",\"output\":\"".toList
            ++ json_escape compile.output ++ "\"\x7d".toList),
          [compile_call])
      else
        let os2 := env.os os1.2 (run_call input)
        match invoke os2.1 (run_call input) with
        | none => (none, [compile_call, run_call input])
        | some run =>
          let json : Str := "\x7b".toList
          let json := json ++ "\"ok\":true,".toList
          let json := json ++ ("\"exit_code\":".toList ++ to_string run.exit_code ++ ",".toList)
          let json := json ++ ("\"timed_out\":".toList
              ++ (if run.timed_out then "true" else "false").toList ++ ",".toList)
          let json := json ++ ("\"output\":\"".toList ++ json_escape run.output ++ "\"".toList)
          let json := json ++ "\x7d".toList
          (some json, [compile_call, run_call input])

/-! ## Request framing (server.cpp, lines 46-50 and 81-206) -/

/-- The record `HttpRequest`; the header map is a list of pairs with unique keys. -/
structure HttpRequest where
  method : Str
  path : Str
  headers : List (Str × Str)
  body : Str
deriving DecidableEq, Repr

/-- The header terminator searched by `find("\r\n\r\n")`. -/
def CRLFCRLF : Str := ['\r', '\n', '\r', '\n']

/-- `std::string::find` with a string argument: the index of the first occurrence,
`none` for `npos`. -/
def find_str (pat : Str) : Str → Option Nat
  | [] => if pat.isPrefixOf [] then some 0 else none
  | c :: s => if pat.isPrefixOf (c :: s) then some 0 else (find_str pat s).map (· + 1)

/-- `std::string::find` with a character argument. -/
def find_char (x : Char) : Str → Option Nat
  | [] => none
  | c :: s => if c = x then some 0 else (find_char x s).map (· + 1)

/-- The test `std::isspace` of the "C" locale, used by `operator>>` and `std::stoll`. -/
def isspace (c : Char) : Bool :=
  c == ' ' || c == '\t' || c == '\n' || c == Char.ofNat 11 || c == Char.ofNat 12 || c == '\r'

/-- The four characters that `trim` strips. -/
def is_trim_char (c : Char) : Bool :=
  c == ' ' || c == '\t' || c == '\r' || c == '\n'

/-- `trim` (lines 88-93): `a` moves right over the leading blanks, then `b` moves left
over the trailing ones, and the bytes in between are returned. -/
def trim (s : Str) : Str :=
  (((s.dropWhile is_trim_char).reverse).dropWhile is_trim_char).reverse

/-- `to_lower` (lines 95-98): `std::tolower` on every byte. -/
def to_lower (s : Str) : Str := s.map Char.toLower

/-- `split_path_query` (lines 46-50): the pair `(path, query)`. -/
def split_path_query (target : Str) : Str × Str :=
  match find_char '?' target with
  | none => (target, [])
  | some q => (target.take q, target.drop (q + 1))

/-- The successive lines that `std::getline` extracts from a stream holding `s`, until
it fails: the pieces between line feeds, a final piece without line feed included when
it is not empty. -/
def getlines : Str → List Str
  | [] => []
  | c :: s =>
    if c = '\n' then [] :: getlines s
    else
      match getlines s with
      | [] => [[c]]
      | l :: ls => (c :: l) :: ls

/-- The statement `if (!line.empty() && line.back() == '\r') line.pop_back();`. -/
def pop_cr (line : Str) : Str :=
  if line.getLast? = some '\r' then line.dropLast else line

/-- One `operator>>` into a `std::string`: skip white space, then take the bytes up to
the next white space.  `none`: nothing could be extracted, the stream fails. -/
def extract_token (s : Str) : Option (Str × Str) :=
  let s1 := s.dropWhile isspace
  if s1 = [] then none
  else some (s1.takeWhile (fun c => !isspace c), s1.dropWhile (fun c => !isspace c))

/-- The statement `rl >> req.method >> req.path >> version;` (line 115): the values of
`req.method` and `req.path` afterwards.  A failed extraction leaves the strings that
follow it empty. -/
def read_request_line (request_line : Str) : Str × Str :=
  match extract_token request_line with
  | none => ([], [])
  | some (method, rest) =>
    match extract_token rest with
    | none => (method, [])
    | some (path, _) => (method, path)

/-- The assignment `req.headers[key] = val`. -/
def headers_set (key val : Str) : List (Str × Str) → List (Str × Str)
  | [] => [(key, val)]
  | (k, v) :: m => if k = key then (key, val) :: m else (k, v) :: headers_set key val m

/-- The lookup `headers.find(key)`: `none` for `headers.end()`. -/
def headers_find (key : Str) : List (Str × Str) → Option Str
  | [] => none
  | (k, v) :: m => if k = key then some v else headers_find key m

/-- The header loop (lines 119-127) over the lines that remain after the request line. -/
def parse_header_lines (headers : List (Str × Str)) : List Str → List (Str × Str)
  | [] => headers
  | line0 :: rest =>
    let line := pop_cr line0
    if line = [] then headers
    else
      match find_char ':' line with
      | none => parse_header_lines headers rest
      | some colon =>
        let key := to_lower (trim (line.take colon))
        let val := trim (line.drop (colon + 1))
        parse_header_lines (headers_set key val headers) rest

/-- The function `parse_http_request` (lines 100-131). -/
def parse_http_request (raw : Str) : Option HttpRequest :=
  match find_str CRLFCRLF raw with
  | none => none
  | some header_end =>
    let header_part := raw.take header_end
    let body_part := raw.drop (header_end + 4)
    match getlines header_part with
    | [] => none
    | request_line :: rest =>
      let mp := read_request_line (pop_cr request_line)
      if mp.1 = [] ∨ mp.2 = [] then none
      else
        some { method := mp.1, path := mp.2,
               headers := parse_header_lines [] rest, body := body_part }

/-- `http_response` (lines 133-145). -/
def http_response (status_code : Int) (status_text content_type body : Str) : Str :=
  "HTTP/1.1 ".toList ++ to_string status_code ++ " ".toList ++ status_text ++ "\r\n".toList
    ++ ("Content-Type: ".toList ++ content_type ++ "\r\n".toList)
    ++ ("Content-Length: ".toList ++ to_string (body.length : Int) ++ "\r\n".toList)
    ++ "Connection: close\r\n".toList
    ++ "\r\n".toList
    ++ body

/-- `std::stoll` in base 10: optional white space, an optional sign, then the longest
run of digits.  `none`: it throws (no digit, or a value outside `long long`). -/
def stoll (s : Str) : Option Int :=
  let s1 := s.dropWhile isspace
  let neg : Bool := s1.head? = some '-'
  let s2 := if s1.head? = some '-' ∨ s1.head? = some '+' then s1.drop 1 else s1
  let digits := s2.takeWhile Char.isDigit
  if digits = [] then none
  else
    let v : Nat := digits.foldl (fun acc d => 10 * acc + (d.toNat - 48)) 0
    let n : Int := if neg then -(v : Int) else (v : Int)
    if n < -(2 : Int) ^ 63 ∨ (2 : Int) ^ 63 - 1 < n then none else some n

/-- The constant `MAX_REQ` of `read_http_from_socket`. -/
def MAX_REQ : Nat := 512 * 1024

/-- The bytes that the first `k` calls of `recv` delivered, in order.  The connection
is the function `recv`: its value at `k` is the chunk that call number `k` copies into
`buf`, the empty chunk standing for a return value `n <= 0`. -/
def received (recv : Nat → Str) : Nat → Str
  | 0 => []
  | k + 1 => received recv k ++ recv k

/-- The first loop of `read_http_from_socket` (lines 172-177), from the state where `k`
calls of `recv` have been made and `data` is buffered.  It returns the buffer and the
number of calls made; `none`: the fuel ran out. -/
def read_headers (recv : Nat → Str) : Nat → Nat → Str → Option (Str × Nat)
  | 0, _, _ => none
  | fuel + 1, k, data =>
    if (find_str CRLFCRLF data).isSome then some (data, k)
    else
      let chunk := recv k
      if chunk.length ≤ 0 then some (data, k + 1)
      else
        let data1 := data ++ chunk
        if data1.length > MAX_REQ then some (data1, k + 1)
        else read_headers recv fuel (k + 1) data1

/-- The second loop of `read_http_from_socket` (lines 198-203). -/
def read_body (recv : Nat → Str) (content_length : Int) : Nat → Nat → Str → Option (Str × Nat)
  | 0, _, _ => none
  | fuel + 1, k, body =>
    if (body.length : Int) < content_length then
      let chunk := recv k
      if chunk.length ≤ 0 then some (body, k + 1)
      else
        let body1 := body ++ chunk
        if body1.length > MAX_REQ then some (body1, k + 1)
        else read_body recv content_length fuel (k + 1) body1
    else some (body, k)

/-- The function `read_http_from_socket` (lines 166-206): the bytes it returns and the
number of `recv` calls it made.  Each of its two loops may run `fuel` iterations. -/
def read_http_from_socket (recv : Nat → Str) (fuel : Nat) : Option (Str × Nat) :=
  match read_headers recv fuel 0 [] with
  | none => none
  | some (data, k) =>
    match find_str CRLFCRLF data with
    | none => some (data, k)
    | some header_end =>
      match parse_http_request data with
      | none => some (data, k)
      | some req =>
        match headers_find "content-length".toList req.headers with
        | none => some (data, k)
        | some value =>
          match stoll value with
          | none => some (data, k)
          | some content_length =>
            if content_length < 0 ∨ content_length > (MAX_REQ : Int) then some (data, k)
            else
              match read_body recv content_length fuel k (data.drop (header_end + 4)) with
              | none => none
              | some (body, k1) => some (data.take (header_end + 4) ++ body, k1)

/-- The routes of the dispatch in `main` (lines 483-576). -/
inductive Route where
  | index
  | run
  | load
  | save
  | not_found
deriving DecidableEq, Repr

/-- The chain of tests of the dispatch: the first two compare `req.path`, the target as
it was sent, the last two compare `path`, the target cut at its first question mark. -/
def route (req : HttpRequest) : Route :=
  let path := (split_path_query req.path).1
  if req.method = "GET".toList ∧ (req.path = "/".toList ∨ req.path = "/index.html".toList) then
    Route.index
  else if req.method = "POST".toList ∧ req.path = "/run".toList then Route.run
  else if req.method = "GET".toList ∧ path = "/load".toList then Route.load
  else if req.method = "POST".toList ∧ path = "/save".toList then Route.save
  else Route.not_found

/-- The first step of `main` on the bytes read from a connection (lines 463-473): the
`400 Bad Request` response when they do not parse, else the route taken. -/
def frame_and_route (raw : Str) : Except Str (HttpRequest × Route) :=
  match parse_http_request raw with
  | none =>
    Except.error (http_response 400 "Bad Request".toList "text/plain; charset=utf-8".toList
      "Bad Request\n".toList)
  | some req => Except.ok (req, route req)

/-! ## URL decoding and query parameters (server.cpp, lines 27-66) -/

/-- The digits that `std::strtol` accepts in base 16. -/
def is_hex_digit (c : Char) : Bool := decide (c ∈ "0123456789abcdefABCDEF".toList)

/-- The value of a base 16 digit. -/
def hex_value (c : Char) : Nat :=
  if c.isDigit then c.toNat - 48
  else if 'a' ≤ c ∧ c ≤ 'f' then c.toNat - 87
  else if 'A' ≤ c ∧ c ≤ 'F' then c.toNat - 55
  else 0

/-- `std::strtol(str, nullptr, 16)` on the short strings `url_decode` hands it: white
space is skipped, a sign and a prefix `0x` are accepted, then the longest run of base 16
digits is read; without any digit the value is 0. -/
def strtol16 (s : Str) : Int :=
  let s1 := s.dropWhile isspace
  let neg : Bool := s1.head? = some '-'
  let s2 := if s1.head? = some '-' ∨ s1.head? = some '+' then s1.drop 1 else s1
  let s3 :=
    match s2 with
    | z :: x :: d :: rest =>
      if z = '0' ∧ (x = 'x' ∨ x = 'X') ∧ is_hex_digit d = true then d :: rest else s2
    | _ => s2
  let v : Nat := (s3.takeWhile is_hex_digit).foldl (fun acc d => 16 * acc + hex_value d) 0
  if neg then -(v : Int) else (v : Int)

/-- The conversion `(char)` of a `long`: the byte with that value modulo 256. -/
def to_char (v : Int) : Char := Char.ofNat (v % 256).toNat

/-- The loop of `url_decode` (lines 31-42), from the position where `rest` remains to
be read and `out` has been produced.  The test `i + 2 < s.size()` holds when at least
two bytes follow the current one. -/
def url_decode_loop : Str → Str → Str
  | out, [] => out
  | out, c :: rest =>
    match rest with
    | a :: b :: rest2 =>
      if c = '%' then url_decode_loop (out ++ [to_char (strtol16 [a, b])]) rest2
      else if c = '+' then url_decode_loop (out ++ [' ']) (a :: b :: rest2)
      else url_decode_loop (out ++ [c]) (a :: b :: rest2)
    | short =>
      if c = '+' then url_decode_loop (out ++ [' ']) short
      else url_decode_loop (out ++ [c]) short

/-- The function `url_decode` (lines 28-44). -/
def url_decode (s : Str) : Str := url_decode_loop [] s

/-- The pieces `part` that the loop of `parse_query` cuts out of the query: the bytes
between ampersands, a last piece without ampersand included when it is not empty. -/
def query_parts : Str → List Str
  | [] => []
  | c :: s =>
    if c = '&' then [] :: query_parts s
    else
      match query_parts s with
      | [] => [[c]]
      | l :: ls => (c :: l) :: ls

/-- One iteration of the loop of `parse_query` (lines 58-61) on the piece `part`. -/
def parse_query_part (m : List (Str × Str)) (part : Str) : List (Str × Str) :=
  let k := url_decode (match find_char '=' part with
    | none => part
    | some eq => part.take eq)
  let v := url_decode (match find_char '=' part with
    | none => []
    | some eq => part.drop (eq + 1))
  if k ≠ [] then headers_set k v m else m

/-- The function `parse_query` (lines 52-66). -/
def parse_query (q : Str) : List (Str × Str) :=
  (query_parts q).foldl parse_query_part []

/-! ## File names and the snippet endpoints (server.cpp, lines 68-75, 157-163, 525-570) -/

/-- The character class `[A-Za-z0-9_.-]` of the regular expression. -/
def in_name_class (c : Char) : Bool :=
  c.isAlphanum || c == '_' || c == '.' || c == '-'

/-- `std::regex_match(name, ok)` for the expression `^[A-Za-z0-9_.-]+\.cpp$`: the
whole name is one or more characters of the class followed by `.cpp`. -/
def regex_match_ok (name : Str) : Bool :=
  decide (4 < name.length) && (name.take (name.length - 4)).all in_name_class
    && (name.drop (name.length - 4) == ".cpp".toList)

/-- The function `sanitize_cpp_filename` (lines 69-75). -/
def sanitize_cpp_filename (name : Str) : Option Str :=
  if name.length > 80 then none
  else if !regex_match_ok name then none
  else if (find_str "..".toList name).isSome then none
  else some name

/-- The file system as the endpoints see it: the content of the files that exist, and
whether a path can be opened for writing. -/
structure FileSystem where
  content : Str → Option Str
  can_write : Str → Bool

/-- An access to the file system. -/
inductive FileOp where
  | read (path : Str)
  | probe (path : Str)
  | write (path : Str)
deriving DecidableEq, Repr

/-- The function `read_file` (lines 157-163): the empty string when the file cannot be
opened. -/
def read_file (fs : FileSystem) (path : Str) : Str := (fs.content path).getD []

/-- The file system after `path` has been opened for writing and `data` written. -/
def write_file (fs : FileSystem) (path data : Str) : FileSystem :=
  { fs with content := fun p => if p = path then some data else fs.content p }

/-- The value `name` of the two snippet endpoints (lines 526 and 548): the query
parameter `name`, or `star_code.cpp` when there is none. -/
def param_name (req : HttpRequest) : Str :=
  match headers_find "name".toList (parse_query (split_path_query req.path).2) with
  | some name => name
  | none => "star_code.cpp".toList

/-- The branch `GET /load` of `main` (lines 525-544): the response sent and the
accesses made to the file system. -/
def handle_load (fs : FileSystem) (req : HttpRequest) : Str × List FileOp :=
  match sanitize_cpp_filename (param_name req) with
  | none =>
    (http_response 400 "Bad Request".toList "text/plain; charset=utf-8".toList
      "Invalid filename. Use something like star_code.cpp\n".toList, [])
  | some safe =>
    let full := "user_codes/".toList ++ safe
    let content := read_file fs full
    if content = [] then
      if fs.content full = none then
        (http_response 404 "Not Found".toList "text/plain; charset=utf-8".toList
          ("File not found: ".toList ++ full ++ "\n".toList),
          [FileOp.read full, FileOp.probe full])
      else
        (http_response 200 "OK".toList "text/plain; charset=utf-8".toList content,
          [FileOp.read full, FileOp.probe full])
    else
      (http_response 200 "OK".toList "text/plain; charset=utf-8".toList content,
        [FileOp.read full])

/-- The branch `POST /save` of `main` (lines 547-570): the response sent, the file
system afterwards and the accesses made to it. -/
def handle_save (fs : FileSystem) (req : HttpRequest) : Str × FileSystem × List FileOp :=
  match sanitize_cpp_filename (param_name req) with
  | none =>
    (http_response 400 "Bad Request".toList "application/json; charset=utf-8".toList
      "\x7b\"ok\":false,\"error\":\"Invalid filename. Use something like star_code.cpp\"\x7d".toList,
      fs, [])
  | some safe =>
    let full := "user_codes/".toList ++ safe
    if fs.can_write full = false then
      (http_response 500 "Internal Server Error".toList
        "application/json; charset=utf-8".toList
        "\x7b\"ok\":false,\"error\":\"Failed to open file for writing.\"\x7d".toList,
        fs, [FileOp.write full])
    else
      let body := "\x7b\"ok\":true,\"savedAs\":\"".toList ++ json_escape safe
        ++ "\",\"bytes\":".toList ++ to_string (req.body.length : Int) ++ "\x7d".toList
      (http_response 200 "OK".toList "application/json; charset=utf-8".toList body,
        write_file fs full req.body, [FileOp.write full])

/-! ## The child side of the sandbox (server.cpp, lines 257-285) -/

/-- What the child process does between `fork` and the replacement of its image. -/
inductive ChildStep where
  | setpgid
  | apply_run_limits
  | redirect_output
  | redirect_input
  | close_pipes
  | execvp (args : List Str)
deriving DecidableEq, Repr

/-- The steps of the child of `run_process_capture`, in order. -/
def child_steps (args : List Str) (limit_resources : Bool) : List ChildStep :=
  [ChildStep.setpgid]
    ++ (if limit_resources then [ChildStep.apply_run_limits] else [])
    ++ [ChildStep.redirect_output, ChildStep.redirect_input, ChildStep.close_pipes,
        ChildStep.execvp args]

/-- What the parent does with the write end of the pipe to the child's stdin
(lines 292-295): the single `write` of a buffer, and `close`. -/
inductive StdinOp where
  | write (buf : Str)
  | close
deriving DecidableEq, Repr

/-- What a call of `run_process_capture` makes of its arguments on the side of the
child: the steps of the child it forks, and what it does with the child's stdin. -/
structure ChildSide where
  steps : List ChildStep
  stdin : List StdinOp
deriving DecidableEq, Repr

/-- The child side of `run_process_capture` (lines 244-295).  `none`: no child is
forked.  The input is handed to `write` whole when it is not empty, and the pipe is
closed once the parent is past the write. -/
def run_process_capture_child (env : ProcEnv) (args : List Str) (input : Str)
    (limit_resources : Bool) : Option ChildSide :=
  if !env.pipe_ok then none
  else if !env.fork_ok then none
  else
    some { steps := child_steps args limit_resources,
           stdin :=
             if input ≠ [] then
               StdinOp.write input ::
                 (if env.write_input = WriteOutcome.returned then [StdinOp.close] else [])
             else [StdinOp.close] }

/-- The child side of the call of `run_process_capture` with the arguments `call`. -/
def invoke_child (penv : ProcEnv) (call : SandboxCall) : Option ChildSide :=
  run_process_capture_child penv call.args call.input call.limit_resources


/-! ## The branch `POST /run` of `main` (server.cpp, lines 494-523) -/

/-- The branch `POST /run` of `main`: the response sent.  The JSON library is a
collaborator: `json_fields` stands for `json::parse` followed by the two calls of
`value`, and yields the strings `code` and `input`, or the text `e.what()` of the
exception that was thrown.  `none`: no response is sent, because the call of
`handle_run_cpp` does not return. -/
def handle_run_request {σ : Type} (json_fields : Str → Except Str (Str × Str))
    (env : RunEnv σ) (w : σ) (req : HttpRequest) : Option Str :=
  match json_fields req.body with
  | Except.error what =>
    some (http_response 400 "Bad Request".toList "application/json; charset=utf-8".toList
      ("\x7b\"ok\":false,\"error\":\"Invalid JSON: ".toList ++ json_escape what
        ++ "\"\x7d".toList))
  | Except.ok (code, input) =>
    if code = [] then
      some (http_response 400 "Bad Request".toList "application/json; charset=utf-8".toList
        "\x7b\"ok\":false,\"error\":\"Missing 'code'\"\x7d".toList)
    else
      match (handle_run_cpp env w code input).1 with
      | none => none
      | some out_json =>
        some (http_response 200 "OK".toList "application/json; charset=utf-8".toList out_json)

/-! ## The snippet interpreter (user_codes/start_code2.cpp, lines 116-135 and 290-308) -/

/-- The member `std::map<std::string, int> variables`, as a list of pairs with unique
keys. -/
abbrev Variables := List (Str × Int)

/-- The lookup behind `variables.count(var)` and the read of `variables[var]`. -/
def vars_find (var : Str) : Variables → Option Int
  | [] => none
  | (k, v) :: m => if k = var then some v else vars_find var m

/-- The assignment to `variables[var]`. -/
def vars_set (var : Str) (val : Int) : Variables → Variables
  | [] => [(var, val)]
  | (k, v) :: m => if k = var then (var, val) :: m else (k, v) :: vars_set var val m

/-- The bounds of `int`. -/
def INT_MAX : Int := 2147483647

def INT_MIN : Int := -2147483648

/-- `ss >> value` for an `int` that holds `value` beforehand, on a stream whose unread
part is `s`.  At the end of the stream (white space aside) the sentry fails and `value`
is not written; otherwise an optional sign and the digits that follow are converted:
without digit zero is stored, beyond the range of `int` the nearest bound. -/
def extract_int (value : Int) (s : Str) : Int :=
  let s1 := s.dropWhile isspace
  if s1 = [] then value
  else
    let neg : Bool := s1.head? = some '-'
    let s2 := if s1.head? = some '-' ∨ s1.head? = some '+' then s1.drop 1 else s1
    let digits := s2.takeWhile Char.isDigit
    if digits = [] then 0
    else
      let v : Nat := digits.foldl (fun acc d => 10 * acc + (d.toNat - 48)) 0
      let n : Int := if neg then -(v : Int) else (v : Int)
      if n > INT_MAX then INT_MAX else if n < INT_MIN then INT_MIN else n

/-- The statement `ss >> var >> value;` of the arithmetic commands, with `value`
declared without initialiser: `uninit` is what the variable happens to hold.  When no
name can be read the stream has failed and `value` is not written either. -/
def read_var_value (uninit : Int) (rest : Str) : Str × Int :=
  match extract_token rest with
  | none => ([], uninit)
  | some (var, rest1) => (var, extract_int uninit rest1)

/-- What a line does to the interpreter. -/
inductive Effect where
  | ran (vars : Variables) (printed : Str)
  | undefined
  | other_command
deriving DecidableEq, Repr

/-- The branch `command == "div"` of `runLine` (lines 290-308), on the part `rest` of
the line that follows the command.  The quotient of `INT_MIN` by `-1` is no `int`: the
division is undefined there. -/
def Interpreter.div (uninit : Int) (rest : Str) (vars : Variables) : Effect :=
  let vv := read_var_value uninit rest
  match vars_find vv.1 vars with
  | none =>
    Effect.ran vars
      ("Error: variable '".toList ++ vv.1 ++ "' not found\n".toList)
  | some x =>
    if vv.2 = 0 then Effect.ran vars "Error: division by zero\n".toList
    else if x = INT_MIN ∧ vv.2 = -1 then Effect.undefined
    else Effect.ran (vars_set vv.1 (Int.tdiv x vv.2) vars) []

/-- The function `Interpreter::runLine` as far as the command `div` is concerned: the
two early returns, the reading of the command, and the branch of `div`; any other
command is left out. -/
def Interpreter.runLine (uninit : Int) (line : Str) (vars : Variables) : Effect :=
  if line = [] then Effect.ran vars []
  else if "comment".toList.isPrefixOf line then Effect.ran vars []
  else
    match extract_token line with
    | none => Effect.other_command
    | some (command, rest) =>
      if command = "div".toList then Interpreter.div uninit rest vars
      else Effect.other_command


/-! ## Notions of the specification -/

/-- The chunks that a drain loop is delivered by the pipe: the results of its reads up
to the first one that returns `n <= 0`. -/
def delivered (reads : List Str) : List Str := reads.takeWhile (fun c => !c.isEmpty)

/-- All the bytes that the pipe delivers in the listed loop iterations, in order. -/
def delivered_in (polls : List Poll) : Str :=
  (polls.map (fun q => (delivered q.recvs).flatten)).flatten

/-- The white-space separated tokens of a line. -/
def tokens (line : Str) : List Str :=
  (line.splitOnP isspace).filter (fun t => !t.isEmpty)

/-- The first line of a text: the bytes before its first line feed. -/
def first_line (s : Str) : Str := s.takeWhile (fun c => c != '\n')

/-- The header block of a request: the bytes before the first place where the
terminator CR LF CR LF starts (all the bytes when there is no such place). -/
def header_block : Str → Str
  | [] => []
  | c :: s => if CRLFCRLF.isPrefixOf (c :: s) then [] else c :: header_block s

/-- A JSON string body that needs no further escaping: it consists of bytes from 0x20
upwards other than the double quote and the backslash, and of two-byte escapes made of
a backslash and one of backslash, double quote, `n`, `r`, `t`. -/
def well_escaped : Str → Bool
  | [] => true
  | [c] => decide (c ≠ Char.ofNat 92 ∧ c ≠ Char.ofNat 34 ∧ 0x20 ≤ c.toNat)
  | c :: e :: rest =>
    if c = Char.ofNat 92 then
      decide (e = Char.ofNat 92 ∨ e = Char.ofNat 34 ∨ e = 'n' ∨ e = 'r' ∨ e = 't')
        && well_escaped rest
    else decide (c ≠ Char.ofNat 34 ∧ 0x20 ≤ c.toNat) && well_escaped (e :: rest)


/-- Every `%` of the string is followed by two base 16 digits. -/
def percent_ok : Str → Bool
  | [] => true
  | c :: rest =>
    (c != '%' ||
      (match rest with
       | x :: y :: _ => is_hex_digit x && is_hex_digit y
       | _ => false))
      && percent_ok rest

/-- The reference percent-decoding: `%XY` becomes the byte `16 * X + Y`, `+` becomes a
space, any other byte is copied. -/
def ref_decode : Str → Str
  | [] => []
  | c :: rest =>
    match rest with
    | x :: y :: rest2 =>
      if c = '%' then Char.ofNat (16 * hex_value x + hex_value y) :: ref_decode rest2
      else (if c = '+' then ' ' else c) :: ref_decode (x :: y :: rest2)
    | short => (if c = '+' then ' ' else c) :: ref_decode short


/-- The lines of the header block after the request line, each without its final CR. -/
def block_lines (raw : Str) : List Str :=
  ((getlines (header_block raw)).drop 1).map pop_cr

/-- The header lines that are read: the lines of the block up to the first empty one. -/
def header_lines (raw : Str) : List Str :=
  (block_lines raw).takeWhile (fun l => !l.isEmpty)

/-- The name of a header line: what stands before its first colon, trimmed, in lower
case. -/
def line_name (line : Str) : Str := to_lower (trim (line.takeWhile (fun c => c != ':')))

/-- The value of a header line: what stands after its first colon, trimmed. -/
def line_value (line : Str) : Str := trim ((line.dropWhile (fun c => c != ':')).drop 1)

/-- The value of the last of the lines that has a colon and the name `k`. -/
def last_value (k : Str) (lines : List Str) : Option Str :=
  (lines.reverse.find? (fun l => decide (':' ∈ l) && decide (line_name l = k))).map line_value


/-- The status code that a client reads in a response: the second token of its first
line, as a number. -/
def status_code_of (response : Str) : Option Int :=
  match tokens (first_line response) with
  | _ :: code :: _ => stoll code
  | _ => none

/-- What a JSON reader makes of the character after a backslash. -/
def unescape_char (e : Char) : Char :=
  if e = 'n' then '\n' else if e = 'r' then '\r' else if e = 't' then '\t' else e

/-- Standard unescaping of the body of a JSON string: a backslash and the byte after
it stand for one byte, any other byte for itself. -/
def json_unescape : Str → Str
  | [] => []
  | [c] => [c]
  | c :: e :: rest =>
    if c = Char.ofNat 92 then unescape_char e :: json_unescape rest
    else c :: json_unescape (e :: rest)

/-- The bytes that `json_escape` does not drop: those from 0x20 upwards, and LF, CR and
TAB. -/
def kept_byte (c : Char) : Bool :=
  decide (0x20 ≤ c.toNat) || c == '\n' || c == '\r' || c == '\t'


/-- The length that a header value declares: the decimal number it starts with, after
optional white space and an optional sign, whatever its size.  `none`: it starts with
no number. -/
def declared_length (value : Str) : Option Int :=
  let s1 := value.dropWhile isspace
  let neg : Bool := s1.head? = some '-'
  let s2 := if s1.head? = some '-' ∨ s1.head? = some '+' then s1.drop 1 else s1
  let digits := s2.takeWhile Char.isDigit
  if digits = [] then none
  else
    let v : Nat := digits.foldl (fun acc d => 10 * acc + (d.toNat - 48)) 0
    some (if neg then -(v : Int) else (v : Int))


/-! ## Concrete environments used to exercise the theorems -/

/-- The observations of a compiler that has printed `cc1plus` and is still running
after 5001 ms. -/
def penv_compile_timeout : ProcEnv :=
  { pipe_ok := true, fork_ok := true,
    polls := [⟨["cc1plus".toList], none, 5001⟩], final_reads := [] }

/-- A world in which the source file can be written and every sandbox invocation goes
as in `penv_compile_timeout`. -/
def env_compile_timeout : RunEnv Unit :=
  { create_directories := fun w => w,
    write_source := fun _ _ => some (),
    os := fun _ _ => (penv_compile_timeout, ()) }

/-- The observations of a compiler that exits with code 0 without output. -/
def penv_compiled : ProcEnv :=
  { pipe_ok := true, fork_ok := true,
    polls := [⟨[], none, 400⟩, ⟨[], some (WaitStatus.exited 0), 900⟩], final_reads := [] }

/-- The observations of a child that prints `hi`, then exits with code 3. -/
def penv_exit3 : ProcEnv :=
  { pipe_ok := true, fork_ok := true,
    polls := [⟨["h".toList], none, 0⟩, ⟨["i".toList], some (WaitStatus.exited 3), 11⟩],
    final_reads := [] }

/-- A world in which compilation succeeds and the program behaves as in `penv_exit3`. -/
def env_run_exit3 : RunEnv Unit :=
  { create_directories := fun w => w,
    write_source := fun _ _ => some (),
    os := fun _ call => if call.limit_resources then (penv_exit3, ()) else (penv_compiled, ()) }

/-- The observations of a child that exits with code 0 at once and prints nothing. -/
def penv_exit0 : ProcEnv :=
  { pipe_ok := true, fork_ok := true,
    polls := [⟨[], some (WaitStatus.exited 0), 3⟩], final_reads := [] }

/-- What the server sees of a child that exits while the write of the input is still
waiting for room in the pipe: SIGPIPE, and no iteration of the loop. -/
def penv_sigpipe : ProcEnv :=
  { pipe_ok := true, fork_ok := true, write_input := WriteOutcome.sigpipe,
    polls := [], final_reads := [] }

/-- A world with pipes that hold 65536 bytes, in which compilation succeeds and the
program is `int main()\x7breturn 0;\x7d`, which exits with code 0 without reading its
input: an input that fits in the pipe is written and the exit is observed, a longer one
leaves the write waiting until the exit of the program raises SIGPIPE. -/
def env_no_read : RunEnv Unit :=
  { create_directories := fun w => w,
    write_source := fun _ _ => some (),
    os := fun _ call =>
      if call.limit_resources then
        (if call.input.length ≤ 65536 then penv_exit0 else penv_sigpipe, ())
      else (penv_compiled, ()) }

/-- A world in which the source file cannot be opened for writing. -/
def env_unwritable : RunEnv Unit :=
  { create_directories := fun w => w,
    write_source := fun _ _ => none,
    os := fun _ _ => (penv_compiled, ()) }

/-- The observations of a child that exits with code 137. -/
def penv_exit137 : ProcEnv :=
  { pipe_ok := true, fork_ok := true,
    polls := [⟨[], some (WaitStatus.exited 137), 0⟩], final_reads := [] }

/-- The observations of a child that is killed by signal 9. -/
def penv_sigkill : ProcEnv :=
  { pipe_ok := true, fork_ok := true,
    polls := [⟨[], some (WaitStatus.signaled 9), 0⟩], final_reads := [] }

/-- The observations of a child that calls `exit(124)` at once. -/
def penv_exit124 : ProcEnv :=
  { pipe_ok := true, fork_ok := true,
    polls := [⟨[], some (WaitStatus.exited 124), 0⟩], final_reads := [] }

/-- The observations of a child that is killed by signal 11 after some output. -/
def penv_segv : ProcEnv :=
  { pipe_ok := true, fork_ok := true,
    polls := [⟨["ab".toList, "c".toList], none, 3⟩, ⟨[], some (WaitStatus.signaled 11), 14⟩],
    final_reads := ["d".toList] }

/-- The observations of a child that is still running after 2001 ms. -/
def penv_loop_forever : ProcEnv :=
  { pipe_ok := true, fork_ok := true,
    polls := [⟨[], none, 0⟩, ⟨["x".toList], none, 2001⟩],
    final_reads := ["y".toList] }

/-- A connection that delivers, in one chunk, a request declaring 524289 body bytes and
carrying five of them, and nothing more. -/
def recv_oversize : Nat → Str := fun k =>
  if k = 0 then
    "POST /save?name=a.cpp HTTP/1.1\r\nContent-Length: 524289\r\n\r\nhello".toList
  else []

/-- The bytes that `recv_oversize` delivers. -/
def raw_oversize : Str :=
  "POST /save?name=a.cpp HTTP/1.1\r\nContent-Length: 524289\r\n\r\nhello".toList

/-- The request that `raw_oversize` parses to. -/
def req_oversize : HttpRequest :=
  { method := "POST".toList, path := "/save?name=a.cpp".toList,
    headers := [("content-length".toList, "524289".toList)], body := "hello".toList }

/-- A connection that delivers a request with a five byte body in three chunks, cut
inside a header line and inside the body. -/
def recv_split : Nat → Str := fun k =>
  if k = 0 then "POST /run HTTP/1.1\r\nHost: x\r\nContent-".toList
  else if k = 1 then "Length: 5\r\nNoColon\r\n\r\nhe".toList
  else if k = 2 then "llo".toList
  else []

/-- The bytes that `recv_split` delivers. -/
def raw_split : Str :=
  "POST /run HTTP/1.1\r\nHost: x\r\nContent-Length: 5\r\nNoColon\r\n\r\nhello".toList

/-- The request that `raw_split` parses to. -/
def req_split : HttpRequest :=
  { method := "POST".toList, path := "/run".toList,
    headers := [("host".toList, "x".toList), ("content-length".toList, "5".toList)],
    body := "hello".toList }

/-- A request with a blank-separated request line, a tab among the blanks. -/
def raw_get_load : Str := "GET \t/load?name=a.cpp  HTTP/1.1\r\nHost: x\r\n\r\nbody".toList

/-- The request that `raw_get_load` parses to. -/
def req_get_load : HttpRequest :=
  { method := "GET".toList, path := "/load?name=a.cpp".toList,
    headers := [("host".toList, "x".toList)], body := "body".toList }

/-- A connection that never stops delivering the byte `a`, one per `recv`. -/
def recv_endless : Nat → Str := fun _ => ['a']

/-- A request in which a bare line feed leaves an empty line between two header lines
of the same name. -/
def raw_blank_line : Str := "GET / HTTP/1.1\nA: 1\n\nA: 2\r\n\r\n".toList

/-- The request that `raw_blank_line` parses to. -/
def req_blank_line : HttpRequest :=
  { method := "GET".toList, path := "/".toList, headers := [("a".toList, "1".toList)],
    body := [] }

/-- A request with a repeated header, a line without colon and mixed case names. -/
def raw_repeated : Str :=
  "GET /x HTTP/1.1\r\nX-Tag :  one \r\nnocolon\r\nHost: h\r\nx-tag:two\r\n\r\nB".toList

/-- The request that `raw_repeated` parses to. -/
def req_repeated : HttpRequest :=
  { method := "GET".toList, path := "/x".toList,
    headers := [("x-tag".toList, "two".toList), ("host".toList, "h".toList)],
    body := "B".toList }

/-- A connection that delivers `raw_get_load` in one chunk. -/
def recv_get_load : Nat → Str := fun k => if k = 0 then raw_get_load else []


/-- A connection that delivers, in one chunk, a request whose first line has a single
token and which declares a body length beyond the range of `long long`. -/
def recv_bad_line : Nat → Str := fun k =>
  if k = 0 then "BAD\r\nContent-Length: 99999999999999999999\r\n\r\nhello".toList else []

/-- A connection that delivers a request in two chunks; the line `Content-Length: 5` of
its header block comes after a line that a bare line feed leaves empty. -/
def recv_hidden_length : Nat → Str := fun k =>
  if k = 0 then "POST /run HTTP/1.1\nA: 1\n\nContent-Length: 5\r\n\r\nhe".toList
  else if k = 1 then "llo".toList
  else []

/-- The first chunk of `recv_hidden_length`. -/
def raw_hidden_length : Str :=
  "POST /run HTTP/1.1\nA: 1\n\nContent-Length: 5\r\n\r\nhe".toList

/-- A connection that delivers in two chunks a request whose first line has a single
token. -/
def recv_one_token : Nat → Str := fun k =>
  if k = 0 then "BAD\r\nContent-Length: 5\r\n\r\nhe".toList
  else if k = 1 then "llo".toList
  else []

/-- The first chunk of `recv_one_token`. -/
def raw_one_token : Str := "BAD\r\nContent-Length: 5\r\n\r\nhe".toList


/-- A file system without files in which every path can be written. -/
def fs_empty : FileSystem := { content := fun _ => none, can_write := fun _ => true }


/-- A stand-in for the JSON library that knows one submission. -/
def json_fields_demo : Str → Except Str (Str × Str) := fun body =>
  if body = "\x7b\"code\":\"int main()\x7b\x7d\"\x7d".toList then
    Except.ok ("int main()\x7b\x7d".toList, [])
  else Except.error "parse error".toList

/-- The request `POST /run` with the submission that `json_fields_demo` knows. -/
def req_run_demo : HttpRequest :=
  { method := "POST".toList, path := "/run".toList, headers := [],
    body := "\x7b\"code\":\"int main()\x7b\x7d\"\x7d".toList }

/-- The observations of a sandbox call whose `pipe` fails. -/
def penv_pipe_fails : ProcEnv :=
  { pipe_ok := false, fork_ok := true, polls := [], final_reads := [] }

/-- A world in which the source file can be written and `pipe` fails in every sandbox
call. -/
def env_pipe_fails : RunEnv Unit :=
  { create_directories := fun w => w,
    write_source := fun _ _ => some (),
    os := fun _ _ => (penv_pipe_fails, ()) }


/-- The observations of a child that is seen running when exactly 2000 ms have passed
and is seen killed by signal 9 when 5000 ms have passed. -/
def penv_late_kill : ProcEnv :=
  { pipe_ok := true, fork_ok := true,
    polls := [⟨[], none, 2000⟩, ⟨[], some (WaitStatus.signaled 9), 5000⟩],
    final_reads := [] }


end Server

namespace Server

/-! ## The execution pipeline -/

/-- C1: when the source file has been written and the compile invocation returns a
non-zero exit code (124, the value reported for a timeout, included), `handle_run_cpp`
returns the compile-stage failure object around the escaped compiler output, and the
compile invocation is the only sandbox invocation it makes. -/
theorem handle_run_cpp_compile_failed {σ : Type} (env : RunEnv σ) (w w1 : σ) (code input : Str)
    (compile : ProcResult)
    (hw : env.write_source (env.create_directories w) code = some w1)
    (hr : invoke (env.os w1 compile_call).1 compile_call = some compile)
    (hc : compile.exit_code ≠ 0) :
    handle_run_cpp env w code input =
      (some ("\x7b\"ok\":false,\"stage\":\"compile\",\"output\":\"".toList
          ++ json_escape compile.output ++ "\"\x7d".toList),
        [compile_call]) := by
  unfold handle_run_cpp
  simp only [hw, hr]
  rw [if_pos hc]

/-- C1 at a compile run that timed out (exit code 124). -/
theorem handle_run_cpp_compile_failed_witness :
    invoke (env_compile_timeout.os () compile_call).1 compile_call
      = some ⟨124, true, "cc1plus".toList⟩ ∧
    handle_run_cpp env_compile_timeout () "int main(".toList "7".toList =
      (some "\x7b\"ok\":false,\"stage\":\"compile\",\"output\":\"cc1plus\"\x7d".toList,
        [compile_call]) :=
  ⟨by decide,
   handle_run_cpp_compile_failed env_compile_timeout () () "int main(".toList "7".toList
    ⟨124, true, "cc1plus".toList⟩ rfl (by decide) (by decide)⟩

/-! ## The process sandbox -/

theorem drain_eq (out : Str) (reads : List Str) :
    drain out reads = out ++ (delivered reads).flatten := by
  induction reads generalizing out with
  | nil => simp [drain, delivered]
  | cons c cs ih =>
    by_cases h : c = []
    · simp [drain, delivered, h]
    · have hpos : c.length > 0 := List.length_pos.mpr h
      have hne : c.isEmpty = false := by cases c <;> simp_all
      have ih1 := ih (out ++ c)
      simp only [delivered] at ih1
      simp [drain, delivered, hpos, hne, List.takeWhile_cons, ih1]

theorem classify_timed_out (res : ProcResult) (st : WaitStatus) :
    (classify res st).timed_out = res.timed_out := by
  cases st <;> rfl

theorem classify_output (res : ProcResult) (st : WaitStatus) :
    (classify res st).output = res.output := by
  cases st <;> rfl

theorem classify_exit_code (res res1 : ProcResult) (st : WaitStatus)
    (h : res.exit_code = res1.exit_code) :
    (classify res st).exit_code = (classify res1 st).exit_code := by
  cases st <;> simp [classify, h]

theorem poll_loop_cons (timeout_ms : Int) (p : Poll) (ps : List Poll) (res : ProcResult) :
    poll_loop timeout_ms (p :: ps) res =
      match p.wait with
      | some status => some (classify { res with output := drain res.output p.recvs } status)
      | none =>
        if p.elapsed_ms > timeout_ms then
          some { res with output := drain res.output p.recvs, timed_out := true,
                          exit_code := 124 }
        else poll_loop timeout_ms ps { res with output := drain res.output p.recvs } := rfl

/-- The iterations in which the child is seen running within its deadline only add
what they drain to the output. -/
theorem poll_loop_append (timeout_ms : Int) (pre rest : List Poll) (res : ProcResult)
    (hpre : ∀ q ∈ pre, q.wait = none ∧ q.elapsed_ms ≤ timeout_ms) :
    poll_loop timeout_ms (pre ++ rest) res =
      poll_loop timeout_ms rest { res with output := res.output ++ delivered_in pre } := by
  induction pre generalizing res with
  | nil => simp [delivered_in]
  | cons q qs ih =>
    have hq := hpre q (List.mem_cons_self _ _)
    have hqs : ∀ x ∈ qs, x.wait = none ∧ x.elapsed_ms ≤ timeout_ms :=
      fun x hx => hpre x (List.mem_cons_of_mem _ hx)
    have hnot : ¬ q.elapsed_ms > timeout_ms := not_lt.mpr hq.2
    rw [List.cons_append, poll_loop_cons]
    simp only [hq.1, hnot, if_false]
    rw [ih _ hqs]
    simp [delivered_in, drain_eq, List.append_assoc]

/-- The timed-out flag is only ever set together with the exit code 124. -/
theorem poll_loop_timed_out (timeout_ms : Int) (polls : List Poll) (res r : ProcResult)
    (hres : res.timed_out = false) (h : poll_loop timeout_ms polls res = some r)
    (ht : r.timed_out = true) : r.exit_code = 124 := by
  induction polls generalizing res with
  | nil => simp [poll_loop] at h
  | cons p ps ih =>
    rw [poll_loop_cons] at h
    cases hw : p.wait with
    | some st =>
      simp only [hw, Option.some.injEq] at h
      subst h
      rw [classify_timed_out] at ht
      simp [hres] at ht
    | none =>
      simp only [hw] at h
      by_cases hd : p.elapsed_ms > timeout_ms
      · simp only [hd, if_true, Option.some.injEq] at h
        subst h
        rfl
      · simp only [hd, if_false] at h
        refine ih _ ?_ h
        exact hres

/-- Past `pipe` and `fork`, the call returns what the loop and the final drain yield,
unless the write of a non-empty input does not come back. -/
theorem run_process_capture_started (env : ProcEnv) (args : List Str) (input : Str)
    (timeout_ms : Int) (limit_resources : Bool)
    (hp : env.pipe_ok = true) (hf : env.fork_ok = true) :
    run_process_capture env args input timeout_ms limit_resources =
      if input ≠ [] ∧ env.write_input ≠ WriteOutcome.returned then none
      else (poll_loop timeout_ms env.polls {}).map
        (fun res1 => { res1 with output := drain res1.output env.final_reads }) := by
  unfold run_process_capture
  simp only [hp, hf, Bool.not_true, Bool.false_eq_true, if_false]
  split
  · rfl
  · cases poll_loop timeout_ms env.polls {} <;> rfl

/-- A parent that observes an iteration of its loop is past the write. -/
theorem run_process_capture_polled (env : ProcEnv) (args : List Str) (input : Str)
    (timeout_ms : Int) (limit_resources : Bool)
    (hp : env.pipe_ok = true) (hf : env.fork_ok = true) (hpolls : env.polls ≠ []) :
    run_process_capture env args input timeout_ms limit_resources =
      (poll_loop timeout_ms env.polls {}).map
        (fun res1 => { res1 with output := drain res1.output env.final_reads }) := by
  rw [run_process_capture_started env args input timeout_ms limit_resources hp hf]
  have hw : ¬ (input ≠ [] ∧ env.write_input ≠ WriteOutcome.returned) :=
    fun h => hpolls (env.in_loop h.2)
  rw [if_neg hw]

/-- When the write of a non-empty input does not come back, the call does not return. -/
theorem run_process_capture_write_stuck (env : ProcEnv) (args : List Str) (input : Str)
    (timeout_ms : Int) (limit_resources : Bool)
    (hp : env.pipe_ok = true) (hf : env.fork_ok = true) (hin : input ≠ [])
    (hw : env.write_input ≠ WriteOutcome.returned) :
    run_process_capture env args input timeout_ms limit_resources = none := by
  rw [run_process_capture_started env args input timeout_ms limit_resources hp hf,
    if_pos ⟨hin, hw⟩]

/-- C3: in every result that `run_process_capture` returns, whatever the pipe, fork,
poll and clock observations were, `timed_out = true` implies `exit_code = 124`. -/
theorem run_process_capture_timed_out (env : ProcEnv) (args : List Str) (input : Str)
    (timeout_ms : Int) (limit_resources : Bool) (r : ProcResult)
    (h : run_process_capture env args input timeout_ms limit_resources = some r)
    (ht : r.timed_out = true) : r.exit_code = 124 := by
  by_cases hp : env.pipe_ok = true
  · by_cases hf : env.fork_ok = true
    · rw [run_process_capture_started env args input timeout_ms limit_resources hp hf] at h
      split at h
      · cases h
      · cases hl : poll_loop timeout_ms env.polls {} with
        | none => simp [hl] at h
        | some res1 =>
          simp only [hl, Option.map_some', Option.some.injEq] at h
          subst h
          exact poll_loop_timed_out timeout_ms env.polls {} res1 rfl hl ht
    · unfold run_process_capture at h
      simp only [hp, hf, Bool.not_true, Bool.false_eq_true, if_false, Bool.not_false,
        if_true, Option.some.injEq] at h
      subst h
      simp at ht
  · unfold run_process_capture at h
    simp only [hp, Bool.not_false, if_true, Option.some.injEq] at h
    subst h
    simp at ht

/-- C3 at a child that is still running after 2001 ms of a 2000 ms budget. -/
theorem run_process_capture_timed_out_witness :
    run_process_capture penv_loop_forever [binary_path] [] 2000 true
        = some ⟨124, true, "xy".toList⟩ ∧
      (⟨124, true, "xy".toList⟩ : ProcResult).exit_code = 124 :=
  ⟨by decide,
   run_process_capture_timed_out penv_loop_forever [binary_path] [] 2000 true
      ⟨124, true, "xy".toList⟩ (by decide) rfl⟩

/-- C4, as stated, fails: a child that exits normally with code 137 and a child that is
killed by signal 9 are reported with the same exit code 137. -/
theorem exit_137_reported_like_sigkill :
    run_process_capture penv_exit137 [binary_path] [] 2000 true = some ⟨137, false, []⟩ ∧
    run_process_capture penv_sigkill [binary_path] [] 2000 true = some ⟨137, false, []⟩ := by
  decide

/-- C4, amended: the exit code reported for a normal exit with code `c` is `c`, the one
reported for a death by signal `s` is `128 + s`; the two coincide exactly when
`c = 128 + s`, so they differ for every `c` in `0..128` and every `s >= 1`. -/
theorem classify_exit_vs_signal (res : ProcResult) (c s : Nat) :
    (classify res (WaitStatus.exited c)).exit_code = (c : Int) ∧
    (classify res (WaitStatus.signaled s)).exit_code = 128 + (s : Int) ∧
    ((classify res (WaitStatus.exited c)).exit_code
        = (classify res (WaitStatus.signaled s)).exit_code ↔ c = 128 + s) ∧
    (c ≤ 128 → 1 ≤ s →
      (classify res (WaitStatus.exited c)).exit_code
        ≠ (classify res (WaitStatus.signaled s)).exit_code) := by
  refine ⟨rfl, rfl, ?_, ?_⟩
  · simp only [classify]
    omega
  · intro hc hs
    simp only [classify]
    omega

/-- C4, amended, at exit code 128 and signal 1. -/
theorem classify_exit_vs_signal_witness :
    (classify {} (WaitStatus.exited 128)).exit_code
      ≠ (classify {} (WaitStatus.signaled 1)).exit_code :=
  (classify_exit_vs_signal {} 128 1).2.2.2 (by decide) (by decide)

/-- C5, as stated, fails: a child that calls `exit(124)` before the deadline is
reported with the exit code 124 and `timed_out = false`. -/
theorem exit_124_without_timeout :
    run_process_capture penv_exit124 [binary_path] [] 2000 true = some ⟨124, false, []⟩ := by
  decide

/-- C5, amended: when the child is seen to terminate in an iteration before which every
iteration saw it running within the deadline, `run_process_capture` returns a result
with `timed_out = false` whose exit code is the classified status, and that exit code
is 124 exactly when the child exited normally with code 124. -/
theorem run_process_capture_terminated (env : ProcEnv) (args : List Str) (input : Str)
    (timeout_ms : Int) (limit_resources : Bool) (pre rest : List Poll) (recvs : List Str)
    (e : Int) (st : WaitStatus)
    (hp : env.pipe_ok = true) (hf : env.fork_ok = true)
    (hpolls : env.polls = pre ++ ⟨recvs, some st, e⟩ :: rest)
    (hpre : ∀ q ∈ pre, q.wait = none ∧ q.elapsed_ms ≤ timeout_ms) :
    ∃ r, run_process_capture env args input timeout_ms limit_resources = some r ∧
      r.timed_out = false ∧
      r.exit_code = (classify {} st).exit_code ∧
      (r.exit_code = 124 ↔ st = WaitStatus.exited 124) := by
  have hloop : poll_loop timeout_ms env.polls {} =
      some (classify { ({} : ProcResult) with
        output := drain (([] : Str) ++ delivered_in pre) recvs } st) := by
    rw [hpolls, poll_loop_append timeout_ms pre _ _ hpre, poll_loop_cons]
  refine ⟨{ classify { ({} : ProcResult) with
      output := drain (([] : Str) ++ delivered_in pre) recvs } st with
        output := drain (classify { ({} : ProcResult) with
          output := drain (([] : Str) ++ delivered_in pre) recvs } st).output
            env.final_reads }, ?_, ?_, ?_, ?_⟩
  · rw [run_process_capture_polled env args input timeout_ms limit_resources hp hf
      (by rw [hpolls]; simp), hloop]
    rfl
  · simp [classify_timed_out]
  · exact classify_exit_code _ _ st rfl
  · cases st with
    | exited c =>
      simp only [classify, WaitStatus.exited.injEq]
      omega
    | signaled s =>
      simp only [classify]
      constructor
      · intro h
        omega
      · intro h
        cases h
    | other =>
      simp only [classify]
      constructor
      · intro h
        simp at h
      · intro h
        cases h

/-- C5, amended, at a child killed by signal 11 in the second iteration. -/
theorem run_process_capture_terminated_witness :
    ∃ r, run_process_capture penv_segv [binary_path] [] 2000 true = some r ∧
      r.timed_out = false ∧
      r.exit_code = (classify {} (WaitStatus.signaled 11)).exit_code ∧
      (r.exit_code = 124 ↔ WaitStatus.signaled 11 = WaitStatus.exited 124) :=
  run_process_capture_terminated penv_segv [binary_path] [] 2000 true
    [⟨["ab".toList, "c".toList], none, 3⟩] [] [] 14 (WaitStatus.signaled 11) rfl rfl rfl
    (by decide)

/-- C6, as stated, fails: no cap bounds the output of `run_process_capture`, even when
every read delivers a single byte. -/
theorem output_has_no_cap :
    ¬ ∃ cap : Nat, ∀ (env : ProcEnv) (r : ProcResult),
      (∀ q ∈ env.polls, ∀ c ∈ q.recvs, c.length ≤ 4096) →
      (∀ c ∈ env.final_reads, c.length ≤ 4096) →
      run_process_capture env [binary_path] [] 2000 true = some r →
      r.output.length ≤ cap := by
  rintro ⟨cap, h⟩
  have h1 := h
    { pipe_ok := true, fork_ok := true, polls := [⟨[], some (WaitStatus.exited 0), 0⟩],
      final_reads := List.replicate (cap + 1) ['a'] }
    ⟨0, false, drain [] (List.replicate (cap + 1) ['a'])⟩
    (by simp) (by intro c hc; rw [List.eq_of_mem_replicate hc]; decide) rfl
  have hd : (delivered (List.replicate (cap + 1) ['a'])) = List.replicate (cap + 1) ['a'] := by
    unfold delivered
    rw [List.takeWhile_eq_self_iff]
    intro c hc
    rw [List.eq_of_mem_replicate hc]
    rfl
  simp only [drain_eq, hd, List.nil_append, List.flatten_replicate_singleton,
    List.length_replicate] at h1
  omega

/-- C6, amended: when the loop ends in the iteration `p` (the child has terminated, or
the deadline has passed), `run_process_capture` returns a result whose output is the
concatenation, in order, of every chunk delivered in the iterations up to `p` and in
the final drain: nothing is dropped, and the length of the output is the number of
bytes delivered. -/
theorem run_process_capture_output (env : ProcEnv) (args : List Str) (input : Str)
    (timeout_ms : Int) (limit_resources : Bool) (pre rest : List Poll) (p : Poll)
    (hp : env.pipe_ok = true) (hf : env.fork_ok = true)
    (hpolls : env.polls = pre ++ p :: rest)
    (hpre : ∀ q ∈ pre, q.wait = none ∧ q.elapsed_ms ≤ timeout_ms)
    (hend : p.wait ≠ none ∨ p.elapsed_ms > timeout_ms) :
    ∃ r, run_process_capture env args input timeout_ms limit_resources = some r ∧
      r.output = delivered_in (pre ++ [p]) ++ (delivered env.final_reads).flatten ∧
      r.output.length = (delivered_in (pre ++ [p])).length
        + ((delivered env.final_reads).map List.length).sum := by
  have hout : ∀ r1 : ProcResult,
      poll_loop timeout_ms env.polls {} = some r1 →
      r1.output = delivered_in (pre ++ [p]) →
      ∃ r, run_process_capture env args input timeout_ms limit_resources = some r ∧
        r.output = delivered_in (pre ++ [p]) ++ (delivered env.final_reads).flatten ∧
        r.output.length = (delivered_in (pre ++ [p])).length
          + ((delivered env.final_reads).map List.length).sum := by
    intro r1 hl ho
    refine ⟨{ r1 with output := drain r1.output env.final_reads }, ?_, ?_, ?_⟩
    · rw [run_process_capture_polled env args input timeout_ms limit_resources hp hf
        (by rw [hpolls]; simp), hl]
      rfl
    · simp [drain_eq, ho]
    · simp [drain_eq, ho, List.length_flatten]
  have hsplit : delivered_in (pre ++ [p]) = delivered_in pre ++ (delivered p.recvs).flatten := by
    simp [delivered_in]
  have hloop := poll_loop_append timeout_ms pre (p :: rest) {} hpre
  rw [← hpolls, poll_loop_cons] at hloop
  cases hw : p.wait with
  | some st =>
    simp only [hw] at hloop
    refine hout _ hloop ?_
    rw [classify_output, hsplit]
    simp [drain_eq]
  | none =>
    have hd : p.elapsed_ms > timeout_ms := by
      rcases hend with h | h
      · exact absurd hw h
      · exact h
    simp only [hw, hd, if_true] at hloop
    refine hout _ hloop ?_
    rw [hsplit]
    simp [drain_eq]

/-- C6, amended, at a child that is killed for its deadline after printing `x`. -/
theorem run_process_capture_output_witness :
    ∃ r, run_process_capture penv_loop_forever [binary_path] [] 2000 true = some r ∧
      r.output = delivered_in ([⟨[], none, 0⟩] ++ [⟨["x".toList], none, 2001⟩])
        ++ (delivered penv_loop_forever.final_reads).flatten ∧
      r.output.length = (delivered_in ([⟨[], none, 0⟩] ++ [⟨["x".toList], none, 2001⟩])).length
        + ((delivered penv_loop_forever.final_reads).map List.length).sum :=
  run_process_capture_output penv_loop_forever [binary_path] [] 2000 true
    [⟨[], none, 0⟩] [] ⟨["x".toList], none, 2001⟩ rfl rfl rfl (by decide) (by decide)

/-! ## Request framing -/

theorem find_str_eq_none_iff (pat s : Str) : find_str pat s = none ↔ ¬ pat <:+: s := by
  induction s with
  | nil =>
    simp only [find_str, List.infix_nil]
    by_cases h : pat.isPrefixOf [] = true
    · have := List.isPrefixOf_iff_prefix.mp h
      simp_all
    · have h1 : ¬ pat <+: [] := fun hp => h (List.isPrefixOf_iff_prefix.mpr hp)
      simp_all
  | cons c s ih =>
    rw [find_str, List.infix_cons_iff]
    by_cases h : pat.isPrefixOf (c :: s) = true
    · have := List.isPrefixOf_iff_prefix.mp h
      simp [h, this]
    · have h1 : ¬ pat <+: c :: s := fun hp => h (List.isPrefixOf_iff_prefix.mpr hp)
      simp only [h, if_false, Option.map_eq_none', ih, h1, false_or, Bool.false_eq_true]

theorem find_str_some_spec (pat s : Str) (i : Nat) (h : find_str pat s = some i) :
    pat <+: s.drop i ∧ i + pat.length ≤ s.length ∧ ∀ j < i, ¬ pat <+: s.drop j := by
  induction s generalizing i with
  | nil =>
    simp only [find_str] at h
    by_cases hp : pat.isPrefixOf [] = true
    · have hp1 := List.isPrefixOf_iff_prefix.mp hp
      simp only [hp, if_true, Option.some.injEq] at h
      subst h
      have : pat = [] := List.prefix_nil.mp hp1
      subst this
      simp
    · simp [hp] at h
  | cons c s ih =>
    rw [find_str] at h
    by_cases hp : pat.isPrefixOf (c :: s) = true
    · have hp1 := List.isPrefixOf_iff_prefix.mp hp
      simp only [hp, if_true, Option.some.injEq] at h
      subst h
      refine ⟨by simpa using hp1, by simpa using hp1.length_le, ?_⟩
      intro j hj
      omega
    · have hp1 : ¬ pat <+: c :: s := fun hq => hp (List.isPrefixOf_iff_prefix.mpr hq)
      simp only [hp, if_false, Bool.false_eq_true] at h
      cases hf : find_str pat s with
      | none => simp [hf] at h
      | some i1 =>
        simp only [hf, Option.map_some', Option.some.injEq] at h
        subst h
        obtain ⟨h1, h2, h3⟩ := ih i1 hf
        refine ⟨by simpa using h1, by simp only [List.length_cons]; omega, ?_⟩
        intro j hj
        cases j with
        | zero =>
          rw [List.drop_zero]
          exact hp1
        | succ j1 =>
          simp only [List.drop_succ_cons]
          exact h3 j1 (by omega)

theorem find_str_append (pat s t : Str) (i : Nat) (h : find_str pat s = some i) :
    find_str pat (s ++ t) = some i := by
  induction s generalizing i with
  | nil =>
    have h1 := find_str_some_spec pat [] i h
    have hpat : pat = [] := by
      have := h1.1
      simp at this
      exact this
    have hi : i = 0 := by
      have := h1.2.1
      simp at this
      omega
    subst hpat
    subst hi
    cases t <;> simp [find_str]
  | cons c s ih =>
    rw [find_str] at h
    rw [List.cons_append, find_str]
    by_cases hp : pat.isPrefixOf (c :: s) = true
    · have hp1 := List.isPrefixOf_iff_prefix.mp hp
      have hp2 : pat.isPrefixOf (c :: (s ++ t)) = true := by
        apply List.isPrefixOf_iff_prefix.mpr
        have := hp1.trans (List.prefix_append (c :: s) t)
        simpa using this
      simp only [hp, if_true] at h
      simp only [hp2, if_true]
      exact h
    · simp only [hp, if_false, Bool.false_eq_true] at h
      cases hf : find_str pat s with
      | none => simp [hf] at h
      | some i1 =>
        simp only [hf, Option.map_some', Option.some.injEq] at h
        subst h
        have hlen := (find_str_some_spec pat s i1 hf).2.1
        have hp2 : ¬ pat.isPrefixOf (c :: (s ++ t)) = true := by
          intro hq
          have hq1 := List.isPrefixOf_iff_prefix.mp hq
          have hq2 : c :: s <+: c :: (s ++ t) := by simp
          have := List.prefix_of_prefix_length_le hq1 hq2
            (by simp only [List.length_cons]; omega)
          exact hp (List.isPrefixOf_iff_prefix.mpr this)
        simp only [hp2, if_false, Bool.false_eq_true, ih i1 hf, Option.map_some']

theorem find_str_take (pat s : Str) (i : Nat) (h : find_str pat s = some i) :
    find_str pat (s.take (i + pat.length)) = some i := by
  induction s generalizing i with
  | nil =>
    rw [List.take_nil]
    exact h
  | cons c s ih =>
    rw [find_str] at h
    by_cases hp : pat.isPrefixOf (c :: s) = true
    · have hp1 := List.isPrefixOf_iff_prefix.mp hp
      simp only [hp, if_true, Option.some.injEq] at h
      subst h
      have htake : List.take (0 + pat.length) (c :: s) = pat := by
        rw [Nat.zero_add]
        exact (List.prefix_iff_eq_take.mp hp1).symm
      rw [htake]
      cases pat with
      | nil => simp [find_str]
      | cons a as =>
        rw [find_str]
        simp
    · have hp1 : ¬ pat <+: c :: s := fun hq => hp (List.isPrefixOf_iff_prefix.mpr hq)
      simp only [hp, if_false, Bool.false_eq_true] at h
      cases hf : find_str pat s with
      | none => simp [hf] at h
      | some i1 =>
        simp only [hf, Option.map_some', Option.some.injEq] at h
        subst h
        have e : i1 + 1 + pat.length = (i1 + pat.length) + 1 := by omega
        rw [e, List.take_succ_cons, find_str]
        have hp2 : ¬ pat.isPrefixOf (c :: List.take (i1 + pat.length) s) = true := by
          intro hq
          have hq1 := List.isPrefixOf_iff_prefix.mp hq
          have hq2 : c :: List.take (i1 + pat.length) s <+: c :: s :=
            (List.prefix_cons_inj c).mpr (List.take_prefix _ _)
          exact hp1 (hq1.trans hq2)
        simp only [hp2, if_false, Bool.false_eq_true, ih i1 hf, Option.map_some']

theorem header_block_eq_take (s : Str) (i : Nat) (h : find_str CRLFCRLF s = some i) :
    header_block s = s.take i := by
  induction s generalizing i with
  | nil =>
    simp [header_block]
  | cons c s ih =>
    rw [find_str] at h
    rw [header_block]
    by_cases hp : CRLFCRLF.isPrefixOf (c :: s) = true
    · simp only [hp, if_true, Option.some.injEq] at h
      subst h
      simp [hp]
    · simp only [hp, if_false, Bool.false_eq_true] at h
      cases hf : find_str CRLFCRLF s with
      | none => simp [hf] at h
      | some i1 =>
        simp only [hf, Option.map_some', Option.some.injEq] at h
        subst h
        simp [hp, ih i1 hf]

theorem parse_http_request_replace_body (a b : Str) (i : Nat)
    (h : find_str CRLFCRLF a = some i) :
    parse_http_request (a.take (i + 4) ++ b) =
      (parse_http_request a).map (fun r => { r with body := b }) := by
  have hspec := find_str_some_spec CRLFCRLF a i h
  have hlen : i + 4 ≤ a.length := hspec.2.1
  have h1 : find_str CRLFCRLF (a.take (i + 4) ++ b) = some i :=
    find_str_append _ _ b i (find_str_take CRLFCRLF a i h)
  have h2 : (a.take (i + 4) ++ b).take i = a.take i := by
    rw [List.take_append_of_le_length (by rw [List.length_take]; omega), List.take_take]
    congr 1
    omega
  have h3 : (a.take (i + 4) ++ b).drop (i + 4) = b := by
    rw [List.drop_append_of_le_length (by rw [List.length_take]; omega)]
    have : (List.take (i + 4) a).length = i + 4 := by rw [List.length_take]; omega
    rw [List.drop_eq_nil_of_le (by omega)]
    rfl
  unfold parse_http_request
  simp only [h, h1, h2, h3]
  cases getlines (List.take i a) with
  | nil => rfl
  | cons l ls =>
    simp only
    split <;> rfl

theorem received_succ (recv : Nat → Str) (k : Nat) :
    received recv (k + 1) = received recv k ++ recv k := rfl

theorem received_prefix (recv : Nat → Str) (k n : Nat) :
    ∃ t, received recv (k + n) = received recv k ++ t := by
  induction n with
  | zero => exact ⟨[], by simp⟩
  | succ n ih =>
    obtain ⟨t, ht⟩ := ih
    refine ⟨t ++ recv (k + n), ?_⟩
    rw [← Nat.add_assoc, received_succ, ht, List.append_assoc]

theorem read_headers_succ (recv : Nat → Str) (fuel k : Nat) (data : Str) :
    read_headers recv (fuel + 1) k data =
      if (find_str CRLFCRLF data).isSome then some (data, k)
      else if (recv k).length ≤ 0 then some (data, k + 1)
      else if (data ++ recv k).length > MAX_REQ then some (data ++ recv k, k + 1)
      else read_headers recv fuel (k + 1) (data ++ recv k) := rfl

theorem read_body_succ (recv : Nat → Str) (content_length : Int) (fuel k : Nat) (body : Str) :
    read_body recv content_length (fuel + 1) k body =
      if (body.length : Int) < content_length then
        if (recv k).length ≤ 0 then some (body, k + 1)
        else if (body ++ recv k).length > MAX_REQ then some (body ++ recv k, k + 1)
        else read_body recv content_length fuel (k + 1) (body ++ recv k)
      else some (body, k) := rfl

/-- What the first loop guarantees: the buffer is what the calls made so far delivered,
and every call was made on a buffer without terminator of at most `MAX_REQ` bytes. -/
theorem read_headers_spec (recv : Nat → Str) (fuel k : Nat) (data d : Str) (k1 : Nat)
    (h : read_headers recv fuel k data = some (d, k1))
    (hdata : data = received recv k) (hlen : data.length ≤ MAX_REQ)
    (hinv : ∀ j < k, find_str CRLFCRLF (received recv j) = none ∧
      (received recv j).length ≤ MAX_REQ) :
    d = received recv k1 ∧ k ≤ k1 ∧
    (∀ j < k1, find_str CRLFCRLF (received recv j) = none ∧
      (received recv j).length ≤ MAX_REQ) ∧
    (∀ lim, (∀ j, (recv j).length ≤ lim) → d.length ≤ MAX_REQ + lim) := by
  induction fuel generalizing k data with
  | zero => simp [read_headers] at h
  | succ fuel ih =>
    rw [read_headers_succ] at h
    by_cases hf : (find_str CRLFCRLF data).isSome = true
    · simp only [hf, if_true, Option.some.injEq, Prod.mk.injEq] at h
      obtain ⟨h1, h2⟩ := h
      subst h1
      subst h2
      exact ⟨hdata, le_refl _, hinv, fun lim _ => by omega⟩
    · have hnone : find_str CRLFCRLF data = none := by
        cases hx : find_str CRLFCRLF data with
        | none => rfl
        | some x => simp [hx] at hf
      have hinv1 : ∀ j < k + 1, find_str CRLFCRLF (received recv j) = none ∧
          (received recv j).length ≤ MAX_REQ := by
        intro j hj
        by_cases hjk : j < k
        · exact hinv j hjk
        · have : j = k := by omega
          subst this
          rw [← hdata]
          exact ⟨hnone, hlen⟩
      simp only [hf, if_false, Bool.false_eq_true] at h
      by_cases hc : (recv k).length ≤ 0
      · simp only [hc, if_true, Option.some.injEq, Prod.mk.injEq] at h
        obtain ⟨h1, h2⟩ := h
        subst h1
        subst h2
        have hnil : recv k = [] := List.length_eq_zero.mp (by omega)
        refine ⟨?_, by omega, hinv1, fun lim _ => by omega⟩
        rw [received_succ, hnil, List.append_nil]
        exact hdata
      · simp only [hc, if_false] at h
        by_cases hbig : (data ++ recv k).length > MAX_REQ
        · simp only [hbig, if_true, Option.some.injEq, Prod.mk.injEq] at h
          obtain ⟨h1, h2⟩ := h
          subst h1
          subst h2
          refine ⟨?_, by omega, hinv1, ?_⟩
          · rw [received_succ, hdata]
          · intro lim hl
            have := hl k
            rw [List.length_append]
            omega
        · simp only [hbig, if_false] at h
          have := ih (k + 1) (data ++ recv k) h (by rw [received_succ, hdata])
            (by omega) hinv1
          exact ⟨this.1, by omega, this.2.2.1, this.2.2.2⟩

theorem read_headers_total (recv : Nat → Str) (fuel k : Nat) (data : Str)
    (hfuel : 1 ≤ fuel)
    (hm : find_str CRLFCRLF data = none → MAX_REQ + 2 ≤ fuel + data.length) :
    ∃ r, read_headers recv fuel k data = some r := by
  induction fuel generalizing k data with
  | zero => omega
  | succ fuel ih =>
    rw [read_headers_succ]
    by_cases hf : (find_str CRLFCRLF data).isSome = true
    · exact ⟨(data, k), by simp only [hf, if_true]⟩
    · have hnone : find_str CRLFCRLF data = none := by
        cases hx : find_str CRLFCRLF data with
        | none => rfl
        | some x => simp [hx] at hf
      have hm1 := hm hnone
      simp only [hf, if_false, Bool.false_eq_true]
      by_cases hc : (recv k).length ≤ 0
      · exact ⟨(data, k + 1), by simp only [hc, if_true]⟩
      · simp only [hc, if_false]
        by_cases hbig : (data ++ recv k).length > MAX_REQ
        · exact ⟨(data ++ recv k, k + 1), by simp only [hbig, if_true]⟩
        · simp only [hbig, if_false]
          rw [List.length_append] at hbig
          apply ih
          · omega
          · intro _
            rw [List.length_append]
            omega

theorem read_headers_mono (recv : Nat → Str) (fuel n k : Nat) (data : Str) (r : Str × Nat)
    (h : read_headers recv fuel k data = some r) :
    read_headers recv (fuel + n) k data = some r := by
  induction fuel generalizing k data with
  | zero => simp [read_headers] at h
  | succ fuel ih =>
    have e : fuel + 1 + n = (fuel + n) + 1 := by omega
    rw [e, read_headers_succ]
    rw [read_headers_succ] at h
    by_cases hf : (find_str CRLFCRLF data).isSome = true
    · simp only [hf, if_true] at h
      simp only [hf, if_true]
      exact h
    · simp only [hf, if_false, Bool.false_eq_true] at h
      simp only [hf, if_false, Bool.false_eq_true]
      by_cases hc : (recv k).length ≤ 0
      · simp only [hc, if_true] at h
        simp only [hc, if_true]
        exact h
      · simp only [hc, if_false] at h
        simp only [hc, if_false]
        by_cases hbig : (data ++ recv k).length > MAX_REQ
        · simp only [hbig, if_true] at h
          simp only [hbig, if_true]
          exact h
        · simp only [hbig, if_false] at h
          simp only [hbig, if_false]
          exact ih _ _ h

/-- What the second loop guarantees: the body stays what the stream delivered after the
header block, and the loop ends with `content_length` bytes or on a failed `recv`. -/
theorem read_body_spec (recv : Nat → Str) (content_length : Int) (fuel k : Nat)
    (pre body b : Str) (k1 : Nat)
    (h : read_body recv content_length fuel k body = some (b, k1))
    (hpre : pre ++ body = received recv k) (hmax : content_length ≤ (MAX_REQ : Int)) :
    pre ++ b = received recv k1 ∧ k ≤ k1 ∧
    (content_length ≤ (b.length : Int) ∨ (1 ≤ k1 ∧ recv (k1 - 1) = [])) := by
  induction fuel generalizing k body with
  | zero => simp [read_body] at h
  | succ fuel ih =>
    rw [read_body_succ] at h
    by_cases hlt : (body.length : Int) < content_length
    · simp only [hlt, if_true] at h
      by_cases hc : (recv k).length ≤ 0
      · simp only [hc, if_true, Option.some.injEq, Prod.mk.injEq] at h
        obtain ⟨h1, h2⟩ := h
        subst h1
        subst h2
        have hnil : recv k = [] := List.length_eq_zero.mp (by omega)
        refine ⟨?_, by omega, Or.inr ⟨by omega, by simpa using hnil⟩⟩
        rw [received_succ, hnil, List.append_nil]
        exact hpre
      · simp only [hc, if_false] at h
        by_cases hbig : (body ++ recv k).length > MAX_REQ
        · simp only [hbig, if_true, Option.some.injEq, Prod.mk.injEq] at h
          obtain ⟨h1, h2⟩ := h
          subst h1
          subst h2
          refine ⟨?_, by omega, Or.inl (by omega)⟩
          rw [received_succ, ← hpre, List.append_assoc]
        · simp only [hbig, if_false] at h
          have := ih (k + 1) (body ++ recv k) h
            (by rw [received_succ, ← hpre, List.append_assoc])
          exact ⟨this.1, by omega, this.2.2⟩
    · simp only [hlt, if_false, Option.some.injEq, Prod.mk.injEq] at h
      obtain ⟨h1, h2⟩ := h
      subst h1
      subst h2
      exact ⟨hpre, le_refl _, Or.inl (by omega)⟩

theorem read_body_total (recv : Nat → Str) (content_length : Int) (fuel k : Nat) (body : Str)
    (hfuel : 1 ≤ fuel)
    (hm : (body.length : Int) < content_length →
      content_length + 1 ≤ (fuel : Int) + (body.length : Int)) :
    ∃ r, read_body recv content_length fuel k body = some r := by
  induction fuel generalizing k body with
  | zero => omega
  | succ fuel ih =>
    rw [read_body_succ]
    by_cases hlt : (body.length : Int) < content_length
    · have hm1 := hm hlt
      simp only [hlt, if_true]
      by_cases hc : (recv k).length ≤ 0
      · exact ⟨(body, k + 1), by simp only [hc, if_true]⟩
      · simp only [hc, if_false]
        by_cases hbig : (body ++ recv k).length > MAX_REQ
        · exact ⟨(body ++ recv k, k + 1), by simp only [hbig, if_true]⟩
        · simp only [hbig, if_false]
          apply ih
          · push_cast at hm1
            omega
          · intro _
            rw [List.length_append]
            push_cast at hm1 ⊢
            omega
    · exact ⟨(body, k), by simp only [hlt, if_false]⟩

theorem read_body_mono (recv : Nat → Str) (content_length : Int) (fuel n k : Nat) (body : Str)
    (r : Str × Nat) (h : read_body recv content_length fuel k body = some r) :
    read_body recv content_length (fuel + n) k body = some r := by
  induction fuel generalizing k body with
  | zero => simp [read_body] at h
  | succ fuel ih =>
    have e : fuel + 1 + n = (fuel + n) + 1 := by omega
    rw [e, read_body_succ]
    rw [read_body_succ] at h
    by_cases hlt : (body.length : Int) < content_length
    · simp only [hlt, if_true] at h
      simp only [hlt, if_true]
      by_cases hc : (recv k).length ≤ 0
      · simp only [hc, if_true] at h
        simp only [hc, if_true]
        exact h
      · simp only [hc, if_false] at h
        simp only [hc, if_false]
        by_cases hbig : (body ++ recv k).length > MAX_REQ
        · simp only [hbig, if_true] at h
          simp only [hbig, if_true]
          exact h
        · simp only [hbig, if_false] at h
          simp only [hbig, if_false]
          exact ih _ _ h
    · simp only [hlt, if_false] at h
      simp only [hlt, if_false]
      exact h

/-- The steps of `read_http_from_socket` after its first loop, as a function of what
that loop returned. -/
theorem read_http_from_socket_eq (recv : Nat → Str) (fuel : Nat) :
    read_http_from_socket recv fuel =
      match read_headers recv fuel 0 [] with
      | none => none
      | some (data, k) =>
        match find_str CRLFCRLF data with
        | none => some (data, k)
        | some header_end =>
          match parse_http_request data with
          | none => some (data, k)
          | some req =>
            match headers_find "content-length".toList req.headers with
            | none => some (data, k)
            | some value =>
              match stoll value with
              | none => some (data, k)
              | some content_length =>
                if content_length < 0 ∨ content_length > (MAX_REQ : Int) then some (data, k)
                else
                  match read_body recv content_length fuel k (data.drop (header_end + 4)) with
                  | none => none
                  | some (body, k1) => some (data.take (header_end + 4) ++ body, k1) := rfl

theorem read_http_from_socket_mono (recv : Nat → Str) (fuel n : Nat) (r : Str × Nat)
    (h : read_http_from_socket recv fuel = some r) :
    read_http_from_socket recv (fuel + n) = some r := by
  rw [read_http_from_socket_eq] at h ⊢
  cases h1 : read_headers recv fuel 0 [] with
  | none => simp [h1] at h
  | some dk =>
    obtain ⟨data, k⟩ := dk
    rw [read_headers_mono recv fuel n 0 [] (data, k) h1]
    simp only [h1] at h
    simp only
    cases h2 : find_str CRLFCRLF data with
    | none => simpa only [h2] using h
    | some header_end =>
      simp only [h2] at h ⊢
      cases h3 : parse_http_request data with
      | none => simpa only [h3] using h
      | some req =>
        simp only [h3] at h ⊢
        cases h4 : headers_find "content-length".toList req.headers with
        | none => simpa only [h4] using h
        | some value =>
          simp only [h4] at h ⊢
          cases h5 : stoll value with
          | none => simpa only [h5] using h
          | some content_length =>
            simp only [h5] at h ⊢
            by_cases h6 : content_length < 0 ∨ content_length > (MAX_REQ : Int)
            · simpa only [h6, if_true] using h
            · simp only [h6, if_false] at h ⊢
              cases h7 : read_body recv content_length fuel k (data.drop (header_end + 4)) with
              | none => simp [h7] at h
              | some bk =>
                rw [read_body_mono recv content_length fuel n k _ bk h7]
                simpa only [h7] using h

theorem read_http_from_socket_total (recv : Nat → Str) (fuel : Nat)
    (hfuel : MAX_REQ + 2 ≤ fuel) : ∃ r, read_http_from_socket recv fuel = some r := by
  rw [read_http_from_socket_eq]
  obtain ⟨dk, h1⟩ := read_headers_total recv fuel 0 [] (by omega)
    (fun _ => by simp only [List.length_nil]; omega)
  obtain ⟨data, k⟩ := dk
  simp only [h1]
  cases h2 : find_str CRLFCRLF data with
  | none => exact ⟨_, rfl⟩
  | some header_end =>
    simp only
    cases h3 : parse_http_request data with
    | none => exact ⟨_, rfl⟩
    | some req =>
      simp only
      cases h4 : headers_find "content-length".toList req.headers with
      | none => exact ⟨_, rfl⟩
      | some value =>
        simp only
        cases h5 : stoll value with
        | none => exact ⟨_, rfl⟩
        | some content_length =>
          simp only
          by_cases h6 : content_length < 0 ∨ content_length > (MAX_REQ : Int)
          · simp only [h6, if_true]
            exact ⟨_, rfl⟩
          · simp only [h6, if_false]
            obtain ⟨bk, h7⟩ := read_body_total recv content_length fuel k
              (data.drop (header_end + 4)) (by omega) (fun _ => by omega)
            rw [h7]
            exact ⟨_, rfl⟩

/-- A result obtained with some fuel is the result for every fuel that is enough. -/
theorem read_http_from_socket_stable (recv : Nat → Str) (fuel fuel1 : Nat) (r : Str × Nat)
    (h : read_http_from_socket recv fuel = some r) (hfuel : MAX_REQ + 2 ≤ fuel1) :
    read_http_from_socket recv fuel1 = some r := by
  obtain ⟨r1, h1⟩ := read_http_from_socket_total recv fuel1 hfuel
  have e1 := read_http_from_socket_mono recv fuel fuel1 r h
  have e2 := read_http_from_socket_mono recv fuel1 fuel r1 h1
  rw [Nat.add_comm fuel1 fuel, e1] at e2
  rw [h1, ← Option.some.inj e2]

/-- The two ways in which `read_http_from_socket` returns: the buffer of the first
loop as it is, or its header block followed by the body that the second loop read for
a content length within `0..MAX_REQ`. -/
theorem read_http_from_socket_cases (recv : Nat → Str) (fuel : Nat) (raw : Str) (k : Nat)
    (h : read_http_from_socket recv fuel = some (raw, k)) :
    ∃ data k0, read_headers recv fuel 0 [] = some (data, k0) ∧
      ((raw = data ∧ k = k0 ∧
          ∀ req value n, parse_http_request data = some req →
            headers_find "content-length".toList req.headers = some value →
            stoll value = some n → n < 0 ∨ n > (MAX_REQ : Int)) ∨
        (∃ header_end req value n body,
          find_str CRLFCRLF data = some header_end ∧
          parse_http_request data = some req ∧
          headers_find "content-length".toList req.headers = some value ∧
          stoll value = some n ∧ 0 ≤ n ∧ n ≤ (MAX_REQ : Int) ∧
          read_body recv n fuel k0 (data.drop (header_end + 4)) = some (body, k) ∧
          raw = data.take (header_end + 4) ++ body)) := by
  rw [read_http_from_socket_eq] at h
  cases h1 : read_headers recv fuel 0 [] with
  | none => simp [h1] at h
  | some dk =>
    obtain ⟨data, k0⟩ := dk
    refine ⟨data, k0, rfl, ?_⟩
    simp only [h1] at h
    cases h2 : find_str CRLFCRLF data with
    | none =>
      simp only [h2, Option.some.injEq, Prod.mk.injEq] at h
      refine Or.inl ⟨h.1.symm, h.2.symm, ?_⟩
      intro req value n hreq
      simp [parse_http_request, h2] at hreq
    | some header_end =>
      simp only [h2] at h
      cases h3 : parse_http_request data with
      | none =>
        simp only [h3, Option.some.injEq, Prod.mk.injEq] at h
        refine Or.inl ⟨h.1.symm, h.2.symm, ?_⟩
        intro req value n hreq
        cases hreq
      | some req0 =>
        simp only [h3] at h
        cases h4 : headers_find "content-length".toList req0.headers with
        | none =>
          simp only [h4, Option.some.injEq, Prod.mk.injEq] at h
          refine Or.inl ⟨h.1.symm, h.2.symm, ?_⟩
          intro req value n hreq hv
          cases hreq
          rw [h4] at hv
          cases hv
        | some value0 =>
          simp only [h4] at h
          cases h5 : stoll value0 with
          | none =>
            simp only [h5, Option.some.injEq, Prod.mk.injEq] at h
            refine Or.inl ⟨h.1.symm, h.2.symm, ?_⟩
            intro req value n hreq hv hn
            cases hreq
            rw [h4] at hv
            cases hv
            rw [h5] at hn
            cases hn
          | some n0 =>
            simp only [h5] at h
            by_cases h6 : n0 < 0 ∨ n0 > (MAX_REQ : Int)
            · simp only [h6, if_true, Option.some.injEq, Prod.mk.injEq] at h
              refine Or.inl ⟨h.1.symm, h.2.symm, ?_⟩
              intro req value n hreq hv hn
              cases hreq
              rw [h4] at hv
              cases hv
              rw [h5] at hn
              cases hn
              exact h6
            · simp only [h6, if_false] at h
              cases h7 : read_body recv n0 fuel k0 (data.drop (header_end + 4)) with
              | none => simp [h7] at h
              | some bk =>
                obtain ⟨body, k1⟩ := bk
                simp only [h7, Option.some.injEq, Prod.mk.injEq] at h
                refine Or.inr ⟨header_end, req0, value0, n0, body, rfl, rfl, h4, h5,
                  by omega, by omega, ?_, h.1.symm⟩
                rw [← h.2]
                exact h7

/-- C7, as stated, fails: a request that declares 524289 body bytes is not rejected.
The reader returns the bytes of its single `recv`, they parse, and the connection
handler routes the request to the save endpoint with the five buffered bytes as its
body instead of answering 400. -/
theorem oversize_request_is_dispatched :
    read_http_from_socket recv_oversize (MAX_REQ + 2) = some (raw_oversize, 1) ∧
    parse_http_request raw_oversize = some req_oversize ∧
    headers_find "content-length".toList req_oversize.headers = some "524289".toList ∧
    stoll "524289".toList = some 524289 ∧
    (524289 : Int) > (MAX_REQ : Int) ∧
    frame_and_route raw_oversize = Except.ok (req_oversize, Route.save) :=
  ⟨by decide, by decide, by decide, by decide, by decide, rfl⟩

/-- C10: on every connection, endless ones included, whose `recv` calls deliver at most
4096 bytes each, `read_http_from_socket` returns, for every fuel of at least
`MAX_REQ + 2`; what it returns is what its `recv` calls delivered; each call made
while no terminator had been seen was made on at most `MAX_REQ` buffered bytes; and
when the result holds no terminator, it has at most `MAX_REQ + 4096` bytes. -/
theorem read_http_from_socket_terminates (recv : Nat → Str)
    (hchunk : ∀ j, (recv j).length ≤ 4096) (fuel : Nat) (hfuel : MAX_REQ + 2 ≤ fuel) :
    ∃ raw k, read_http_from_socket recv fuel = some (raw, k) ∧
      raw = received recv k ∧
      (∀ j < k, ¬ CRLFCRLF <:+: received recv j → (received recv j).length ≤ MAX_REQ) ∧
      (¬ CRLFCRLF <:+: raw → raw.length ≤ MAX_REQ + 4096) := by
  obtain ⟨r, h⟩ := read_http_from_socket_total recv fuel hfuel
  obtain ⟨raw, k⟩ := r
  refine ⟨raw, k, h, ?_⟩
  obtain ⟨data, k0, h1, hcase⟩ := read_http_from_socket_cases recv fuel raw k h
  have hspec := read_headers_spec recv fuel 0 [] data k0 h1 rfl (by simp)
    (fun j hj => absurd hj (Nat.not_lt_zero j))
  rcases hcase with ⟨hraw, hk, _⟩ | ⟨header_end, req0, value0, n0, body, h2, h3, h4, h5, h6, h7,
      h8, hraw⟩
  · subst hraw
    subst hk
    exact ⟨hspec.1, fun j hj _ => (hspec.2.2.1 j hj).2, fun _ => hspec.2.2.2 4096 hchunk⟩
  · have hb := read_body_spec recv n0 fuel k0 (data.take (header_end + 4))
      (data.drop (header_end + 4)) body k h8
      (by rw [List.take_append_drop]; exact hspec.1) h7
    refine ⟨by rw [hraw]; exact hb.1, ?_, ?_⟩
    · intro j hj hno
      by_cases hjk : j < k0
      · exact (hspec.2.2.1 j hjk).2
      · exfalso
        obtain ⟨t, ht⟩ := received_prefix recv k0 (j - k0)
        have e : k0 + (j - k0) = j := by omega
        rw [e, ← hspec.1] at ht
        have := find_str_append CRLFCRLF data t header_end h2
        rw [← ht] at this
        have hnone := (find_str_eq_none_iff CRLFCRLF (received recv j)).mpr hno
        rw [hnone] at this
        cases this
    · intro hno
      exfalso
      have hfind : find_str CRLFCRLF raw = some header_end := by
        rw [hraw]
        exact find_str_append _ _ body header_end (find_str_take CRLFCRLF data header_end h2)
      have hnone := (find_str_eq_none_iff CRLFCRLF raw).mpr hno
      rw [hnone] at hfind
      cases hfind

/-- C10 at a connection that delivers the byte `a` for ever. -/
theorem read_http_from_socket_terminates_witness :
    ∃ raw k, read_http_from_socket recv_endless (MAX_REQ + 2) = some (raw, k) ∧
      raw = received recv_endless k ∧
      (∀ j < k, ¬ CRLFCRLF <:+: received recv_endless j →
        (received recv_endless j).length ≤ MAX_REQ) ∧
      (¬ CRLFCRLF <:+: raw → raw.length ≤ MAX_REQ + 4096) :=
  read_http_from_socket_terminates recv_endless
    (fun _ => show ['a'].length ≤ 4096 by decide) (MAX_REQ + 2) (le_refl _)

/-! ## The request line -/

theorem getlines_cons_first_line (s : Str) (hs : s ≠ []) :
    ∃ ls, getlines s = first_line s :: ls := by
  induction s with
  | nil => exact absurd rfl hs
  | cons c s ih =>
    rw [getlines]
    by_cases hc : c = '\n'
    · subst hc
      exact ⟨getlines s, by simp [first_line]⟩
    · have hfl : first_line (c :: s) = c :: first_line s := by
        simp [first_line, List.takeWhile_cons, hc]
      simp only [hc, if_false]
      cases s with
      | nil => exact ⟨[], by simp [getlines, first_line, hc]⟩
      | cons d s1 =>
        obtain ⟨ls, hls⟩ := ih (List.cons_ne_nil d s1)
        exact ⟨ls, by rw [hls, hfl]⟩

theorem dropWhile_head_false (q : Char → Bool) (s r : Str) (w : Char)
    (h : s.dropWhile q = w :: r) : q w = false := by
  induction s with
  | nil => simp at h
  | cons c s ih =>
    rw [List.dropWhile_cons] at h
    by_cases hq : q c = true
    · simp only [hq, if_true] at h
      exact ih h
    · simp only [hq, if_false, List.cons.injEq, Bool.false_eq_true] at h
      rw [← h.1]
      simpa using hq

theorem splitOnP_eq_takeWhile_cons (p : Char → Bool) (s : Str) :
    s.splitOnP p = s.takeWhile (fun c => !p c) ::
      (match s.dropWhile (fun c => !p c) with
       | [] => []
       | _ :: r => r.splitOnP p) := by
  induction s with
  | nil => simp [List.splitOnP_nil]
  | cons c s ih =>
    rw [List.splitOnP_cons]
    by_cases hp : p c = true
    · simp [hp, List.takeWhile_cons, List.dropWhile_cons]
    · have hp1 : p c = false := by simpa using hp
      rw [ih]
      simp [hp1, List.takeWhile_cons, List.dropWhile_cons, List.modifyHead_cons]

theorem splitOnP_append_sep (p : Char → Bool) (a : Str) (w : Char) (hw : p w = true) :
    (a ++ [w]).splitOnP p = a.splitOnP p ++ [[]] := by
  induction a with
  | nil => simp [List.splitOnP_cons, List.splitOnP_nil, hw]
  | cons c a ih =>
    rw [List.cons_append, List.splitOnP_cons, List.splitOnP_cons, ih]
    by_cases hp : p c = true
    · simp [hp]
    · simp only [hp, if_false, Bool.false_eq_true]
      cases hs : List.splitOnP p a with
      | nil => exact absurd hs (List.splitOnP_ne_nil p a)
      | cons x xs => simp [List.modifyHead_cons]

theorem tokens_nil : tokens [] = [] := by
  simp [tokens, List.splitOnP_nil]

theorem tokens_cons_space (c : Char) (s : Str) (hc : isspace c = true) :
    tokens (c :: s) = tokens s := by
  simp [tokens, List.splitOnP_cons, hc]

theorem tokens_ne_nil (s t : Str) (h : t ∈ tokens s) : t ≠ [] := by
  simp only [tokens, List.mem_filter] at h
  intro ht
  rw [ht] at h
  simp at h

theorem tokens_dropWhile (s : Str) : tokens (s.dropWhile isspace) = tokens s := by
  induction s with
  | nil => rfl
  | cons c s ih =>
    rw [List.dropWhile_cons]
    by_cases hc : isspace c = true
    · simp only [hc, if_true]
      rw [ih, tokens_cons_space c s hc]
    · simp only [hc, if_false, Bool.false_eq_true]

theorem tokens_append_space (a : Str) (w : Char) (hw : isspace w = true) :
    tokens (a ++ [w]) = tokens a := by
  simp [tokens, splitOnP_append_sep isspace a w hw]

theorem tokens_pop_cr (l : Str) : tokens (pop_cr l) = tokens l := by
  unfold pop_cr
  by_cases h : l.getLast? = some '\r'
  · simp only [h, if_true]
    obtain ⟨ys, hys⟩ := List.getLast?_eq_some_iff.mp h
    rw [hys, List.dropLast_concat, tokens_append_space ys '\r' (by decide)]
  · simp only [h, if_false]

theorem tokens_of_head_not_space (c : Char) (s : Str) (hc : isspace c = false) :
    tokens (c :: s) = (c :: s).takeWhile (fun x => !isspace x)
      :: tokens ((c :: s).dropWhile (fun x => !isspace x)) := by
  have h1 : tokens (c :: s) = ((c :: s).splitOnP isspace).filter (fun t => !t.isEmpty) := rfl
  rw [h1, splitOnP_eq_takeWhile_cons isspace (c :: s)]
  have htw : (c :: s).takeWhile (fun x => !isspace x)
      = c :: s.takeWhile (fun x => !isspace x) := by
    simp [List.takeWhile_cons, hc]
  rw [List.filter_cons, htw]
  simp only [List.isEmpty_cons, Bool.not_false, if_true]
  congr 1
  cases hd : (c :: s).dropWhile (fun x => !isspace x) with
  | nil => simp [tokens_nil]
  | cons w r =>
    have hw := dropWhile_head_false (fun x => !isspace x) (c :: s) r w hd
    have hw1 : isspace w = true := by simpa using hw
    rw [tokens_cons_space w r hw1]
    rfl

theorem extract_token_spec (s : Str) :
    match extract_token s with
    | none => tokens s = []
    | some (t, r) => tokens s = t :: tokens r := by
  unfold extract_token
  cases hd : s.dropWhile isspace with
  | nil =>
    simp only [if_true]
    rw [← tokens_dropWhile, hd, tokens_nil]
  | cons c s1 =>
    have hc := dropWhile_head_false isspace s s1 c hd
    simp only [List.cons_ne_nil, if_false]
    rw [← tokens_dropWhile, hd]
    exact tokens_of_head_not_space c s1 hc

/-- The statement `rl >> req.method >> req.path >> version` leaves the first two
white-space separated tokens of the line in `req.method` and `req.path`, the empty
string standing for a missing token. -/
theorem read_request_line_eq (l : Str) :
    read_request_line l = ((tokens l)[0]?.getD [], (tokens l)[1]?.getD []) := by
  unfold read_request_line
  have h1 := extract_token_spec l
  cases he : extract_token l with
  | none =>
    simp only [he] at h1
    simp [h1]
  | some tr =>
    obtain ⟨t, r⟩ := tr
    simp only [he] at h1
    have h2 := extract_token_spec r
    cases he2 : extract_token r with
    | none =>
      simp only [he2] at h2
      simp [he2, h1, h2]
    | some tr2 =>
      obtain ⟨t2, r2⟩ := tr2
      simp only [he2] at h2
      simp [he2, h1, h2]

theorem first_two_tokens (toks : List Str) (hne : ∀ t ∈ toks, t ≠ []) :
    ((toks[0]?.getD [] = [] ∨ toks[1]?.getD [] = []) ↔ toks.length < 2) ∧
    (¬ (toks[0]?.getD [] = [] ∨ toks[1]?.getD [] = []) →
      toks[0]? = some (toks[0]?.getD []) ∧ toks[1]? = some (toks[1]?.getD [])) := by
  cases toks with
  | nil => simp
  | cons a ts =>
    have ha : a ≠ [] := hne a (List.mem_cons_self _ _)
    cases ts with
    | nil => simp
    | cons b ts1 =>
      have hb : b ≠ [] := hne b (List.mem_cons_of_mem _ (List.mem_cons_self _ _))
      simp [ha, hb]

/-- C9: `parse_http_request` returns no request exactly when the bytes hold no
CR LF CR LF terminator or the first line of the header block has fewer than two
white-space separated tokens; a request it returns has the first token of that line as
method and the second as path. -/
theorem parse_http_request_none_iff (raw : Str) :
    (parse_http_request raw = none ↔
      (¬ CRLFCRLF <:+: raw ∨ (tokens (first_line (header_block raw))).length < 2)) ∧
    (∀ req, parse_http_request raw = some req →
      (tokens (first_line (header_block raw)))[0]? = some req.method ∧
      (tokens (first_line (header_block raw)))[1]? = some req.path) := by
  cases hf : find_str CRLFCRLF raw with
  | none =>
    have hno := (find_str_eq_none_iff CRLFCRLF raw).mp hf
    have hp : parse_http_request raw = none := by simp [parse_http_request, hf]
    exact ⟨⟨fun _ => Or.inl hno, fun _ => hp⟩, fun req hreq => by rw [hp] at hreq; cases hreq⟩
  | some i =>
    have hin : CRLFCRLF <:+: raw := by
      by_contra hno
      rw [(find_str_eq_none_iff CRLFCRLF raw).mpr hno] at hf
      cases hf
    rw [header_block_eq_take raw i hf]
    by_cases hhp : List.take i raw = []
    · have hp : parse_http_request raw = none := by
        simp [parse_http_request, hf, hhp, getlines]
      rw [hhp]
      refine ⟨⟨fun _ => Or.inr (by simp [first_line, tokens_nil]), fun _ => hp⟩, ?_⟩
      intro req hreq
      rw [hp] at hreq
      cases hreq
    · obtain ⟨ls, hls⟩ := getlines_cons_first_line (List.take i raw) hhp
      have hrl := read_request_line_eq (pop_cr (first_line (List.take i raw)))
      rw [tokens_pop_cr] at hrl
      have htok := first_two_tokens (tokens (first_line (List.take i raw)))
        (fun t ht => tokens_ne_nil _ t ht)
      have hparse : parse_http_request raw =
          if (read_request_line (pop_cr (first_line (List.take i raw)))).1 = [] ∨
              (read_request_line (pop_cr (first_line (List.take i raw)))).2 = [] then none
          else some { method := (read_request_line (pop_cr (first_line (List.take i raw)))).1,
                      path := (read_request_line (pop_cr (first_line (List.take i raw)))).2,
                      headers := parse_header_lines [] ls,
                      body := raw.drop (i + 4) } := by
        simp only [parse_http_request, hf, hls]
      rw [hrl] at hparse
      simp only at hparse
      by_cases hbad : (tokens (first_line (List.take i raw)))[0]?.getD [] = [] ∨
          (tokens (first_line (List.take i raw)))[1]?.getD [] = []
      · rw [if_pos hbad] at hparse
        refine ⟨⟨fun _ => Or.inr (htok.1.mp hbad), fun _ => hparse⟩, ?_⟩
        intro req hreq
        rw [hparse] at hreq
        cases hreq
      · rw [if_neg hbad] at hparse
        refine ⟨⟨(fun h => by rw [hparse] at h; cases h), ?_⟩, ?_⟩
        · intro h
          rcases h with h | h
          · exact absurd hin h
          · exact absurd (htok.1.mpr h) hbad
        · intro req hreq
          rw [hparse] at hreq
          cases hreq
          exact htok.2 hbad

/-- C9 at a request line whose tokens are separated by blanks and a tab. -/
theorem parse_http_request_none_iff_witness :
    parse_http_request raw_get_load = some req_get_load ∧
    (tokens (first_line (header_block raw_get_load)))[0]? = some req_get_load.method ∧
    (tokens (first_line (header_block raw_get_load)))[1]? = some req_get_load.path :=
  ⟨by decide, (parse_http_request_none_iff raw_get_load).2 req_get_load (by decide)⟩

/-! ## Small functions: `json_escape`, `split_path_query`, `http_response` -/

theorem foldl_append_map (f : Char → Str) (init s : Str) :
    s.foldl (fun out c => out ++ f c) init = init ++ (s.map f).flatten := by
  induction s generalizing init with
  | nil => simp
  | cons c s ih => simp [ih, List.append_assoc]

theorem json_escape_eq (s : Str) : json_escape s = (s.map json_escape_char).flatten := by
  unfold json_escape
  rw [foldl_append_map]
  rfl

theorem json_escape_cons (c : Char) (s : Str) :
    json_escape (c :: s) = json_escape_char c ++ json_escape s := by
  simp [json_escape_eq]

theorem json_escape_char_cases (c : Char) :
    json_escape_char c = [Char.ofNat 92, Char.ofNat 92] ∨
    json_escape_char c = [Char.ofNat 92, Char.ofNat 34] ∨
    json_escape_char c = [Char.ofNat 92, 'n'] ∨
    json_escape_char c = [Char.ofNat 92, 'r'] ∨
    json_escape_char c = [Char.ofNat 92, 't'] ∨
    json_escape_char c = [] ∨
    (json_escape_char c = [c] ∧ c ≠ Char.ofNat 92 ∧ c ≠ Char.ofNat 34 ∧ 0x20 ≤ c.toNat) := by
  unfold json_escape_char
  by_cases h1 : c = Char.ofNat 92
  · simp [h1]
  by_cases h2 : c = Char.ofNat 34
  · simp [h2]
  by_cases h3 : c = '\n'
  · simp [h3]
  by_cases h4 : c = '\r'
  · simp [h4]
  by_cases h5 : c = '\t'
  · simp [h5]
  by_cases h6 : c.toNat < 0x20
  · simp [h1, h2, h3, h4, h5, h6]
  · right; right; right; right; right; right
    refine ⟨?_, h1, h2, by omega⟩
    simp only [h1, h2, h3, h4, h5, h6, if_false]

theorem well_escaped_plain (c : Char) (t : Str) (h1 : c ≠ Char.ofNat 92)
    (h2 : c ≠ Char.ofNat 34) (h3 : 0x20 ≤ c.toNat) :
    well_escaped (c :: t) = well_escaped t := by
  cases t with
  | nil => simp [well_escaped, h1, h2, h3]
  | cons e rest => simp [well_escaped, h1, h2, h3]

theorem well_escaped_escape (e : Char) (t : Str)
    (he : e = Char.ofNat 92 ∨ e = Char.ofNat 34 ∨ e = 'n' ∨ e = 'r' ∨ e = 't') :
    well_escaped (Char.ofNat 92 :: e :: t) = well_escaped t := by
  simp [well_escaped, he]

theorem well_escaped_json_escape_char (c : Char) (t : Str) :
    well_escaped (json_escape_char c ++ t) = well_escaped t := by
  rcases json_escape_char_cases c with h | h | h | h | h | h | ⟨h, h1, h2, h3⟩
  · rw [h]; exact well_escaped_escape _ t (Or.inl rfl)
  · rw [h]; exact well_escaped_escape _ t (Or.inr (Or.inl rfl))
  · rw [h]; exact well_escaped_escape _ t (Or.inr (Or.inr (Or.inl rfl)))
  · rw [h]; exact well_escaped_escape _ t (Or.inr (Or.inr (Or.inr (Or.inl rfl))))
  · rw [h]; exact well_escaped_escape _ t (Or.inr (Or.inr (Or.inr (Or.inr rfl))))
  · rw [h]; rfl
  · rw [h]; exact well_escaped_plain c t h1 h2 h3

theorem json_escape_char_printable (c x : Char) (hx : x ∈ json_escape_char c) :
    0x20 ≤ x.toNat := by
  rcases json_escape_char_cases c with h | h | h | h | h | h | ⟨h, _, _, h3⟩ <;>
    rw [h] at hx <;> simp only [List.mem_cons, List.mem_singleton, List.not_mem_nil,
      or_false] at hx
  · rcases hx with rfl | rfl <;> decide
  · rcases hx with rfl | rfl <;> decide
  · rcases hx with rfl | rfl <;> decide
  · rcases hx with rfl | rfl <;> decide
  · rcases hx with rfl | rfl <;> decide
  · rw [hx]; exact h3

/-- C13: `json_escape` maps a string to the concatenation, in order, of the images of
its bytes: backslash, double quote, LF, CR and TAB become a backslash followed by
backslash, double quote, `n`, `r`, `t`; any other byte below 0x20 becomes nothing; any
other byte is copied.  The output holds no byte below 0x20, and every double quote in
it is the second byte of an escape. -/
theorem json_escape_spec (s : Str) :
    json_escape s = (s.map json_escape_char).flatten ∧
    json_escape_char (Char.ofNat 92) = [Char.ofNat 92, Char.ofNat 92] ∧
    json_escape_char (Char.ofNat 34) = [Char.ofNat 92, Char.ofNat 34] ∧
    json_escape_char '\n' = [Char.ofNat 92, 'n'] ∧
    json_escape_char '\r' = [Char.ofNat 92, 'r'] ∧
    json_escape_char '\t' = [Char.ofNat 92, 't'] ∧
    (∀ c : Char, c.toNat < 0x20 → c ≠ '\n' → c ≠ '\r' → c ≠ '\t' →
      json_escape_char c = []) ∧
    (∀ c : Char, 0x20 ≤ c.toNat → c ≠ Char.ofNat 92 → c ≠ Char.ofNat 34 →
      json_escape_char c = [c]) ∧
    (∀ x ∈ json_escape s, 0x20 ≤ x.toNat) ∧
    well_escaped (json_escape s) = true := by
  refine ⟨json_escape_eq s, rfl, rfl, rfl, rfl, rfl, ?_, ?_, ?_, ?_⟩
  · intro c hc h1 h2 h3
    have h4 : c ≠ Char.ofNat 92 := by
      rintro rfl
      revert hc
      decide
    have h5 : c ≠ Char.ofNat 34 := by
      rintro rfl
      revert hc
      decide
    simp [json_escape_char, h1, h2, h3, h4, h5, hc]
  · intro c hc h1 h2
    have h3 : c ≠ '\n' := by
      rintro rfl
      revert hc
      decide
    have h4 : c ≠ '\r' := by
      rintro rfl
      revert hc
      decide
    have h5 : c ≠ '\t' := by
      rintro rfl
      revert hc
      decide
    have h6 : ¬ c.toNat < 0x20 := by omega
    simp [json_escape_char, h1, h2, h3, h4, h5, h6]
  · intro x hx
    rw [json_escape_eq] at hx
    simp only [List.mem_flatten, List.mem_map] at hx
    obtain ⟨l, ⟨c, _, hl⟩, hxl⟩ := hx
    rw [← hl] at hxl
    exact json_escape_char_printable c x hxl
  · induction s with
    | nil => rfl
    | cons c s ih => rw [json_escape_cons, well_escaped_json_escape_char, ih]

/-- C13 at a string with a quote, a backslash, a line feed and a bell. -/
theorem json_escape_spec_witness :
    json_escape [Char.ofNat 34, 'a', Char.ofNat 92, '\n', Char.ofNat 7, 'z']
      = [Char.ofNat 92, Char.ofNat 34, 'a', Char.ofNat 92, Char.ofNat 92, Char.ofNat 92,
         'n', 'z'] ∧
    json_escape_char (Char.ofNat 7) = [] ∧ json_escape_char 'z' = ['z'] :=
  ⟨by decide,
   (json_escape_spec []).2.2.2.2.2.2.1 (Char.ofNat 7) (by decide) (by decide) (by decide)
     (by decide),
   (json_escape_spec []).2.2.2.2.2.2.2.1 'z' (by decide) (by decide) (by decide)⟩

theorem find_char_eq_none_iff (x : Char) (s : Str) : find_char x s = none ↔ x ∉ s := by
  induction s with
  | nil => simp [find_char]
  | cons c s ih =>
    rw [find_char]
    by_cases h : c = x
    · simp [h]
    · have h1 : ¬ x = c := fun e => h e.symm
      simp [h, h1, ih]

theorem find_char_some_spec (x : Char) (s : Str) (i : Nat) (h : find_char x s = some i) :
    s = s.take i ++ x :: s.drop (i + 1) ∧ x ∉ s.take i := by
  induction s generalizing i with
  | nil => simp [find_char] at h
  | cons c s ih =>
    rw [find_char] at h
    by_cases hc : c = x
    · simp only [hc, if_true, Option.some.injEq] at h
      subst h
      simp [hc]
    · simp only [hc, if_false] at h
      cases hf : find_char x s with
      | none => simp [hf] at h
      | some i1 =>
        simp only [hf, Option.map_some', Option.some.injEq] at h
        subst h
        obtain ⟨h1, h2⟩ := ih i1 hf
        have hx : ¬ x = c := fun e => hc e.symm
        refine ⟨?_, ?_⟩
        · simp only [List.take_succ_cons, List.drop_succ_cons, List.cons_append]
          rw [← h1]
        · simp [hx, h2]

/-- C18: `split_path_query` cuts the target at its first question mark: when the target
holds one, path, question mark and query make up the target and the path holds none;
otherwise the path is the target and the query is empty. -/
theorem split_path_query_spec (target : Str) :
    ('?' ∈ target →
      (split_path_query target).1 ++ "?".toList ++ (split_path_query target).2 = target ∧
      '?' ∉ (split_path_query target).1) ∧
    ('?' ∉ target → split_path_query target = (target, [])) := by
  constructor
  · intro hq
    cases hf : find_char '?' target with
    | none => exact absurd hq ((find_char_eq_none_iff '?' target).mp hf)
    | some q =>
      obtain ⟨h1, h2⟩ := find_char_some_spec '?' target q hf
      simp only [split_path_query, hf]
      refine ⟨?_, h2⟩
      rw [List.append_assoc]
      exact h1.symm
  · intro hq
    have hf := (find_char_eq_none_iff '?' target).mpr hq
    simp [split_path_query, hf]

/-- C18 at a target with two question marks and at one without. -/
theorem split_path_query_spec_witness :
    ((split_path_query "/load?name=a?b".toList).1 ++ "?".toList
        ++ (split_path_query "/load?name=a?b".toList).2 = "/load?name=a?b".toList ∧
      '?' ∉ (split_path_query "/load?name=a?b".toList).1) ∧
    split_path_query "/run".toList = ("/run".toList, []) :=
  ⟨(split_path_query_spec "/load?name=a?b".toList).1 (by decide),
   (split_path_query_spec "/run".toList).2 (by decide)⟩

/-- C19: `http_response` returns the status line, the content type line, the content
length line, the connection-close line and a blank line, each ended by CR LF, followed
by the body; the content length is the decimal length of the body, which is the number
of bytes after the blank line. -/
theorem http_response_format (status_code : Int) (status_text content_type body : Str) :
    http_response status_code status_text content_type body =
      "HTTP/1.1 ".toList ++ to_string status_code ++ " ".toList ++ status_text
        ++ "\r\nContent-Type: ".toList ++ content_type
        ++ "\r\nContent-Length: ".toList ++ to_string (body.length : Int)
        ++ "\r\nConnection: close\r\n\r\n".toList ++ body ∧
    (http_response status_code status_text content_type body).drop
      ((http_response status_code status_text content_type body).length - body.length)
      = body := by
  have h : http_response status_code status_text content_type body =
      "HTTP/1.1 ".toList ++ to_string status_code ++ " ".toList ++ status_text
        ++ "\r\nContent-Type: ".toList ++ content_type
        ++ "\r\nContent-Length: ".toList ++ to_string (body.length : Int)
        ++ "\r\nConnection: close\r\n\r\n".toList ++ body := by
    simp [http_response, List.append_assoc]
  refine ⟨h, ?_⟩
  rw [h, List.length_append, Nat.add_sub_cancel]
  exact List.drop_left _ _

/-! ## `url_decode` -/

theorem url_decode_loop_long (out : Str) (c a b : Char) (rest : Str) :
    url_decode_loop out (c :: a :: b :: rest) =
      if c = '%' then url_decode_loop (out ++ [to_char (strtol16 [a, b])]) rest
      else if c = '+' then url_decode_loop (out ++ [' ']) (a :: b :: rest)
      else url_decode_loop (out ++ [c]) (a :: b :: rest) := by
  rw [url_decode_loop]

theorem url_decode_loop_short (out : Str) (c : Char) (rest : Str) (h : rest.length < 2) :
    url_decode_loop out (c :: rest) =
      if c = '+' then url_decode_loop (out ++ [' ']) rest
      else url_decode_loop (out ++ [c]) rest := by
  match rest, h with
  | [], _ => by_cases hc : c = '+' <;> simp [url_decode_loop, hc]
  | [a], _ => by_cases hc : c = '+' <;> simp [url_decode_loop, hc]
  | _ :: _ :: _, h => simp at h; omega

theorem url_decode_loop_acc (n : Nat) (s : Str) (hn : s.length ≤ n) (out : Str) :
    url_decode_loop out s = out ++ url_decode_loop [] s := by
  induction n generalizing s out with
  | zero =>
    have : s = [] := List.length_eq_zero.mp (by omega)
    subst this
    simp [url_decode_loop]
  | succ n ih =>
    match s, hn with
    | [], _ => simp [url_decode_loop]
    | [c], _ =>
      rw [url_decode_loop_short out c [] (by simp), url_decode_loop_short [] c [] (by simp)]
      by_cases hc : c = '+' <;> simp [hc, url_decode_loop]
    | [c, a], hn =>
      have h1 : [a].length ≤ n := by
        simp only [List.length_cons, List.length_nil] at hn ⊢
        omega
      rw [url_decode_loop_short out c [a] (by simp), url_decode_loop_short [] c [a] (by simp)]
      by_cases hc : c = '+'
      · simp only [hc, if_true]
        rw [ih [a] h1 (out ++ [' ']), ih [a] h1 ([] ++ [' '])]
        simp
      · simp only [hc, if_false]
        rw [ih [a] h1 (out ++ [c]), ih [a] h1 ([] ++ [c])]
        simp
    | c :: a :: b :: rest, hn =>
      simp only [List.length_cons] at hn
      rw [url_decode_loop_long out, url_decode_loop_long []]
      by_cases hp : c = '%'
      · simp only [hp, if_true]
        rw [ih rest (by omega) (out ++ _), ih rest (by omega) ([] ++ _)]
        simp
      · simp only [hp, if_false]
        by_cases hc : c = '+'
        · simp only [hc, if_true]
          rw [ih (a :: b :: rest) (by simp only [List.length_cons]; omega) (out ++ _),
            ih (a :: b :: rest) (by simp only [List.length_cons]; omega) ([] ++ _)]
          simp
        · simp only [hc, if_false]
          rw [ih (a :: b :: rest) (by simp only [List.length_cons]; omega) (out ++ _),
            ih (a :: b :: rest) (by simp only [List.length_cons]; omega) ([] ++ _)]
          simp

theorem url_decode_nil : url_decode [] = [] := rfl

theorem url_decode_percent_long (a b : Char) (rest : Str) :
    url_decode ('%' :: a :: b :: rest) = to_char (strtol16 [a, b]) :: url_decode rest := by
  unfold url_decode
  rw [url_decode_loop_long, if_pos rfl, url_decode_loop_acc _ rest (le_refl _)]
  simp

theorem url_decode_percent_short (rest : Str) (h : rest.length < 2) :
    url_decode ('%' :: rest) = '%' :: url_decode rest := by
  unfold url_decode
  rw [url_decode_loop_short [] '%' rest h, if_neg (by decide),
    url_decode_loop_acc _ rest (le_refl _)]
  simp

theorem url_decode_plus (rest : Str) : url_decode ('+' :: rest) = ' ' :: url_decode rest := by
  unfold url_decode
  match rest with
  | [] => rw [url_decode_loop_short [] '+' [] (by simp), if_pos rfl]; rfl
  | [a] =>
    rw [url_decode_loop_short [] '+' [a] (by simp), if_pos rfl,
      url_decode_loop_acc _ [a] (le_refl _)]
    simp
  | a :: b :: r =>
    rw [url_decode_loop_long, if_neg (by decide), if_pos rfl,
      url_decode_loop_acc _ (a :: b :: r) (le_refl _)]
    simp

theorem url_decode_other (c : Char) (rest : Str) (h1 : c ≠ '%') (h2 : c ≠ '+') :
    url_decode (c :: rest) = c :: url_decode rest := by
  unfold url_decode
  match rest with
  | [] => rw [url_decode_loop_short [] c [] (by simp), if_neg h2]; rfl
  | [a] =>
    rw [url_decode_loop_short [] c [a] (by simp), if_neg h2,
      url_decode_loop_acc _ [a] (le_refl _)]
    simp
  | a :: b :: r =>
    rw [url_decode_loop_long, if_neg h1, if_neg h2,
      url_decode_loop_acc _ (a :: b :: r) (le_refl _)]
    simp

theorem url_decode_id (s : Str) (h : ∀ c ∈ s, c ≠ '%' ∧ c ≠ '+') : url_decode s = s := by
  induction s with
  | nil => rfl
  | cons c s ih =>
    have hc := h c (List.mem_cons_self _ _)
    rw [url_decode_other c s hc.1 hc.2, ih (fun x hx => h x (List.mem_cons_of_mem _ hx))]

theorem strtol16_hex_pair :
    ∀ x ∈ "0123456789abcdefABCDEF".toList, ∀ y ∈ "0123456789abcdefABCDEF".toList,
      to_char (strtol16 [x, y]) = Char.ofNat (16 * hex_value x + hex_value y) := by
  decide

theorem ref_decode_long (c x y : Char) (rest : Str) :
    ref_decode (c :: x :: y :: rest) =
      if c = '%' then Char.ofNat (16 * hex_value x + hex_value y) :: ref_decode rest
      else (if c = '+' then ' ' else c) :: ref_decode (x :: y :: rest) := by
  rw [ref_decode]

theorem ref_decode_short (c : Char) (rest : Str) (h : rest.length < 2) :
    ref_decode (c :: rest) = (if c = '+' then ' ' else c) :: ref_decode rest := by
  match rest, h with
  | [], _ => simp [ref_decode]
  | [a], _ => simp [ref_decode]
  | _ :: _ :: _, h => simp at h; omega

theorem percent_ok_tail (c : Char) (rest : Str) (h : percent_ok (c :: rest) = true) :
    percent_ok rest = true := by
  unfold percent_ok at h
  simp only [Bool.and_eq_true] at h
  exact h.2

theorem url_decode_eq_ref_decode (n : Nat) (s : Str) (hn : s.length ≤ n)
    (h : percent_ok s = true) : url_decode s = ref_decode s := by
  induction n generalizing s with
  | zero =>
    have : s = [] := List.length_eq_zero.mp (by omega)
    subst this
    rfl
  | succ n ih =>
    match s, hn, h with
    | [], _, _ => rfl
    | c :: a :: b :: rest, hn, h =>
      simp only [List.length_cons] at hn
      have ht1 := percent_ok_tail c _ h
      have ht2 := percent_ok_tail a _ ht1
      have ht3 := percent_ok_tail b _ ht2
      rw [ref_decode_long]
      by_cases hp : c = '%'
      · subst hp
        unfold percent_ok at h
        simp only [bne_self_eq_false, Bool.false_or, Bool.and_eq_true] at h
        have hx : a ∈ "0123456789abcdefABCDEF".toList := by
          have := h.1.1
          simpa [is_hex_digit] using this
        have hy : b ∈ "0123456789abcdefABCDEF".toList := by
          have := h.1.2
          simpa [is_hex_digit] using this
        rw [url_decode_percent_long, strtol16_hex_pair a hx b hy, if_pos rfl,
          ih rest (by omega) ht3]
      · rw [if_neg hp]
        by_cases hc : c = '+'
        · subst hc
          rw [url_decode_plus, if_pos rfl,
            ih (a :: b :: rest) (by simp only [List.length_cons]; omega) ht1]
        · rw [url_decode_other c _ hp hc, if_neg hc,
            ih (a :: b :: rest) (by simp only [List.length_cons]; omega) ht1]
    | [c], hn, h =>
      have hp : c ≠ '%' := by
        rintro rfl
        revert h
        decide
      rw [ref_decode_short c [] (by simp)]
      by_cases hc : c = '+'
      · subst hc
        rfl
      · rw [url_decode_other c _ hp hc, if_neg hc]
        rfl
    | [c, a], hn, h =>
      have h1 : [a].length ≤ n := by
        simp only [List.length_cons, List.length_nil] at hn ⊢
        omega
      have ht1 := percent_ok_tail c _ h
      have hp : c ≠ '%' := by
        rintro rfl
        unfold percent_ok at h
        simp at h
      rw [ref_decode_short c [a] (by simp)]
      by_cases hc : c = '+'
      · subst hc
        rw [url_decode_plus, if_pos rfl, ih [a] h1 ht1]
      · rw [url_decode_other c _ hp hc, if_neg hc, ih [a] h1 ht1]


/-- C17: on a string in which every `%` is followed by two base 16 digits, `url_decode`
is the reference percent-decoding (`%XY` to the byte `16 * X + Y`, `+` to a space, the
rest copied, in order); on a string without `%` and `+` it is the identity. -/
theorem url_decode_reference (s : Str) :
    (percent_ok s = true → url_decode s = ref_decode s) ∧
    ((∀ c ∈ s, c ≠ '%' ∧ c ≠ '+') → url_decode s = s) :=
  ⟨url_decode_eq_ref_decode s.length s (le_refl _), url_decode_id s⟩

/-- C17 at a string with two escapes and a plus sign, and at a plain file name. -/
theorem url_decode_reference_witness :
    (url_decode "a%41+b%2e".toList = ref_decode "a%41+b%2e".toList ∧
      ref_decode "a%41+b%2e".toList = "aA b.".toList) ∧
    url_decode "star_code.cpp".toList = "star_code.cpp".toList :=
  ⟨⟨(url_decode_reference "a%41+b%2e".toList).1 (by decide), by decide⟩,
   (url_decode_reference "star_code.cpp".toList).2 (by decide)⟩

/-- C16, as stated, fails: in `%zz` the `%` is followed by two bytes that are no base 16
digits, yet `url_decode` emits the byte 0 for the three of them instead of a literal
`%` followed by the decoding of `zz`. -/
theorem percent_zz_decodes_to_nul :
    is_hex_digit 'z' = false ∧
    url_decode "%zz".toList = [Char.ofNat 0] ∧
    url_decode "%zz".toList ≠ '%' :: url_decode "zz".toList := by
  decide

/-- C16, amended: when the decoding loop is at a `%` after which fewer than two bytes
remain, it appends the literal `%` to its output and goes on with the next byte,
consuming nothing else; so the decoding of such a suffix is `%` followed by the
decoding of what comes after it. -/
theorem url_decode_truncated_percent (out rest : Str) (h : rest.length < 2) :
    url_decode_loop out ('%' :: rest) = url_decode_loop (out ++ ['%']) rest ∧
    url_decode ('%' :: rest) = '%' :: url_decode rest := by
  refine ⟨?_, url_decode_percent_short rest h⟩
  rw [url_decode_loop_short out '%' rest h, if_neg (by decide)]

/-- C16, amended, at a `%` followed by a single digit. -/
theorem url_decode_truncated_percent_witness :
    url_decode_loop "a".toList "%4".toList = url_decode_loop "a%".toList "4".toList ∧
    url_decode "%4".toList = '%' :: url_decode "4".toList :=
  url_decode_truncated_percent "a".toList "4".toList (by decide)

/-! ## `sanitize_cpp_filename` -/

theorem regex_match_ok_iff (name : Str) :
    regex_match_ok name = true ↔
      ∃ stem, stem ≠ [] ∧ name = stem ++ ".cpp".toList ∧ ∀ c ∈ stem, in_name_class c = true := by
  unfold regex_match_ok
  simp only [Bool.and_eq_true, decide_eq_true_eq, List.all_eq_true, beq_iff_eq]
  constructor
  · rintro ⟨⟨hlen, hall⟩, hdrop⟩
    refine ⟨name.take (name.length - 4), ?_, ?_, hall⟩
    · intro h
      have := congrArg List.length h
      rw [List.length_take] at this
      simp at this
      omega
    · rw [← hdrop]
      exact (List.take_append_drop _ _).symm
  · rintro ⟨stem, hne, hname, hall⟩
    have hlen : name.length = stem.length + 4 := by
      rw [hname, List.length_append]
      rfl
    have hpos : 0 < stem.length := List.length_pos.mpr hne
    have hsub : name.length - 4 = stem.length := by omega
    rw [hsub]
    refine ⟨⟨by omega, ?_⟩, ?_⟩
    · rw [hname, List.take_left]
      exact hall
    · rw [hname, List.drop_left]

theorem in_name_class_cpp : ∀ c ∈ ".cpp".toList, in_name_class c = true := by decide

theorem sanitize_cpp_filename_eq (name : Str) :
    sanitize_cpp_filename name =
      if name.length ≤ 80 ∧ regex_match_ok name = true ∧ find_str "..".toList name = none
      then some name else none := by
  unfold sanitize_cpp_filename
  by_cases h1 : name.length > 80
  · rw [if_pos h1, if_neg (fun h => absurd h.1 (by omega))]
  · rw [if_neg h1]
    cases h2 : regex_match_ok name with
    | false =>
      rw [if_pos (by decide), if_neg]
      rintro ⟨_, h, _⟩
      cases h
    | true =>
      rw [if_neg (by decide)]
      cases h3 : find_str "..".toList name with
      | none =>
        rw [if_neg (by decide), if_pos ⟨by omega, rfl, rfl⟩]
      | some x =>
        rw [if_pos (by rfl), if_neg]
        rintro ⟨_, _, h⟩
        cases h

/-- C14: `sanitize_cpp_filename` returns the name unchanged exactly when it has at most
80 bytes, consists of characters of `[A-Za-z0-9_.-]`, ends in `.cpp` after at least one
character and holds no `..`; in every other case it returns nothing.  So an accepted
name holds neither `/` nor `..`, and a name with `..` or with a character outside the
class is rejected. -/
theorem sanitize_cpp_filename_spec (name : Str) :
    (sanitize_cpp_filename name = some name ↔
      (name.length ≤ 80 ∧ (∀ c ∈ name, in_name_class c = true) ∧
        (∃ stem, stem ≠ [] ∧ name = stem ++ ".cpp".toList) ∧ ¬ "..".toList <:+: name)) ∧
    (sanitize_cpp_filename name ≠ some name → sanitize_cpp_filename name = none) ∧
    (sanitize_cpp_filename name = some name → '/' ∉ name ∧ ¬ "..".toList <:+: name) ∧
    (("..".toList <:+: name ∨ ∃ c ∈ name, in_name_class c = false) →
      sanitize_cpp_filename name = none) := by
  have heq := sanitize_cpp_filename_eq name
  have hiff : sanitize_cpp_filename name = some name ↔
      (name.length ≤ 80 ∧ (∀ c ∈ name, in_name_class c = true) ∧
        (∃ stem, stem ≠ [] ∧ name = stem ++ ".cpp".toList) ∧ ¬ "..".toList <:+: name) := by
    constructor
    · intro h
      by_cases hc : name.length ≤ 80 ∧ regex_match_ok name = true ∧
          find_str "..".toList name = none
      · obtain ⟨h1, h2, h3⟩ := hc
        obtain ⟨stem, hne, hname, hall⟩ := (regex_match_ok_iff name).mp h2
        refine ⟨h1, ?_, ⟨stem, hne, hname⟩, (find_str_eq_none_iff _ _).mp h3⟩
        intro c hc
        rw [hname, List.mem_append] at hc
        rcases hc with hc | hc
        · exact hall c hc
        · exact in_name_class_cpp c hc
      · rw [heq, if_neg hc] at h
        cases h
    · rintro ⟨h1, hall, ⟨stem, hne, hname⟩, hno⟩
      have h2 : regex_match_ok name = true := by
        apply (regex_match_ok_iff name).mpr
        refine ⟨stem, hne, hname, ?_⟩
        intro c hc
        apply hall
        rw [hname]
        exact List.mem_append_left _ hc
      have h3 : find_str "..".toList name = none := (find_str_eq_none_iff _ _).mpr hno
      rw [heq, if_pos ⟨h1, h2, h3⟩]
  have hor : sanitize_cpp_filename name ≠ some name → sanitize_cpp_filename name = none := by
    intro h
    by_cases hc : name.length ≤ 80 ∧ regex_match_ok name = true ∧
        find_str "..".toList name = none
    · rw [heq, if_pos hc] at h
      exact absurd rfl h
    · rw [heq, if_neg hc]
  refine ⟨hiff, hor, ?_, ?_⟩
  · intro h
    obtain ⟨_, hall, _, hno⟩ := hiff.mp h
    refine ⟨?_, hno⟩
    intro hs
    have := hall '/' hs
    revert this
    decide
  · intro h
    apply hor
    intro hacc
    obtain ⟨_, hall, _, hno⟩ := hiff.mp hacc
    rcases h with h | ⟨c, hc, hbad⟩
    · exact hno h
    · rw [hall c hc] at hbad
      cases hbad

/-- C14 at the accepted name `star_code.cpp` and at a rejected path traversal. -/
theorem sanitize_cpp_filename_spec_witness :
    sanitize_cpp_filename "star_code.cpp".toList = some "star_code.cpp".toList ∧
    ('/' ∉ "star_code.cpp".toList ∧ ¬ "..".toList <:+: "star_code.cpp".toList) ∧
    sanitize_cpp_filename "../x.cpp".toList = none :=
  ⟨by decide,
   (sanitize_cpp_filename_spec "star_code.cpp".toList).2.2.1 (by decide),
   (sanitize_cpp_filename_spec "../x.cpp".toList).2.2.2
     (Or.inr ⟨'/', by decide, by decide⟩)⟩


/-! ## The request body and the header map -/

theorem split_at_terminator (raw : Str) (i : Nat) (h : find_str CRLFCRLF raw = some i) :
    raw = raw.take i ++ CRLFCRLF ++ raw.drop (i + 4) := by
  have hpre : CRLFCRLF <+: raw.drop i := (find_str_some_spec CRLFCRLF raw i h).1
  have e1 : CRLFCRLF = List.take 4 (List.drop i raw) := List.prefix_iff_eq_take.mp hpre
  have e2 : List.drop (i + 4) raw = List.drop 4 (List.drop i raw) := by
    rw [List.drop_drop]
  rw [e2, List.append_assoc]
  conv_lhs => rw [← List.take_append_drop i raw]
  congr 1
  conv_lhs => rw [← List.take_append_drop 4 (List.drop i raw)]
  rw [← e1]

theorem parse_http_request_some (raw : Str) (req : HttpRequest)
    (h : parse_http_request raw = some req) :
    ∃ i l ls, find_str CRLFCRLF raw = some i ∧ getlines (raw.take i) = l :: ls ∧
      req.headers = parse_header_lines [] ls ∧ req.body = raw.drop (i + 4) := by
  unfold parse_http_request at h
  cases hf : find_str CRLFCRLF raw with
  | none => simp [hf] at h
  | some i =>
    simp only [hf] at h
    cases hg : getlines (List.take i raw) with
    | nil => simp [hg] at h
    | cons l ls =>
      simp only [hg] at h
      split at h
      · cases h
      · simp only [Option.some.injEq] at h
        subst h
        exact ⟨i, l, ls, rfl, hg, rfl, rfl⟩

/-- C12: the body of a request that `parse_http_request` accepts is what follows the
first CR LF CR LF of the bytes; and when `read_http_from_socket` returns bytes whose
headers carry no content-length, these are exactly what its `recv` calls delivered,
none of them made after the terminator had been seen, so that the bytes buffered after
the terminator are the whole body. -/
theorem body_follows_terminator (raw : Str) (req : HttpRequest)
    (hreq : parse_http_request raw = some req) :
    (raw = header_block raw ++ CRLFCRLF ++ req.body ∧
      ∀ j < (header_block raw).length, ¬ CRLFCRLF <+: raw.drop j) ∧
    (∀ (recv : Nat → Str) (fuel k : Nat),
      read_http_from_socket recv fuel = some (raw, k) →
      headers_find "content-length".toList req.headers = none →
      (∀ fuel1, MAX_REQ + 2 ≤ fuel1 → read_http_from_socket recv fuel1 = some (raw, k)) ∧
      raw = received recv k ∧
      ∀ j < k, ¬ CRLFCRLF <:+: received recv j) := by
  obtain ⟨i, l, ls, hf, _, _, hbody⟩ := parse_http_request_some raw req hreq
  have hspec := find_str_some_spec CRLFCRLF raw i hf
  have hblock := header_block_eq_take raw i hf
  refine ⟨⟨?_, ?_⟩, ?_⟩
  · rw [hblock, hbody]
    exact split_at_terminator raw i hf
  · intro j hj
    rw [hblock, List.length_take] at hj
    exact hspec.2.2 j (by omega)
  · intro recv fuel k h hnone
    refine ⟨fun fuel1 hf1 => read_http_from_socket_stable recv fuel fuel1 _ h hf1, ?_⟩
    obtain ⟨data, k0, h1, hcase⟩ := read_http_from_socket_cases recv fuel raw k h
    have hsp := read_headers_spec recv fuel 0 [] data k0 h1 rfl (by simp)
      (fun j hj => absurd hj (Nat.not_lt_zero j))
    rcases hcase with ⟨hraw, hk, _⟩ | ⟨header_end, req0, value0, n0, body, h2, h3, h4, _, _, _,
        _, hraw⟩
    · subst hraw
      subst hk
      exact ⟨hsp.1, fun j hj => (find_str_eq_none_iff _ _).mp (hsp.2.2.1 j hj).1⟩
    · exfalso
      rw [hraw, parse_http_request_replace_body data body header_end h2, h3] at hreq
      simp only [Option.map_some', Option.some.injEq] at hreq
      subst hreq
      simp only at hnone
      rw [h4] at hnone
      cases hnone

/-- C12 at a request without content-length that arrives in one chunk. -/
theorem body_follows_terminator_witness :
    (raw_get_load = header_block raw_get_load ++ CRLFCRLF ++ req_get_load.body ∧
      ∀ j < (header_block raw_get_load).length, ¬ CRLFCRLF <+: raw_get_load.drop j) ∧
    ((∀ fuel1, MAX_REQ + 2 ≤ fuel1 →
        read_http_from_socket recv_get_load fuel1 = some (raw_get_load, 1)) ∧
      raw_get_load = received recv_get_load 1 ∧
      ∀ j < 1, ¬ CRLFCRLF <:+: received recv_get_load j) :=
  ⟨(body_follows_terminator raw_get_load req_get_load (by decide)).1,
   (body_follows_terminator raw_get_load req_get_load (by decide)).2 recv_get_load 3 1
     (by decide) (by decide)⟩

theorem toLower_not_upper (c : Char) : (Char.toLower c).isUpper = false := by
  by_cases h : c.toNat ≥ 65 ∧ c.toNat ≤ 90
  · generalize hn : c.toNat = n at h
    have hc : c = Char.ofNat n := by rw [← hn, Char.ofNat_toNat]
    subst hc
    obtain ⟨h1, h2⟩ := h
    interval_cases n <;> decide
  · have e : Char.toLower c = c := by
      unfold Char.toLower
      simp only [h, if_false]
    rw [e]
    unfold Char.isUpper
    have h65 : (c.val ≥ 65) ↔ c.toNat ≥ 65 := Iff.rfl
    have h90 : (c.val ≤ 90) ↔ c.toNat ≤ 90 := Iff.rfl
    by_cases h1 : c.toNat ≥ 65
    · have h2 : ¬ c.toNat ≤ 90 := fun h2 => h ⟨h1, h2⟩
      have : ¬ c.val ≤ 90 := fun x => h2 (h90.mp x)
      simp [this]
    · have : ¬ c.val ≥ 65 := fun x => h1 (h65.mp x)
      simp [this]

theorem find_char_take (x : Char) (s : Str) (i : Nat) (h : find_char x s = some i) :
    s.take i = s.takeWhile (fun c => c != x) ∧
    s.dropWhile (fun c => c != x) = x :: s.drop (i + 1) := by
  induction s generalizing i with
  | nil => simp [find_char] at h
  | cons c s ih =>
    rw [find_char] at h
    by_cases hc : c = x
    · simp only [hc, if_true, Option.some.injEq] at h
      subst h
      simp [hc, List.takeWhile_cons, List.dropWhile_cons]
    · simp only [hc, if_false] at h
      cases hf : find_char x s with
      | none => simp [hf] at h
      | some i1 =>
        simp only [hf, Option.map_some', Option.some.injEq] at h
        subst h
        obtain ⟨h1, h2⟩ := ih i1 hf
        simp [hc, List.takeWhile_cons, List.dropWhile_cons, h1, h2]

theorem headers_find_set (k key val : Str) (m : List (Str × Str)) :
    headers_find k (headers_set key val m) =
      if key = k then some val else headers_find k m := by
  induction m with
  | nil => simp [headers_set, headers_find]
  | cons kv m ih =>
    obtain ⟨k1, v1⟩ := kv
    rw [headers_set]
    by_cases h1 : k1 = key
    · subst h1
      by_cases h2 : k1 = k
      · simp [headers_find, h2]
      · simp [headers_find, h2]
    · simp only [h1, if_false]
      rw [headers_find, ih]
      by_cases h2 : k1 = k
      · subst h2
        have h3 : ¬ key = k1 := fun e => h1 e.symm
        simp [headers_find, h3]
      · simp [headers_find, h2]

theorem headers_set_keys (x key val : Str) (m : List (Str × Str)) :
    x ∈ (headers_set key val m).map Prod.fst ↔ x = key ∨ x ∈ m.map Prod.fst := by
  induction m with
  | nil => simp [headers_set]
  | cons kv m ih =>
    obtain ⟨k1, v1⟩ := kv
    rw [headers_set]
    by_cases h1 : k1 = key
    · subst h1
      simp
    · simp only [h1, if_false, List.map_cons, List.mem_cons, ih]
      constructor
      · rintro (h | h | h)
        · exact Or.inr (Or.inl h)
        · exact Or.inl h
        · exact Or.inr (Or.inr h)
      · rintro (h | h | h)
        · exact Or.inr (Or.inl h)
        · exact Or.inl h
        · exact Or.inr (Or.inr h)

theorem headers_set_nodup (key val : Str) (m : List (Str × Str))
    (h : (m.map Prod.fst).Nodup) : ((headers_set key val m).map Prod.fst).Nodup := by
  induction m with
  | nil => simp [headers_set]
  | cons kv m ih =>
    obtain ⟨k1, v1⟩ := kv
    rw [headers_set]
    simp only [List.map_cons, List.nodup_cons] at h
    by_cases h1 : k1 = key
    · subst h1
      simp only [if_true, List.map_cons, List.nodup_cons]
      exact h
    · simp only [h1, if_false, List.map_cons, List.nodup_cons]
      refine ⟨?_, ih h.2⟩
      intro hmem
      rcases (headers_set_keys k1 key val m).mp hmem with h2 | h2
      · exact h1 h2
      · exact h.1 h2

theorem headers_set_mem (kv : Str × Str) (key val : Str) (m : List (Str × Str))
    (h : kv ∈ headers_set key val m) : kv = (key, val) ∨ kv ∈ m := by
  induction m with
  | nil =>
    simp only [headers_set, List.mem_singleton] at h
    exact Or.inl h
  | cons kv1 m ih =>
    obtain ⟨k1, v1⟩ := kv1
    rw [headers_set] at h
    by_cases h1 : k1 = key
    · simp only [h1, if_true, List.mem_cons] at h
      rcases h with h | h
      · exact Or.inl h
      · exact Or.inr (List.mem_cons_of_mem _ h)
    · simp only [h1, if_false, List.mem_cons] at h
      rcases h with h | h
      · exact Or.inr (by rw [h]; exact List.mem_cons_self _ _)
      · rcases ih h with h2 | h2
        · exact Or.inl h2
        · exact Or.inr (List.mem_cons_of_mem _ h2)

theorem last_value_cons (k l : Str) (ls : List Str) :
    last_value k (l :: ls) =
      (last_value k ls).or
        (if ':' ∈ l ∧ line_name l = k then some (line_value l) else none) := by
  unfold last_value
  rw [List.reverse_cons, List.find?_append]
  cases List.find? (fun l => decide (':' ∈ l) && decide (line_name l = k)) ls.reverse with
  | some x => simp
  | none =>
    by_cases h : ':' ∈ l ∧ line_name l = k
    · simp [List.find?_cons, h.1, h.2]
    · have h1 : (decide (':' ∈ l) && decide (line_name l = k)) = false := by
        simpa using h
      simp only [Option.none_or, List.find?_cons, h1, List.find?_nil, Option.map_none',
        if_neg h]

theorem last_value_nil (k : Str) : last_value k [] = none := rfl

/-- The header loop leaves, under every key, the value of the last line read that has
a colon and that name, or else what the map held before. -/
theorem parse_header_lines_find (k : Str) (ls : List Str) (m : List (Str × Str)) :
    headers_find k (parse_header_lines m ls) =
      (last_value k ((ls.map pop_cr).takeWhile (fun l => !l.isEmpty))).or
        (headers_find k m) := by
  induction ls generalizing m with
  | nil => simp [parse_header_lines, last_value_nil]
  | cons line0 rest ih =>
    rw [parse_header_lines]
    simp only [List.map_cons, List.takeWhile_cons]
    by_cases he : pop_cr line0 = []
    · simp [he, last_value_nil]
    · have hne : (!(pop_cr line0).isEmpty) = true := by
        cases hp : pop_cr line0 with
        | nil => exact absurd hp he
        | cons a b => rfl
      simp only [he, if_false, hne, if_true]
      rw [last_value_cons]
      cases hf : find_char ':' (pop_cr line0) with
      | none =>
        have hno : ':' ∉ pop_cr line0 := (find_char_eq_none_iff _ _).mp hf
        simp only [hno, false_and, if_false, Option.or_none]
        exact ih m
      | some colon =>
        have hyes : ':' ∈ pop_cr line0 := by
          by_contra hno
          rw [(find_char_eq_none_iff _ _).mpr hno] at hf
          cases hf
        obtain ⟨ht, hd⟩ := find_char_take ':' (pop_cr line0) colon hf
        have hname : to_lower (trim (List.take colon (pop_cr line0)))
            = line_name (pop_cr line0) := by
          unfold line_name
          rw [ht]
        have hval : trim (List.drop (colon + 1) (pop_cr line0))
            = line_value (pop_cr line0) := by
          unfold line_value
          rw [hd]
          rfl
        simp only
        rw [ih, headers_find_set, hname, hval]
        cases last_value k (List.takeWhile (fun l => !l.isEmpty) (List.map pop_cr rest)) with
        | some x => simp
        | none =>
          by_cases hk : line_name (pop_cr line0) = k
          · simp [hk, hyes]
          · simp [hk]

theorem parse_header_lines_nodup (ls : List Str) (m : List (Str × Str))
    (h : (m.map Prod.fst).Nodup) : ((parse_header_lines m ls).map Prod.fst).Nodup := by
  induction ls generalizing m with
  | nil => exact h
  | cons line0 rest ih =>
    rw [parse_header_lines]
    by_cases he : pop_cr line0 = []
    · simp only [he, if_true]
      exact h
    · simp only [he, if_false]
      cases hf : find_char ':' (pop_cr line0) with
      | none => exact ih m h
      | some colon => exact ih _ (headers_set_nodup _ _ m h)

theorem to_lower_not_upper (s : Str) (c : Char) (hc : c ∈ to_lower s) : c.isUpper = false := by
  unfold to_lower at hc
  obtain ⟨d, _, hd⟩ := List.mem_map.mp hc
  rw [← hd]
  exact toLower_not_upper d

theorem parse_header_lines_lower (ls : List Str) (m : List (Str × Str))
    (h : ∀ kv ∈ m, ∀ c ∈ kv.1, c.isUpper = false) :
    ∀ kv ∈ parse_header_lines m ls, ∀ c ∈ kv.1, c.isUpper = false := by
  induction ls generalizing m with
  | nil => exact h
  | cons line0 rest ih =>
    rw [parse_header_lines]
    by_cases he : pop_cr line0 = []
    · simp only [he, if_true]
      exact h
    · simp only [he, if_false]
      cases hf : find_char ':' (pop_cr line0) with
      | none => exact ih m h
      | some colon =>
        apply ih
        intro kv hkv c hc
        rcases headers_set_mem kv _ _ m hkv with h1 | h1
        · rw [h1] at hc
          exact to_lower_not_upper _ c hc
        · exact h kv h1 c hc


/-- C11, as stated, fails: in `raw_blank_line` the last line of the header block named
`a` has the value `2`, but it comes after an empty line, where the header loop stops,
and the map holds the value `1`. -/
theorem header_after_blank_line_ignored :
    parse_http_request raw_blank_line = some req_blank_line ∧
    headers_find "a".toList req_blank_line.headers = some "1".toList ∧
    last_value "a".toList (block_lines raw_blank_line) = some "2".toList := by
  decide

/-- C11, amended: for a request that `parse_http_request` accepts, the header map
holds under each key `k` the trimmed value of the last header line, among those before
the first empty line, that has a colon and whose name, trimmed and in lower case, is
`k`, and nothing under a key that no such line has; its keys are unique and hold no
upper case letter; so a line without colon contributes no entry. -/
theorem parse_http_request_headers (raw : Str) (req : HttpRequest)
    (hreq : parse_http_request raw = some req) :
    (∀ k, headers_find k req.headers = last_value k (header_lines raw)) ∧
    (req.headers.map Prod.fst).Nodup ∧
    (∀ kv ∈ req.headers, ∀ c ∈ kv.1, c.isUpper = false) ∧
    (∀ k v, headers_find k req.headers = some v →
      ∃ l ∈ header_lines raw, ':' ∈ l ∧ line_name l = k ∧ line_value l = v) := by
  obtain ⟨i, l, ls, hf, hg, hh, _⟩ := parse_http_request_some raw req hreq
  have hlines : header_lines raw = (ls.map pop_cr).takeWhile (fun l => !l.isEmpty) := by
    unfold header_lines block_lines
    rw [header_block_eq_take raw i hf, hg]
    rfl
  have hfind : ∀ k, headers_find k req.headers = last_value k (header_lines raw) := by
    intro k
    rw [hh, parse_header_lines_find, hlines]
    simp [headers_find]
  refine ⟨hfind, ?_, ?_, ?_⟩
  · rw [hh]
    exact parse_header_lines_nodup ls [] (by simp)
  · rw [hh]
    exact parse_header_lines_lower ls [] (by simp)
  · intro k v hv
    rw [hfind k] at hv
    unfold last_value at hv
    cases hx : List.find? (fun l => decide (':' ∈ l) && decide (line_name l = k))
        (header_lines raw).reverse with
    | none => simp [hx] at hv
    | some x =>
      simp only [hx, Option.map_some', Option.some.injEq] at hv
      have hmem := List.mem_of_find?_eq_some hx
      have hp := List.find?_some hx
      simp only [Bool.and_eq_true, decide_eq_true_eq] at hp
      exact ⟨x, List.mem_reverse.mp hmem, hp.1, hp.2, hv⟩

/-- C11, amended, at a request with a repeated header and a line without colon. -/
theorem parse_http_request_headers_witness :
    headers_find "x-tag".toList req_repeated.headers = some "two".toList ∧
    last_value "x-tag".toList (header_lines raw_repeated) = some "two".toList ∧
    header_lines raw_repeated
      = ["X-Tag :  one ".toList, "nocolon".toList, "Host: h".toList, "x-tag:two".toList] ∧
    (req_repeated.headers.map Prod.fst).Nodup :=
  ⟨by decide,
   ((parse_http_request_headers raw_repeated req_repeated (by decide)).1 "x-tag".toList).symm.trans
     (by decide),
   by decide,
   (parse_http_request_headers raw_repeated req_repeated (by decide)).2.1⟩

/-! ## The declared body length -/

/-- `std::stoll` yields the declared length when it lies in the range of `long long`. -/
theorem stoll_eq_declared_length (s : Str) :
    stoll s = (declared_length s).bind
      (fun n => if n < -(2 : Int) ^ 63 ∨ (2 : Int) ^ 63 - 1 < n then none else some n) := by
  unfold stoll declared_length
  simp only
  by_cases hd : List.takeWhile Char.isDigit
      (if (List.dropWhile isspace s).head? = some '-' ∨ (List.dropWhile isspace s).head? = some '+'
        then List.drop 1 (List.dropWhile isspace s) else List.dropWhile isspace s) = []
  · rw [if_pos hd, if_pos hd]
    rfl
  · rw [if_neg hd, if_neg hd]
    rfl

theorem stoll_of_declared_length (s : Str) (n : Int) (h : declared_length s = some n)
    (h0 : 0 ≤ n) (h1 : n ≤ (MAX_REQ : Int)) : stoll s = some n := by
  rw [stoll_eq_declared_length, h]
  have hm : (MAX_REQ : Int) = 524288 := by decide
  have : ¬ (n < -(2 : Int) ^ 63 ∨ (2 : Int) ^ 63 - 1 < n) := by
    rw [hm] at h1
    have e : (2 : Int) ^ 63 = 9223372036854775808 := by norm_num
    rw [e]
    omega
  simp only [Option.some_bind, if_neg this]

theorem declared_length_of_stoll (s : Str) (n : Int) (h : stoll s = some n) :
    declared_length s = some n := by
  rw [stoll_eq_declared_length] at h
  cases hd : declared_length s with
  | none => simp [hd] at h
  | some m =>
    simp only [hd, Option.some_bind] at h
    split at h
    · cases h
    · exact h

theorem read_headers_reaches (recv : Nat → Str) (k0 : Nat)
    (hterm : CRLFCRLF <:+: received recv k0)
    (hfirst : ∀ j < k0, ¬ CRLFCRLF <:+: received recv j ∧ recv j ≠ [] ∧
      (received recv j).length ≤ MAX_REQ)
    (n : Nat) : ∀ k, k + n = k0 →
    read_headers recv (n + 1) k (received recv k) = some (received recv k0, k0) := by
  induction n with
  | zero =>
    intro k hk
    have hk0 : k = k0 := by omega
    subst hk0
    rw [read_headers_succ]
    have hs : (find_str CRLFCRLF (received recv k)).isSome = true := by
      cases hx : find_str CRLFCRLF (received recv k) with
      | none => exact absurd hterm ((find_str_eq_none_iff _ _).mp hx)
      | some x => rfl
    simp only [hs, if_true]
  | succ n ih =>
    intro k hk
    have hlt : k < k0 := by omega
    obtain ⟨h1, h2, h3⟩ := hfirst k hlt
    rw [read_headers_succ]
    have hs : (find_str CRLFCRLF (received recv k)).isSome = false := by
      rw [(find_str_eq_none_iff _ _).mpr h1]
      rfl
    have hc : ¬ (recv k).length ≤ 0 := by
      intro h
      exact h2 (List.length_eq_zero.mp (by omega))
    simp only [hs, if_false, Bool.false_eq_true, hc]
    rw [← received_succ]
    by_cases hbig : (received recv (k + 1)).length > MAX_REQ
    · simp only [hbig, if_true]
      have hk1 : k + 1 = k0 := by
        by_contra hne
        have := (hfirst (k + 1) (by omega)).2.2
        omega
      rw [hk1]
    · simp only [hbig, if_false]
      exact ih (k + 1) (by omega)

theorem parse_http_request_request_line (raw : Str) (hin : CRLFCRLF <:+: raw) :
    (parse_http_request raw = none ↔ (tokens (first_line (header_block raw))).length < 2) ∧
    (∀ req, parse_http_request raw = some req →
      (tokens (first_line (header_block raw)))[0]? = some req.method ∧
      (tokens (first_line (header_block raw)))[1]? = some req.path) := by
  cases hf : find_str CRLFCRLF raw with
  | none => exact absurd hin ((find_str_eq_none_iff CRLFCRLF raw).mp hf)
  | some i =>
    rw [header_block_eq_take raw i hf]
    by_cases hhp : List.take i raw = []
    · have hp : parse_http_request raw = none := by
        simp [parse_http_request, hf, hhp, getlines]
      rw [hhp]
      refine ⟨⟨fun _ => by simp [first_line, tokens_nil], fun _ => hp⟩, ?_⟩
      intro req hreq
      rw [hp] at hreq
      cases hreq
    · obtain ⟨ls, hls⟩ := getlines_cons_first_line (List.take i raw) hhp
      have hrl := read_request_line_eq (pop_cr (first_line (List.take i raw)))
      rw [tokens_pop_cr] at hrl
      have htok := first_two_tokens (tokens (first_line (List.take i raw)))
        (fun t ht => tokens_ne_nil _ t ht)
      have hparse : parse_http_request raw =
          if (read_request_line (pop_cr (first_line (List.take i raw)))).1 = [] ∨
              (read_request_line (pop_cr (first_line (List.take i raw)))).2 = [] then none
          else some { method := (read_request_line (pop_cr (first_line (List.take i raw)))).1,
                      path := (read_request_line (pop_cr (first_line (List.take i raw)))).2,
                      headers := parse_header_lines [] ls,
                      body := raw.drop (i + 4) } := by
        simp only [parse_http_request, hf, hls]
      rw [hrl] at hparse
      simp only at hparse
      by_cases hbad : (tokens (first_line (List.take i raw)))[0]?.getD [] = [] ∨
          (tokens (first_line (List.take i raw)))[1]?.getD [] = []
      · rw [if_pos hbad] at hparse
        refine ⟨⟨fun _ => htok.1.mp hbad, fun _ => hparse⟩, ?_⟩
        intro req hreq
        rw [hparse] at hreq
        cases hreq
      · rw [if_neg hbad] at hparse
        refine ⟨⟨(fun h => by rw [hparse] at h; cases h),
          fun h => absurd (htok.1.mpr h) hbad⟩, ?_⟩
        intro req hreq
        rw [hparse] at hreq
        cases hreq
        exact htok.2 hbad

theorem headers_find_parsed (raw : Str) (req : HttpRequest)
    (hreq : parse_http_request raw = some req) (k : Str) :
    headers_find k req.headers = last_value k (header_lines raw) := by
  obtain ⟨i, l, ls, hf, hg, hh, _⟩ := parse_http_request_some raw req hreq
  have hlines : header_lines raw = (ls.map pop_cr).takeWhile (fun l => !l.isEmpty) := by
    unfold header_lines block_lines
    rw [header_block_eq_take raw i hf, hg]
    rfl
  rw [hh, parse_header_lines_find, hlines]
  simp [headers_find]

theorem parsed_split (raw : Str) (req : HttpRequest)
    (hreq : parse_http_request raw = some req) :
    raw = header_block raw ++ CRLFCRLF ++ req.body := by
  obtain ⟨i, l, ls, hf, _, _, hbody⟩ := parse_http_request_some raw req hreq
  rw [header_block_eq_take raw i hf, hbody]
  exact split_at_terminator raw i hf

/-- Every `recv` of the second loop is made while the body is shorter than the content
length. -/
theorem read_body_calls (recv : Nat → Str) (content_length : Int) (fuel k : Nat)
    (pre body b : Str) (k1 : Nat)
    (h : read_body recv content_length fuel k body = some (b, k1))
    (hpre : pre ++ body = received recv k) :
    ∀ j, k ≤ j → j < k1 →
      ((received recv j).length : Int) < (pre.length : Int) + content_length := by
  induction fuel generalizing k body with
  | zero => simp [read_body] at h
  | succ fuel ih =>
    rw [read_body_succ] at h
    by_cases hlt : (body.length : Int) < content_length
    · simp only [hlt, if_true] at h
      have hk : ((received recv k).length : Int) < (pre.length : Int) + content_length := by
        rw [← hpre, List.length_append]
        push_cast
        omega
      by_cases hc : (recv k).length ≤ 0
      · simp only [hc, if_true, Option.some.injEq, Prod.mk.injEq] at h
        obtain ⟨_, h2⟩ := h
        subst h2
        intro j hj1 hj2
        have : j = k := by omega
        rw [this]
        exact hk
      · simp only [hc, if_false] at h
        by_cases hbig : (body ++ recv k).length > MAX_REQ
        · simp only [hbig, if_true, Option.some.injEq, Prod.mk.injEq] at h
          obtain ⟨_, h2⟩ := h
          subst h2
          intro j hj1 hj2
          have : j = k := by omega
          rw [this]
          exact hk
        · simp only [hbig, if_false] at h
          have := ih (k + 1) (body ++ recv k) h
            (by rw [received_succ, ← hpre, List.append_assoc])
          intro j hj1 hj2
          by_cases hjk : j = k
          · rw [hjk]
            exact hk
          · exact this j (by omega) hj2
    · simp only [hlt, if_false, Option.some.injEq, Prod.mk.injEq] at h
      obtain ⟨_, h2⟩ := h
      subst h2
      intro j hj1 hj2
      omega

/-- The first loop on a stream whose terminator is complete after `k0` calls. -/
theorem read_headers_stream (recv : Nat → Str) (k0 fuel : Nat) (data : Str) (k : Nat)
    (hterm : CRLFCRLF <:+: received recv k0)
    (hfirst : ∀ j < k0, ¬ CRLFCRLF <:+: received recv j ∧ recv j ≠ [] ∧
      (received recv j).length ≤ MAX_REQ)
    (h : read_headers recv fuel 0 [] = some (data, k)) :
    data = received recv k0 ∧ k = k0 := by
  have h1 := read_headers_reaches recv k0 hterm hfirst k0 0 (by omega)
  have e1 := read_headers_mono recv (k0 + 1) fuel 0 [] _ h1
  have e2 := read_headers_mono recv fuel (k0 + 1) 0 [] _ h
  rw [Nat.add_comm fuel (k0 + 1), e1] at e2
  have := Option.some.inj e2
  simp only [Prod.mk.injEq] at this
  exact ⟨this.1.symm, this.2.symm⟩

/-- C7, amended: on a stream whose header terminator is completed by the `recv` call
number `k0`, every earlier call having delivered bytes into a buffer of at most
`MAX_REQ` bytes, and whose header lines before the first empty line declare a
content-length above `MAX_REQ` (beyond the range of `long long` included),
`read_http_from_socket` returns exactly what these `k0` calls delivered and makes no
further `recv`.  The declared length rejects nothing: the answer is 400 Bad Request when
the request line has fewer than two tokens, and otherwise the bytes parse, with the
bytes buffered after the terminator as body, and the request is dispatched. -/
theorem read_http_from_socket_oversize (recv : Nat → Str) (k0 : Nat) (value : Str) (n : Int)
    (hterm : CRLFCRLF <:+: received recv k0)
    (hfirst : ∀ j < k0, ¬ CRLFCRLF <:+: received recv j ∧ recv j ≠ [] ∧
      (received recv j).length ≤ MAX_REQ)
    (hvalue : last_value "content-length".toList (header_lines (received recv k0)) = some value)
    (hn : declared_length value = some n) (hbig : n > (MAX_REQ : Int)) :
    (∀ fuel, MAX_REQ + 2 ≤ fuel →
      read_http_from_socket recv fuel = some (received recv k0, k0)) ∧
    ((tokens (first_line (header_block (received recv k0)))).length < 2 →
      frame_and_route (received recv k0) =
        Except.error (http_response 400 "Bad Request".toList "text/plain; charset=utf-8".toList
          "Bad Request\n".toList)) ∧
    (2 ≤ (tokens (first_line (header_block (received recv k0)))).length →
      ∃ req, frame_and_route (received recv k0) = Except.ok (req, route req) ∧
        (tokens (first_line (header_block (received recv k0))))[0]? = some req.method ∧
        (tokens (first_line (header_block (received recv k0))))[1]? = some req.path ∧
        headers_find "content-length".toList req.headers = some value ∧
        received recv k0 = header_block (received recv k0) ++ CRLFCRLF ++ req.body) := by
  have hline := parse_http_request_request_line (received recv k0) hterm
  refine ⟨?_, ?_, ?_⟩
  · intro fuel hfuel
    obtain ⟨r, h⟩ := read_http_from_socket_total recv fuel hfuel
    obtain ⟨raw, k⟩ := r
    obtain ⟨data, k1, h1, hcase⟩ := read_http_from_socket_cases recv fuel raw k h
    obtain ⟨hd, hk⟩ := read_headers_stream recv k0 fuel data k1 hterm hfirst h1
    subst hd
    subst hk
    rcases hcase with ⟨hraw, hk, _⟩ | ⟨header_end, req0, value0, n0, body, h2, h3, h4, h5, h6, h7,
        h8, hraw⟩
    · rw [h, hraw, hk]
    · exfalso
      rw [headers_find_parsed _ req0 h3, hvalue] at h4
      cases h4
      rw [declared_length_of_stoll value n0 h5] at hn
      cases hn
      omega
  · intro hlt
    have hp := hline.1.mpr hlt
    simp only [frame_and_route, hp]
  · intro hge
    cases hp : parse_http_request (received recv k0) with
    | none =>
      have := hline.1.mp hp
      omega
    | some req =>
      refine ⟨req, ?_, (hline.2 req hp).1, (hline.2 req hp).2, ?_, parsed_split _ req hp⟩
      · simp only [frame_and_route, hp]
      · rw [headers_find_parsed _ req hp, hvalue]

/-- C7, amended, at the request of `recv_oversize`, which is dispatched, and at the
request of `recv_bad_line`, which is answered 400 for its request line. -/
theorem read_http_from_socket_oversize_witness :
    ((∀ fuel, MAX_REQ + 2 ≤ fuel →
        read_http_from_socket recv_oversize fuel = some (received recv_oversize 1, 1)) ∧
      ∃ req, frame_and_route (received recv_oversize 1) = Except.ok (req, route req) ∧
        (tokens (first_line (header_block (received recv_oversize 1))))[0]? = some req.method ∧
        (tokens (first_line (header_block (received recv_oversize 1))))[1]? = some req.path ∧
        headers_find "content-length".toList req.headers = some "524289".toList ∧
        received recv_oversize 1
          = header_block (received recv_oversize 1) ++ CRLFCRLF ++ req.body) ∧
    ((∀ fuel, MAX_REQ + 2 ≤ fuel →
        read_http_from_socket recv_bad_line fuel = some (received recv_bad_line 1, 1)) ∧
      frame_and_route (received recv_bad_line 1) =
        Except.error (http_response 400 "Bad Request".toList "text/plain; charset=utf-8".toList
          "Bad Request\n".toList)) :=
  ⟨⟨(read_http_from_socket_oversize recv_oversize 1 "524289".toList 524289
        (by decide) (by decide) (by decide) (by decide) (by decide)).1,
    (read_http_from_socket_oversize recv_oversize 1 "524289".toList 524289
        (by decide) (by decide) (by decide) (by decide) (by decide)).2.2 (by decide)⟩,
   ⟨(read_http_from_socket_oversize recv_bad_line 1 "99999999999999999999".toList
        99999999999999999999 (by decide) (by decide) (by decide) (by decide) (by decide)).1,
    (read_http_from_socket_oversize recv_bad_line 1 "99999999999999999999".toList
        99999999999999999999 (by decide) (by decide) (by decide) (by decide) (by decide)).2.1
        (by decide)⟩⟩

/-- C8, as stated, fails.  The header block of `raw_hidden_length` carries the line
`Content-Length: 5` and its request line has two tokens, but the line comes after an
empty line, where the header loop stops: the reader returns after its first `recv` with
the two body bytes of that chunk, although three more bytes wait on the connection.
The header lines of `raw_one_token` carry `Content-Length: 5` before any empty line, but
its request line has one token, the bytes do not parse, and the reader returns in the
same way. -/
theorem content_length_not_read :
    "Content-Length: 5".toList ∈ block_lines raw_hidden_length ∧
    2 ≤ (tokens (first_line (header_block raw_hidden_length))).length ∧
    recv_hidden_length 0 = raw_hidden_length ∧
    read_http_from_socket recv_hidden_length (MAX_REQ + 2) = some (raw_hidden_length, 1) ∧
    raw_hidden_length = header_block raw_hidden_length ++ CRLFCRLF ++ "he".toList ∧
    recv_hidden_length 1 = "llo".toList ∧
    "Content-Length: 5".toList ∈ header_lines raw_one_token ∧
    recv_one_token 0 = raw_one_token ∧
    read_http_from_socket recv_one_token (MAX_REQ + 2) = some (raw_one_token, 1) ∧
    raw_one_token = header_block raw_one_token ++ CRLFCRLF ++ "he".toList ∧
    recv_one_token 1 = "llo".toList :=
  ⟨by decide, by decide, rfl, by decide, by decide, rfl, by decide, rfl, by decide, by decide,
    rfl⟩

/-- C8, amended: on a stream whose header terminator is completed by the `recv` call
number `k0`, every earlier call having delivered bytes into a buffer of at most
`MAX_REQ` bytes, whose request line has at least two tokens and whose header lines
before the first empty line declare a content-length `n` with `0 <= n <= MAX_REQ`,
`read_http_from_socket` returns, after `k >= k0` calls, exactly what these calls
delivered: the header block, the terminator, and the body that follows it in stream
order.  The body has at least `n` bytes unless the last call returned nothing, and
every call after the first `k0` was made while fewer than `n` body bytes had arrived. -/
theorem read_http_from_socket_body (recv : Nat → Str) (k0 : Nat) (value : Str) (n : Int)
    (hterm : CRLFCRLF <:+: received recv k0)
    (hfirst : ∀ j < k0, ¬ CRLFCRLF <:+: received recv j ∧ recv j ≠ [] ∧
      (received recv j).length ≤ MAX_REQ)
    (hline : 2 ≤ (tokens (first_line (header_block (received recv k0)))).length)
    (hvalue : last_value "content-length".toList (header_lines (received recv k0)) = some value)
    (hn : declared_length value = some n) (hn0 : 0 ≤ n) (hmax : n ≤ (MAX_REQ : Int)) :
    ∃ k body, k0 ≤ k ∧
      (∀ fuel, MAX_REQ + 2 ≤ fuel →
        read_http_from_socket recv fuel = some (received recv k, k)) ∧
      received recv k = header_block (received recv k0) ++ CRLFCRLF ++ body ∧
      (n ≤ (body.length : Int) ∨ (k0 < k ∧ recv (k - 1) = [])) ∧
      (∀ j, k0 ≤ j → j < k →
        ((received recv j).length : Int)
          < ((header_block (received recv k0) ++ CRLFCRLF).length : Int) + n) := by
  have hl := parse_http_request_request_line (received recv k0) hterm
  obtain ⟨r, h⟩ := read_http_from_socket_total recv (MAX_REQ + 2) (le_refl _)
  obtain ⟨raw, k⟩ := r
  obtain ⟨data, k1, h1, hcase⟩ := read_http_from_socket_cases recv (MAX_REQ + 2) raw k h
  obtain ⟨hd, hk⟩ := read_headers_stream recv k0 (MAX_REQ + 2) data k1 hterm hfirst h1
  subst hd
  subst hk
  have hstoll := stoll_of_declared_length value n hn hn0 hmax
  rcases hcase with ⟨hraw, hk, hno⟩ | ⟨header_end, req0, value0, n0, body, h2, h3, h4, h5, h6, h7,
      h8, hraw⟩
  · exfalso
    cases hp : parse_http_request (received recv k1) with
    | none =>
      have := hl.1.mp hp
      omega
    | some req =>
      have := hno req value n hp (by rw [headers_find_parsed _ req hp, hvalue]) hstoll
      omega
  · rw [headers_find_parsed _ req0 h3, hvalue] at h4
    cases h4
    rw [hstoll] at h5
    cases h5
    have hfs := find_str_some_spec CRLFCRLF (received recv k1) header_end h2
    have hlen : header_end + 4 ≤ (received recv k1).length := hfs.2.1
    have htake : List.take (header_end + 4) (received recv k1)
        = header_block (received recv k1) ++ CRLFCRLF := by
      rw [header_block_eq_take _ header_end h2]
      have hpre : CRLFCRLF <+: List.drop header_end (received recv k1) := hfs.1
      rw [List.take_add]
      congr 1
      exact (List.prefix_iff_eq_take.mp hpre).symm
    have hb := read_body_spec recv n (MAX_REQ + 2) k1 (List.take (header_end + 4) (received recv k1))
      (List.drop (header_end + 4) (received recv k1)) body k h8
      (by rw [List.take_append_drop]) hmax
    have hc := read_body_calls recv n (MAX_REQ + 2) k1 (List.take (header_end + 4) (received recv k1))
      (List.drop (header_end + 4) (received recv k1)) body k h8
      (by rw [List.take_append_drop])
    have hrawk : raw = received recv k := by rw [hraw]; exact hb.1
    refine ⟨k, body, hb.2.1, ?_, ?_, ?_, ?_⟩
    · intro fuel hfuel
      rw [← hrawk]
      exact read_http_from_socket_stable recv (MAX_REQ + 2) fuel _ h hfuel
    · rw [← hb.1, htake]
    · rcases hb.2.2 with hx | ⟨hx1, hx2⟩
      · exact Or.inl hx
      · refine Or.inr ⟨?_, hx2⟩
        by_contra hle
        exact (hfirst (k - 1) (by omega)).2.1 hx2
    · intro j hj1 hj2
      rw [← htake]
      exact hc j hj1 hj2



/-- C8, amended, at the request of `recv_split`, whose terminator is complete after two
calls and whose body arrives in two pieces: the reader makes three calls and returns
`raw_split`, with the five bytes of the body. -/
theorem read_http_from_socket_body_witness :
    (∃ k body, 2 ≤ k ∧
      (∀ fuel, MAX_REQ + 2 ≤ fuel →
        read_http_from_socket recv_split fuel = some (received recv_split k, k)) ∧
      received recv_split k = header_block (received recv_split 2) ++ CRLFCRLF ++ body ∧
      ((5 : Int) ≤ (body.length : Int) ∨ (2 < k ∧ recv_split (k - 1) = [])) ∧
      (∀ j, 2 ≤ j → j < k →
        ((received recv_split j).length : Int)
          < ((header_block (received recv_split 2) ++ CRLFCRLF).length : Int) + 5)) ∧
    read_http_from_socket recv_split (MAX_REQ + 2) = some (raw_split, 3) ∧
    parse_http_request raw_split = some req_split :=
  ⟨read_http_from_socket_body recv_split 2 "5".toList 5
    (by decide) (by decide) (by decide) (by decide) (by decide) (by decide) (by decide),
   by decide, by decide⟩

/-! ## The snippet endpoints -/

theorem sanitize_accepted_chars (name : Str) (h : sanitize_cpp_filename name = some name) :
    ∀ c ∈ name, in_name_class c = true := by
  rw [sanitize_cpp_filename_eq] at h
  by_cases hc : name.length ≤ 80 ∧ regex_match_ok name = true ∧
      find_str "..".toList name = none
  · obtain ⟨stem, _, hname, hall⟩ := (regex_match_ok_iff name).mp hc.2.1
    intro c hmem
    rw [hname, List.mem_append] at hmem
    rcases hmem with hm | hm
    · exact hall c hm
    · exact in_name_class_cpp c hm
  · rw [if_neg hc] at h
    cases h

theorem in_name_class_plain (c : Char) (h : in_name_class c = true) :
    c ≠ '&' ∧ c ≠ '%' ∧ c ≠ '+' ∧ c ≠ '=' ∧ c ≠ '?' := by
  refine ⟨?_, ?_, ?_, ?_, ?_⟩ <;>
  · rintro rfl
    revert h
    decide

theorem find_char_append_cons (x : Char) (a b : Str) (h : x ∉ a) :
    find_char x (a ++ x :: b) = some a.length := by
  induction a with
  | nil => simp [find_char]
  | cons c a ih =>
    have hc : c ≠ x := fun e => h (by rw [e]; exact List.mem_cons_self _ _)
    have ha : x ∉ a := fun hm => h (List.mem_cons_of_mem _ hm)
    rw [List.cons_append, find_char, if_neg hc, ih ha]
    rfl

theorem query_parts_single (s : Str) (hs : s ≠ []) (h : '&' ∉ s) : query_parts s = [s] := by
  induction s with
  | nil => exact absurd rfl hs
  | cons c s ih =>
    have hc : c ≠ '&' := fun e => h (by rw [e]; exact List.mem_cons_self _ _)
    have ha : '&' ∉ s := fun hm => h (List.mem_cons_of_mem _ hm)
    rw [query_parts, if_neg hc]
    cases s with
    | nil => rfl
    | cons d s1 => rw [ih (List.cons_ne_nil _ _) ha]

/-- The endpoints read a name without `&`, `%` and `+` back from a target that carries
it as the query `name=<name>`. -/
theorem param_name_of_target (method endpoint name : Str) (headers : List (Str × Str))
    (body : Str) (hep : '?' ∉ endpoint)
    (hplain : ∀ c ∈ name, c ≠ '&' ∧ c ≠ '%' ∧ c ≠ '+') :
    param_name { method := method,
                 path := endpoint ++ '?' :: ("name".toList ++ '=' :: name),
                 headers := headers, body := body } = name := by
  have hquery : split_path_query (endpoint ++ '?' :: ("name".toList ++ '=' :: name))
      = (endpoint, "name".toList ++ '=' :: name) := by
    unfold split_path_query
    rw [find_char_append_cons '?' endpoint _ hep]
    simp
  have hamp : '&' ∉ "name".toList ++ '=' :: name := by
    intro hm
    rw [List.mem_append, List.mem_cons] at hm
    rcases hm with hm | hm | hm
    · revert hm
      decide
    · revert hm
      decide
    · exact (hplain '&' hm).1 rfl
  have hparts := query_parts_single ("name".toList ++ '=' :: name) (by simp) hamp
  have heq : find_char '=' ("name".toList ++ '=' :: name) = some 4 :=
    find_char_append_cons '=' "name".toList name (by decide)
  have hid : url_decode name = name :=
    url_decode_id name (fun c hc => (hplain c hc).2)
  have hpart : parse_query_part [] ("name".toList ++ '=' :: name)
      = [("name".toList, name)] := by
    unfold parse_query_part
    rw [heq]
    have e1 : List.take 4 ("name".toList ++ '=' :: name) = "name".toList := rfl
    have e2 : List.drop (4 + 1) ("name".toList ++ '=' :: name) = name := rfl
    simp only [e1, e2, hid]
    have e3 : url_decode "name".toList = "name".toList := by decide
    rw [e3, if_pos (by decide)]
    rfl
  unfold param_name
  simp only [hquery, parse_query, hparts, List.foldl_cons, List.foldl_nil, hpart]
  rfl

theorem route_save_target (name : Str) (headers : List (Str × Str)) (body : Str) :
    route { method := "POST".toList, path := "/save?name=".toList ++ name,
            headers := headers, body := body } = Route.save := by
  have hq : split_path_query ("/save?name=".toList ++ name)
      = ("/save".toList, "name".toList ++ '=' :: name) := by
    have e : "/save?name=".toList ++ name
        = "/save".toList ++ '?' :: ("name".toList ++ '=' :: name) := rfl
    unfold split_path_query
    rw [e, find_char_append_cons '?' "/save".toList _ (by decide)]
    simp
  have hrun : ¬ ("/save?name=".toList ++ name = "/run".toList) := by
    intro h
    have e : "/save?name=".toList ++ name = '/' :: 's' :: ("ave?name=".toList ++ name) := rfl
    have e2 : "/run".toList = '/' :: 'r' :: "un".toList := rfl
    rw [e, e2] at h
    have := (List.cons.inj (List.cons.inj h).2).1
    revert this
    decide
  unfold route
  have hpg : ¬ ("POST".toList = "GET".toList) := by decide
  rw [if_neg (fun h => hpg h.1), if_neg (fun h => hrun h.2),
    if_neg (fun h => hpg h.1), if_pos ⟨rfl, congrArg Prod.fst hq⟩]

theorem route_load_target (name : Str) (headers : List (Str × Str)) (body : Str) :
    route { method := "GET".toList, path := "/load?name=".toList ++ name,
            headers := headers, body := body } = Route.load := by
  have hq : split_path_query ("/load?name=".toList ++ name)
      = ("/load".toList, "name".toList ++ '=' :: name) := by
    have e : "/load?name=".toList ++ name
        = "/load".toList ++ '?' :: ("name".toList ++ '=' :: name) := rfl
    unfold split_path_query
    rw [e, find_char_append_cons '?' "/load".toList _ (by decide)]
    simp
  have e : "/load?name=".toList ++ name = '/' :: 'l' :: ("oad?name=".toList ++ name) := rfl
  have hroot : ¬ ("/load?name=".toList ++ name = "/".toList) := by
    intro h
    have e2 : "/".toList = ['/'] := rfl
    rw [e, e2] at h
    cases (List.cons.inj h).2
  have hindex : ¬ ("/load?name=".toList ++ name = "/index.html".toList) := by
    intro h
    have e2 : "/index.html".toList = '/' :: 'i' :: "ndex.html".toList := rfl
    rw [e, e2] at h
    have := (List.cons.inj (List.cons.inj h).2).1
    revert this
    decide
  unfold route
  have hgp : ¬ ("GET".toList = "POST".toList) := by decide
  rw [if_neg (fun h => h.2.elim hroot hindex), if_neg (fun h => hgp h.1),
    if_pos ⟨rfl, congrArg Prod.fst hq⟩]


/-- C15: for a name that `sanitize_cpp_filename` accepts and a file that can be opened
for writing, `POST /save?name=<name>` with body `b` is routed to the save endpoint,
which writes `b` to `user_codes/<name>` and answers 200, and a following
`GET /load?name=<name>` is routed to the load endpoint, which answers 200 with exactly
`b` as body.  For a request whose name, as the endpoints read it from the query, is
rejected, both answer 400 and make no access to the file system; this is the case of
every target `/save?name=<name>` or `/load?name=<name>` with a rejected name that holds
none of `&`, `%` and `+`. -/
theorem save_then_load (fs : FileSystem) (name b : Str) (headers1 headers2 : List (Str × Str))
    (body2 : Str) (hacc : sanitize_cpp_filename name = some name)
    (hw : fs.can_write ("user_codes/".toList ++ name) = true) :
    (route { method := "POST".toList, path := "/save?name=".toList ++ name,
             headers := headers1, body := b } = Route.save ∧
      route { method := "GET".toList, path := "/load?name=".toList ++ name,
              headers := headers2, body := body2 } = Route.load) ∧
    handle_save fs { method := "POST".toList, path := "/save?name=".toList ++ name,
                     headers := headers1, body := b } =
      (http_response 200 "OK".toList "application/json; charset=utf-8".toList
          ("\x7b\"ok\":true,\"savedAs\":\"".toList ++ json_escape name
            ++ "\",\"bytes\":".toList ++ to_string (b.length : Int) ++ "\x7d".toList),
        write_file fs ("user_codes/".toList ++ name) b,
        [FileOp.write ("user_codes/".toList ++ name)]) ∧
    (handle_load (write_file fs ("user_codes/".toList ++ name) b)
        { method := "GET".toList, path := "/load?name=".toList ++ name,
          headers := headers2, body := body2 }).1 =
      http_response 200 "OK".toList "text/plain; charset=utf-8".toList b ∧
    (∀ (fs1 : FileSystem) (req : HttpRequest),
      sanitize_cpp_filename (param_name req) = none →
      handle_load fs1 req =
        (http_response 400 "Bad Request".toList "text/plain; charset=utf-8".toList
          "Invalid filename. Use something like star_code.cpp\n".toList, []) ∧
      handle_save fs1 req =
        (http_response 400 "Bad Request".toList "application/json; charset=utf-8".toList
          "\x7b\"ok\":false,\"error\":\"Invalid filename. Use something like star_code.cpp\"\x7d".toList,
          fs1, [])) ∧
    (∀ (fs1 : FileSystem) (bad : Str) (headers : List (Str × Str)) (body : Str),
      (∀ c ∈ bad, c ≠ '&' ∧ c ≠ '%' ∧ c ≠ '+') → sanitize_cpp_filename bad = none →
      handle_load fs1 { method := "GET".toList, path := "/load?name=".toList ++ bad,
                        headers := headers, body := body } =
        (http_response 400 "Bad Request".toList "text/plain; charset=utf-8".toList
          "Invalid filename. Use something like star_code.cpp\n".toList, []) ∧
      handle_save fs1 { method := "POST".toList, path := "/save?name=".toList ++ bad,
                        headers := headers, body := body } =
        (http_response 400 "Bad Request".toList "application/json; charset=utf-8".toList
          "\x7b\"ok\":false,\"error\":\"Invalid filename. Use something like star_code.cpp\"\x7d".toList,
          fs1, [])) := by
  have hplain : ∀ c ∈ name, c ≠ '&' ∧ c ≠ '%' ∧ c ≠ '+' := fun c hc =>
    ⟨(in_name_class_plain c (sanitize_accepted_chars name hacc c hc)).1,
     (in_name_class_plain c (sanitize_accepted_chars name hacc c hc)).2.1,
     (in_name_class_plain c (sanitize_accepted_chars name hacc c hc)).2.2.1⟩
  have hp1 : param_name ⟨"POST".toList, "/save?name=".toList ++ name, headers1, b⟩ = name :=
    param_name_of_target "POST".toList "/save".toList name headers1 b (by decide) hplain
  have hp2 : param_name ⟨"GET".toList, "/load?name=".toList ++ name, headers2, body2⟩
      = name :=
    param_name_of_target "GET".toList "/load".toList name headers2 body2 (by decide) hplain
  refine ⟨⟨route_save_target name headers1 b, route_load_target name headers2 body2⟩,
    ?_, ?_, ?_, ?_⟩
  · unfold handle_save
    rw [hp1, hacc]
    simp only
    rw [if_neg (by rw [hw]; decide)]
  · unfold handle_load
    rw [hp2, hacc]
    have hread : read_file (write_file fs ("user_codes/".toList ++ name) b)
        ("user_codes/".toList ++ name) = b := by
      simp [read_file, write_file]
    have hcontent : (write_file fs ("user_codes/".toList ++ name) b).content
        ("user_codes/".toList ++ name) = some b := by
      simp [write_file]
    simp only
    rw [hread, hcontent]
    by_cases hb : b = []
    · rw [if_pos hb, if_neg (by simp)]
    · rw [if_neg hb]
  · intro fs1 req hrej
    constructor
    · unfold handle_load
      rw [hrej]
    · unfold handle_save
      rw [hrej]
  · intro fs1 bad headers body hbad hrej
    have hq1 : param_name ⟨"GET".toList, "/load?name=".toList ++ bad, headers, body⟩ = bad :=
      param_name_of_target "GET".toList "/load".toList bad headers body (by decide) hbad
    have hq2 : param_name ⟨"POST".toList, "/save?name=".toList ++ bad, headers, body⟩ = bad :=
      param_name_of_target "POST".toList "/save".toList bad headers body (by decide) hbad
    constructor
    · unfold handle_load
      rw [hq1, hrej]
    · unfold handle_save
      rw [hq2, hrej]

/-- C15 at the name `star_code.cpp` on an empty file system, and at a request whose
name holds a path traversal. -/
theorem save_then_load_witness :
    (handle_load (write_file fs_empty "user_codes/star_code.cpp".toList "int x;".toList)
        { method := "GET".toList, path := "/load?name=star_code.cpp".toList,
          headers := [], body := [] }).1 =
      http_response 200 "OK".toList "text/plain; charset=utf-8".toList "int x;".toList ∧
    handle_save fs_empty { method := "POST".toList, path := "/save?name=..%2Fx.cpp".toList,
                           headers := [], body := "int x;".toList } =
      (http_response 400 "Bad Request".toList "application/json; charset=utf-8".toList
        "\x7b\"ok\":false,\"error\":\"Invalid filename. Use something like star_code.cpp\"\x7d".toList,
        fs_empty, []) :=
  ⟨(save_then_load fs_empty "star_code.cpp".toList "int x;".toList [] [] []
      (by decide) rfl).2.2.1,
   ((save_then_load fs_empty "star_code.cpp".toList "int x;".toList [] [] []
      (by decide) rfl).2.2.2.1 fs_empty
      { method := "POST".toList, path := "/save?name=..%2Fx.cpp".toList,
        headers := [], body := "int x;".toList } (by decide)).2⟩


/-- C19 at the `404 Not Found` answer of the dispatch. -/
theorem http_response_format_witness :
    http_response 404 "Not Found".toList "text/plain; charset=utf-8".toList
        "Not Found\n".toList =
      ("HTTP/1.1 404 Not Found\r\nContent-Type: text/plain; charset=utf-8\r\n"
        ++ "Content-Length: 10\r\nConnection: close\r\n\r\nNot Found\n").toList :=
  (http_response_format 404 "Not Found".toList "text/plain; charset=utf-8".toList
    "Not Found\n".toList).1.trans (by decide)


/-! ## The invocations of the sandbox, the run phase and the branch `POST /run` -/

theorem run_process_capture_start_failure (penv : ProcEnv) (args : List Str) (input : Str)
    (timeout_ms : Int) (limit_resources : Bool)
    (h : penv.pipe_ok = false ∨ penv.fork_ok = false) :
    run_process_capture penv args input timeout_ms limit_resources =
      some { exit_code := -1, timed_out := false,
             output := if penv.pipe_ok = false then "Internal error: pipe() failed.\n".toList
                       else "Internal error: fork() failed.\n".toList } := by
  unfold run_process_capture
  cases hp : penv.pipe_ok with
  | false => rfl
  | true =>
    have hf : penv.fork_ok = false := by
      rcases h with h | h
      · rw [hp] at h
        cases h
      · exact h
    rw [hf]
    rfl

theorem handle_run_cpp_source_failed {σ : Type} (env : RunEnv σ) (w : σ) (code input : Str)
    (hw : env.write_source (env.create_directories w) code = none) :
    handle_run_cpp env w code input =
      (some "\x7b\"ok\":false,\"error\":\"Failed to write source file\"\x7d".toList, []) := by
  unfold handle_run_cpp
  simp only [hw]

theorem handle_run_cpp_compile_stuck {σ : Type} (env : RunEnv σ) (w w1 : σ) (code input : Str)
    (hw : env.write_source (env.create_directories w) code = some w1)
    (hr : invoke (env.os w1 compile_call).1 compile_call = none) :
    handle_run_cpp env w code input = (none, [compile_call]) := by
  unfold handle_run_cpp
  simp only [hw, hr]

theorem handle_run_cpp_compile_stage {σ : Type} (env : RunEnv σ) (w w1 : σ) (code input : Str)
    (compile : ProcResult)
    (hw : env.write_source (env.create_directories w) code = some w1)
    (hr : invoke (env.os w1 compile_call).1 compile_call = some compile)
    (hc : compile.exit_code ≠ 0) :
    handle_run_cpp env w code input =
      (some ("\x7b\"ok\":false,\"stage\":\"compile\",\"output\":\"".toList
          ++ json_escape compile.output ++ "\"\x7d".toList),
        [compile_call]) := by
  unfold handle_run_cpp
  simp only [hw, hr]
  rw [if_pos hc]

theorem handle_run_cpp_run_stuck {σ : Type} (env : RunEnv σ) (w w1 : σ) (code input : Str)
    (compile : ProcResult)
    (hw : env.write_source (env.create_directories w) code = some w1)
    (hr : invoke (env.os w1 compile_call).1 compile_call = some compile)
    (hc : compile.exit_code = 0)
    (hrun : invoke (env.os (env.os w1 compile_call).2 (run_call input)).1 (run_call input)
      = none) :
    handle_run_cpp env w code input = (none, [compile_call, run_call input]) := by
  unfold handle_run_cpp
  simp only [hw, hr]
  rw [if_neg (not_not.mpr hc)]
  simp only [hrun]

theorem handle_run_cpp_run_returned {σ : Type} (env : RunEnv σ) (w w1 : σ) (code input : Str)
    (compile run : ProcResult)
    (hw : env.write_source (env.create_directories w) code = some w1)
    (hr : invoke (env.os w1 compile_call).1 compile_call = some compile)
    (hc : compile.exit_code = 0)
    (hrun : invoke (env.os (env.os w1 compile_call).2 (run_call input)).1 (run_call input)
      = some run) :
    handle_run_cpp env w code input =
      (some ("\x7b\"ok\":true,\"exit_code\":".toList ++ to_string run.exit_code
          ++ ",\"timed_out\":".toList
          ++ (if run.timed_out then "true".toList else "false".toList)
          ++ ",\"output\":\"".toList ++ json_escape run.output ++ "\"\x7d".toList),
        [compile_call, run_call input]) := by
  unfold handle_run_cpp
  simp only [hw, hr]
  rw [if_neg (not_not.mpr hc)]
  simp only [hrun]
  cases run.timed_out <;> simp [List.append_assoc]

theorem handle_run_request_valid {σ : Type} (json_fields : Str → Except Str (Str × Str))
    (env : RunEnv σ) (w : σ) (req : HttpRequest) (code input : Str)
    (hjson : json_fields req.body = Except.ok (code, input)) (hcode : code ≠ []) :
    handle_run_request json_fields env w req =
      (handle_run_cpp env w code input).1.map
        (http_response 200 "OK".toList "application/json; charset=utf-8".toList) := by
  unfold handle_run_request
  rw [hjson]
  simp only
  rw [if_neg hcode]
  cases (handle_run_cpp env w code input).1 <;> rfl

/-- C2: when the source file has been written and the compile invocation returns exit
code 0, `handle_run_cpp` makes exactly one more sandbox invocation, the run in the
environment `penv`.  When the run returns, the text is the success object built from
its result: the exit code in decimal, the timed-out flag as `true` or `false`, the
escaped output; in particular, when the write of the input has come back and the child
is seen to exit normally with code `c` before any deadline check fails, the object
carries `exit_code` `c` and `timed_out` `false`.  But when the input is not empty and
the write of the input to the child's stdin does not come back, the run does not return
and `handle_run_cpp` returns nothing. -/
theorem handle_run_cpp_run_phase {σ : Type} (env : RunEnv σ) (w w1 : σ) (code input : Str)
    (compile : ProcResult) (penv : ProcEnv)
    (hw : env.write_source (env.create_directories w) code = some w1)
    (hr : invoke (env.os w1 compile_call).1 compile_call = some compile)
    (hc : compile.exit_code = 0)
    (hos : (env.os (env.os w1 compile_call).2 (run_call input)).1 = penv) :
    (handle_run_cpp env w code input).2 = [compile_call, run_call input] ∧
    (∀ run, invoke penv (run_call input) = some run →
      (handle_run_cpp env w code input).1 =
        some ("\x7b\"ok\":true,\"exit_code\":".toList ++ to_string run.exit_code
          ++ ",\"timed_out\":".toList
          ++ (if run.timed_out then "true".toList else "false".toList)
          ++ ",\"output\":\"".toList ++ json_escape run.output ++ "\"\x7d".toList)) ∧
    (∀ (pre rest : List Poll) (recvs : List Str) (e : Int) (c : Nat),
      penv.pipe_ok = true → penv.fork_ok = true →
      (input = [] ∨ penv.write_input = WriteOutcome.returned) →
      penv.polls = pre ++ ⟨recvs, some (WaitStatus.exited c), e⟩ :: rest →
      (∀ q ∈ pre, q.wait = none ∧ q.elapsed_ms ≤ 2000) →
      (handle_run_cpp env w code input).1 =
        some ("\x7b\"ok\":true,\"exit_code\":".toList ++ to_string (c : Int)
          ++ ",\"timed_out\":false,\"output\":\"".toList
          ++ json_escape (delivered_in (pre ++ [⟨recvs, some (WaitStatus.exited c), e⟩])
              ++ (delivered penv.final_reads).flatten)
          ++ "\"\x7d".toList)) ∧
    (penv.pipe_ok = true → penv.fork_ok = true → input ≠ [] →
      penv.write_input ≠ WriteOutcome.returned →
      handle_run_cpp env w code input = (none, [compile_call, run_call input])) := by
  subst hos
  refine ⟨?_, ?_, ?_, ?_⟩
  · cases hrun : invoke (env.os (env.os w1 compile_call).2 (run_call input)).1 (run_call input) with
    | none => rw [handle_run_cpp_run_stuck env w w1 code input compile hw hr hc hrun]
    | some run => rw [handle_run_cpp_run_returned env w w1 code input compile run hw hr hc hrun]
  · intro run hrun
    rw [handle_run_cpp_run_returned env w w1 code input compile run hw hr hc hrun]
  · intro pre rest recvs e c hp hf _ hpolls hpre
    have hloop : poll_loop 2000 (env.os (env.os w1 compile_call).2 (run_call input)).1.polls {} =
        some (classify { ({} : ProcResult) with
          output := drain (([] : Str) ++ delivered_in pre) recvs } (WaitStatus.exited c)) := by
      rw [hpolls, poll_loop_append 2000 pre _ _ hpre]
      simp [poll_loop]
    have hrun : invoke (env.os (env.os w1 compile_call).2 (run_call input)).1 (run_call input) =
        some { exit_code := (c : Int), timed_out := false,
               output := delivered_in (pre ++ [⟨recvs, some (WaitStatus.exited c), e⟩])
                 ++ (delivered (env.os (env.os w1 compile_call).2
                      (run_call input)).1.final_reads).flatten } := by
      unfold invoke
      rw [run_process_capture_polled _ _ _ _ _ hp hf (by rw [hpolls]; simp)]
      show Option.map _ (poll_loop 2000 _ {}) = _
      rw [hloop]
      simp [classify, drain_eq, delivered_in]
    rw [handle_run_cpp_run_returned env w w1 code input compile _ hw hr hc hrun]
    simp [List.append_assoc]
  · intro hp hf hin hwr
    exact handle_run_cpp_run_stuck env w w1 code input compile hw hr hc
      (run_process_capture_write_stuck _ _ _ _ _ hp hf hin hwr)

/-- The run invocations of the world `env_no_read`. -/
theorem env_no_read_run (input : Str) :
    (env_no_read.os (env_no_read.os () compile_call).2 (run_call input)).1 =
      if input.length ≤ 65536 then penv_exit0 else penv_sigpipe := rfl

theorem replicate_length_gt (n m : Nat) (c : Char) (h : m < n) :
    ¬ (List.replicate n c).length ≤ m := by
  rw [List.length_replicate]
  omega

theorem replicate_length_le (n m : Nat) (c : Char) (h : n ≤ m) :
    (List.replicate n c).length ≤ m := by
  rw [List.length_replicate]
  exact h

theorem replicate_ne_nil (n : Nat) (c : Char) (h : 0 < n) : List.replicate n c ≠ [] := by
  intro e
  have := congrArg List.length e
  rw [List.length_replicate] at this
  simp at this
  omega

/-- C2 at its failing input: the program `int main()\x7breturn 0;\x7d` with 65537 bytes
of input, one more than the pipe holds, leaves `handle_run_cpp` without result; with
65536 bytes the result is the success object with exit code 0. -/
theorem handle_run_cpp_run_phase_witness :
    handle_run_cpp env_no_read () "int main()\x7breturn 0;\x7d".toList (List.replicate 65537 'a')
      = (none, [compile_call, run_call (List.replicate 65537 'a')]) ∧
    (handle_run_cpp env_no_read () "int main()\x7breturn 0;\x7d".toList
        (List.replicate 65536 'a')).1
      = some "\x7b\"ok\":true,\"exit_code\":0,\"timed_out\":false,\"output\":\"\"\x7d".toList :=
  ⟨(handle_run_cpp_run_phase env_no_read () () "int main()\x7breturn 0;\x7d".toList
      (List.replicate 65537 'a') ⟨0, false, []⟩ penv_sigpipe rfl (by decide) rfl
      ((env_no_read_run _).trans (if_neg (replicate_length_gt 65537 65536 'a' (by decide))))
      ).2.2.2 rfl rfl (replicate_ne_nil 65537 'a' (by decide)) (by decide),
   (handle_run_cpp_run_phase env_no_read () () "int main()\x7breturn 0;\x7d".toList
      (List.replicate 65536 'a') ⟨0, false, []⟩ penv_exit0 rfl (by decide) rfl
      ((env_no_read_run _).trans (if_pos (replicate_length_le 65536 65536 'a' (by decide))))
      ).2.2.1 [] [] [] 3 0 rfl rfl (Or.inr rfl) rfl (by simp)⟩

/-- C20, as stated, fails: when the source file cannot be opened, `handle_run_cpp`
returns its error object without any sandbox invocation, the compile invocation
included. -/
theorem no_invocation_without_source_file :
    handle_run_cpp env_unwritable () "int main()\x7b\x7d".toList "7".toList =
      (some "\x7b\"ok\":false,\"error\":\"Failed to write source file\"\x7d".toList, []) ∧
    compile_call ∉ (handle_run_cpp env_unwritable () "int main()\x7b\x7d".toList "7".toList).2 :=
  ⟨rfl, by decide⟩

theorem compile_call_ne_run_call (input : Str) : compile_call ≠ run_call input := by
  intro h
  have := congrArg SandboxCall.limit_resources h
  simp [compile_call, run_call] at this

/-- The calls that `handle_run_cpp` makes: none without source file, else the compile
call, followed by the run call exactly when the compile call returned exit code 0. -/
theorem handle_run_cpp_log {σ : Type} (env : RunEnv σ) (w : σ) (code input : Str) :
    (env.write_source (env.create_directories w) code = none →
      (handle_run_cpp env w code input).2 = []) ∧
    (∀ w1, env.write_source (env.create_directories w) code = some w1 →
      ((handle_run_cpp env w code input).2 = [compile_call] ∨
        (handle_run_cpp env w code input).2 = [compile_call, run_call input]) ∧
      ((handle_run_cpp env w code input).2 = [compile_call, run_call input] ↔
        ∃ compile, invoke (env.os w1 compile_call).1 compile_call = some compile ∧
          compile.exit_code = 0)) := by
  refine ⟨?_, ?_⟩
  · intro hw
    rw [handle_run_cpp_source_failed env w code input hw]
  · intro w1 hw
    cases hr : invoke (env.os w1 compile_call).1 compile_call with
    | none =>
      rw [handle_run_cpp_compile_stuck env w w1 code input hw hr]
      refine ⟨Or.inl rfl, ?_⟩
      constructor
      · intro h
        simp at h
      · rintro ⟨compile, h, _⟩
        cases h
    | some compile =>
      by_cases hc : compile.exit_code = 0
      · have hlog : (handle_run_cpp env w code input).2 = [compile_call, run_call input] := by
          cases hrun : invoke (env.os (env.os w1 compile_call).2 (run_call input)).1
              (run_call input) with
          | none => rw [handle_run_cpp_run_stuck env w w1 code input compile hw hr hc hrun]
          | some run =>
            rw [handle_run_cpp_run_returned env w w1 code input compile run hw hr hc hrun]
        exact ⟨Or.inr hlog, fun _ => ⟨compile, rfl, hc⟩, fun _ => hlog⟩
      · rw [handle_run_cpp_compile_stage env w w1 code input compile hw hr hc]
        refine ⟨Or.inl rfl, ?_⟩
        constructor
        · intro h
          simp at h
        · rintro ⟨compile1, h, h0⟩
          cases h
          exact absurd h0 hc

/-- C20, amended: `handle_run_cpp` makes no sandbox invocation when the source file
cannot be opened.  When it has been written, the first invocation is the compile
invocation (no limits, empty stdin, 5000 ms), and it is followed by the run invocation
(limits, the caller's input, 2000 ms) exactly when it returned exit code 0; nothing else
is invoked.  In every environment past `pipe` and `fork`, the child of an invocation
that `handle_run_cpp` makes applies the limits exactly when the invocation is the run.
The compile invocation forks a child that goes to `execvp` of the compiler without
applying the limits, hands nothing to its stdin but the end of input, and polls with a
deadline of 5000 ms; the run invocation forks a child that applies the limits after
`setpgid` and before `execvp` of the binary, hands the caller's input, whole, to a
single `write` on its stdin (closing the pipe once the write is back), and polls with a
deadline of 2000 ms. -/
theorem handle_run_cpp_calls {σ : Type} (env : RunEnv σ) (w : σ) (code input : Str) :
    (env.write_source (env.create_directories w) code = none →
      (handle_run_cpp env w code input).2 = []) ∧
    (∀ w1, env.write_source (env.create_directories w) code = some w1 →
      ((handle_run_cpp env w code input).2 = [compile_call] ∨
        (handle_run_cpp env w code input).2 = [compile_call, run_call input]) ∧
      ((handle_run_cpp env w code input).2 = [compile_call, run_call input] ↔
        ∃ compile, invoke (env.os w1 compile_call).1 compile_call = some compile ∧
          compile.exit_code = 0)) ∧
    (compile_call.limit_resources = false ∧ compile_call.input = [] ∧
      compile_call.timeout_ms = 5000 ∧
      (run_call input).limit_resources = true ∧ (run_call input).input = input ∧
      (run_call input).timeout_ms = 2000) ∧
    (∀ call ∈ (handle_run_cpp env w code input).2,
      ∀ penv : ProcEnv, penv.pipe_ok = true → penv.fork_ok = true →
        ∃ side, invoke_child penv call = some side ∧
          side.steps = child_steps call.args call.limit_resources ∧
          (ChildStep.apply_run_limits ∈ side.steps ↔ call = run_call input)) ∧
    (∀ penv : ProcEnv, penv.pipe_ok = true → penv.fork_ok = true →
      invoke_child penv compile_call =
        some { steps := [ChildStep.setpgid, ChildStep.redirect_output, ChildStep.redirect_input,
                 ChildStep.close_pipes,
                 ChildStep.execvp ["g++".toList, "user_codes/temp.cpp".toList,
                   "-std=c++17".toList, "-O2".toList, "-o".toList,
                   "user_codes/temp.out".toList]],
               stdin := [StdinOp.close] } ∧
      invoke penv compile_call =
        (poll_loop 5000 penv.polls {}).map
          (fun res1 => { res1 with output := drain res1.output penv.final_reads }) ∧
      invoke_child penv (run_call input) =
        some { steps := [ChildStep.setpgid, ChildStep.apply_run_limits,
                 ChildStep.redirect_output, ChildStep.redirect_input, ChildStep.close_pipes,
                 ChildStep.execvp ["user_codes/temp.out".toList]],
               stdin :=
                 if input = [] then [StdinOp.close]
                 else if penv.write_input = WriteOutcome.returned then
                   [StdinOp.write input, StdinOp.close]
                 else [StdinOp.write input] } ∧
      ((input = [] ∨ penv.write_input = WriteOutcome.returned) →
        invoke penv (run_call input) =
          (poll_loop 2000 penv.polls {}).map
            (fun res1 => { res1 with output := drain res1.output penv.final_reads }))) := by
  have hlog := handle_run_cpp_log env w code input
  refine ⟨hlog.1, hlog.2, ⟨rfl, rfl, rfl, rfl, rfl, rfl⟩, ?_, ?_⟩
  · intro call hcall penv hp hf
    have hmem : call = compile_call ∨ call = run_call input := by
      cases hw : env.write_source (env.create_directories w) code with
      | none =>
        rw [hlog.1 hw] at hcall
        simp at hcall
      | some w1 =>
        rcases (hlog.2 w1 hw).1 with h | h
        · rw [h] at hcall
          simp at hcall
          exact Or.inl hcall
        · rw [h] at hcall
          simp at hcall
          exact hcall
    refine ⟨{ steps := child_steps call.args call.limit_resources,
              stdin := if call.input ≠ [] then
                  StdinOp.write call.input ::
                    (if penv.write_input = WriteOutcome.returned then [StdinOp.close] else [])
                else [StdinOp.close] }, ?_, rfl, ?_⟩
    · simp [invoke_child, run_process_capture_child, hp, hf]
    · rcases hmem with h | h
      · subst h
        constructor
        · intro hm
          simp [child_steps, compile_call] at hm
        · intro he
          exact absurd he (compile_call_ne_run_call input)
      · subst h
        constructor
        · intro _
          rfl
        · intro _
          simp [child_steps, run_call]
  · intro penv hp hf
    refine ⟨?_, ?_, ?_, ?_⟩
    · simp [invoke_child, run_process_capture_child, hp, hf, compile_call, child_steps,
        source_path, binary_path]
    · unfold invoke
      rw [run_process_capture_started _ _ _ _ _ hp hf]
      simp [compile_call]
    · by_cases hin : input = []
      · simp [invoke_child, run_process_capture_child, hp, hf, run_call, child_steps,
          binary_path, hin]
      · by_cases hwr : penv.write_input = WriteOutcome.returned
        · simp [invoke_child, run_process_capture_child, hp, hf, run_call, child_steps,
            binary_path, hin, hwr]
        · simp [invoke_child, run_process_capture_child, hp, hf, run_call, child_steps,
            binary_path, hin, hwr]
    · intro h
      unfold invoke
      rw [run_process_capture_started _ _ _ _ _ hp hf]
      have hs : ¬ ((run_call input).input ≠ [] ∧ penv.write_input ≠ WriteOutcome.returned) := by
        rintro ⟨h1, h2⟩
        rcases h with h | h
        · exact h1 h
        · exact h2 h
      rw [if_neg hs]
      rfl

/-- C21, as stated, fails: when `pipe` fails in the sandbox, the valid submission of
`req_run_demo` is answered with the status 200 and the compile-stage failure object. -/
theorem pipe_failure_is_answered_200 :
    penv_pipe_fails.pipe_ok = false ∧
    handle_run_request json_fields_demo env_pipe_fails () req_run_demo =
      some (http_response 200 "OK".toList "application/json; charset=utf-8".toList
        ("\x7b\"ok\":false,\"stage\":\"compile\",\"output\":\"Internal error: pipe() failed.".toList
          ++ [Char.ofNat 92, 'n', Char.ofNat 34, Char.ofNat 125])) ∧
    (handle_run_request json_fields_demo env_pipe_fails () req_run_demo).bind status_code_of
      = some 200 ∧
    ¬ ((500 : Int) ≤ 200 ∧ (200 : Int) ≤ 599) :=
  ⟨rfl, rfl, by decide, by decide⟩

/-- C21, amended: for a valid submission whose source file is written, a failure of
`pipe` or `fork` inside the sandbox is answered with the status 200, not with a 5xx
status.  When it happens in the compile invocation the body is the compile-stage
failure object around the text `Internal error: pipe() failed.` (or `fork() failed.`);
when compilation succeeded and it happens in the run invocation the body is the success
object with `exit_code` -1, `timed_out` false and that text as output. -/
theorem run_request_start_failure {σ : Type} (json_fields : Str → Except Str (Str × Str))
    (env : RunEnv σ) (w w1 : σ) (req : HttpRequest) (code input : Str) (penv : ProcEnv)
    (hjson : json_fields req.body = Except.ok (code, input)) (hcode : code ≠ [])
    (hw : env.write_source (env.create_directories w) code = some w1)
    (hfail : penv.pipe_ok = false ∨ penv.fork_ok = false) :
    ((env.os w1 compile_call).1 = penv →
      handle_run_request json_fields env w req =
        some (http_response 200 "OK".toList "application/json; charset=utf-8".toList
          ("\x7b\"ok\":false,\"stage\":\"compile\",\"output\":\"".toList
            ++ json_escape (if penv.pipe_ok = false then "Internal error: pipe() failed.\n".toList
                            else "Internal error: fork() failed.\n".toList)
            ++ "\"\x7d".toList))) ∧
    (∀ compile, invoke (env.os w1 compile_call).1 compile_call = some compile →
      compile.exit_code = 0 →
      (env.os (env.os w1 compile_call).2 (run_call input)).1 = penv →
      handle_run_request json_fields env w req =
        some (http_response 200 "OK".toList "application/json; charset=utf-8".toList
          ("\x7b\"ok\":true,\"exit_code\":-1,\"timed_out\":false,\"output\":\"".toList
            ++ json_escape (if penv.pipe_ok = false then "Internal error: pipe() failed.\n".toList
                            else "Internal error: fork() failed.\n".toList)
            ++ "\"\x7d".toList))) := by
  have hresp := handle_run_request_valid json_fields env w req code input hjson hcode
  constructor
  · intro hos
    have hr : invoke (env.os w1 compile_call).1 compile_call =
        some { exit_code := -1, timed_out := false,
               output := if penv.pipe_ok = false then "Internal error: pipe() failed.\n".toList
                         else "Internal error: fork() failed.\n".toList } := by
      rw [hos]
      exact run_process_capture_start_failure penv _ _ _ _ hfail
    rw [hresp, handle_run_cpp_compile_stage env w w1 code input _ hw hr
      (show (-1 : Int) ≠ 0 by decide)]
    rfl
  · intro compile hr hc hos
    have hrun : invoke (env.os (env.os w1 compile_call).2 (run_call input)).1 (run_call input) =
        some { exit_code := -1, timed_out := false,
               output := if penv.pipe_ok = false then "Internal error: pipe() failed.\n".toList
                         else "Internal error: fork() failed.\n".toList } := by
      rw [hos]
      exact run_process_capture_start_failure penv _ _ _ _ hfail
    rw [hresp, handle_run_cpp_run_returned env w w1 code input compile _ hw hr hc hrun]
    have e1 : to_string (-1) = "-1".toList := by decide
    simp only [Option.map_some', e1]
    simp [List.append_assoc]

/-- C21, amended, at a `pipe` failure in the compile invocation. -/
theorem run_request_start_failure_witness :
    handle_run_request json_fields_demo env_pipe_fails () req_run_demo =
      some (http_response 200 "OK".toList "application/json; charset=utf-8".toList
        ("\x7b\"ok\":false,\"stage\":\"compile\",\"output\":\"".toList
          ++ json_escape (if penv_pipe_fails.pipe_ok = false
                          then "Internal error: pipe() failed.\n".toList
                          else "Internal error: fork() failed.\n".toList)
          ++ "\"\x7d".toList)) :=
  (run_request_start_failure json_fields_demo env_pipe_fails () () req_run_demo
    "int main()\x7b\x7d".toList [] penv_pipe_fails rfl (by decide) rfl
    (Or.inl rfl)).1 rfl

/-- C22 at its failing input: `POST /run` is routed to the pipeline, but `POST /run?x=1`,
whose path before the question mark is `/run` as well, is routed to the 404 answer,
and so is `GET /?a=1`; only the load and save routes are chosen from the path. -/
theorem run_with_query_is_not_found :
    (split_path_query "/run?x=1".toList).1 = "/run".toList ∧
    route { method := "POST".toList, path := "/run".toList, headers := [], body := [] }
      = Route.run ∧
    route { method := "POST".toList, path := "/run?x=1".toList, headers := [], body := [] }
      = Route.not_found ∧
    route { method := "GET".toList, path := "/".toList, headers := [], body := [] }
      = Route.index ∧
    route { method := "GET".toList, path := "/?a=1".toList, headers := [], body := [] }
      = Route.not_found ∧
    route { method := "GET".toList, path := "/load?x=1".toList, headers := [], body := [] }
      = Route.load ∧
    route { method := "POST".toList, path := "/save?x=1".toList, headers := [], body := [] }
      = Route.save := by
  decide


/-! ## The order of the checks in the polling loop -/

theorem poll_loop_timed_out_split (timeout_ms : Int) (polls : List Poll) (res r : ProcResult)
    (hres : res.timed_out = false) (h : poll_loop timeout_ms polls res = some r)
    (ht : r.timed_out = true) :
    ∃ pre p rest, polls = pre ++ p :: rest ∧
      (∀ q ∈ pre, q.wait = none ∧ q.elapsed_ms ≤ timeout_ms) ∧
      p.wait = none ∧ p.elapsed_ms > timeout_ms := by
  induction polls generalizing res with
  | nil => simp [poll_loop] at h
  | cons p ps ih =>
    rw [poll_loop_cons] at h
    cases hw : p.wait with
    | some st =>
      simp only [hw, Option.some.injEq] at h
      subst h
      rw [classify_timed_out] at ht
      simp [hres] at ht
    | none =>
      simp only [hw] at h
      by_cases hd : p.elapsed_ms > timeout_ms
      · exact ⟨[], p, ps, rfl, by simp, hw, hd⟩
      · simp only [hd, if_false] at h
        obtain ⟨pre, p1, rest, hps, hpre, hw1, hd1⟩ :=
          ih { res with output := drain res.output p.recvs } hres h
        refine ⟨p :: pre, p1, rest, by rw [hps]; rfl, ?_, hw1, hd1⟩
        intro q hq
        rcases List.mem_cons.mp hq with hq | hq
        · rw [hq]
          exact ⟨hw, not_lt.mp hd⟩
        · exact hpre q hq

/-- C23: in the iteration `p` that follows iterations which saw the child running
within its deadline, a termination reported by `waitpid` gives the classified status
(the exit code, or 128 plus the signal) with `timed_out = false` whatever the elapsed
time is; a child still running gives the timeout result when `elapsed_ms > timeout_ms`,
and lets the loop go on to the next iteration when `elapsed_ms <= timeout_ms`; and a
result with `timed_out = true` only comes from an iteration in which the child was
running and `elapsed_ms > timeout_ms`. -/
theorem termination_check_precedes_deadline (env : ProcEnv) (args : List Str) (input : Str)
    (timeout_ms : Int) (limit_resources : Bool) (pre rest : List Poll) (p : Poll)
    (hp : env.pipe_ok = true) (hf : env.fork_ok = true)
    (hpolls : env.polls = pre ++ p :: rest)
    (hpre : ∀ q ∈ pre, q.wait = none ∧ q.elapsed_ms ≤ timeout_ms) :
    (∀ st, p.wait = some st →
      ∃ r, run_process_capture env args input timeout_ms limit_resources = some r ∧
        r.timed_out = false ∧
        (∀ c, st = WaitStatus.exited c → r.exit_code = (c : Int)) ∧
        (∀ s, st = WaitStatus.signaled s → r.exit_code = 128 + (s : Int))) ∧
    (p.wait = none → p.elapsed_ms > timeout_ms →
      ∃ r, run_process_capture env args input timeout_ms limit_resources = some r ∧
        r.timed_out = true ∧ r.exit_code = 124) ∧
    (p.wait = none → p.elapsed_ms ≤ timeout_ms →
      poll_loop timeout_ms env.polls {} =
        poll_loop timeout_ms rest { ({} : ProcResult) with
          output := ([] : Str) ++ delivered_in (pre ++ [p]) }) ∧
    (∀ r, run_process_capture env args input timeout_ms limit_resources = some r →
      r.timed_out = true →
      ∃ pre1 p1 rest1, env.polls = pre1 ++ p1 :: rest1 ∧
        (∀ q ∈ pre1, q.wait = none ∧ q.elapsed_ms ≤ timeout_ms) ∧
        p1.wait = none ∧ p1.elapsed_ms > timeout_ms) := by
  have hloop := poll_loop_append timeout_ms pre (p :: rest) {} hpre
  rw [← hpolls, poll_loop_cons] at hloop
  refine ⟨?_, ?_, ?_, ?_⟩
  · intro st hst
    simp only [hst] at hloop
    refine ⟨{ classify { ({} : ProcResult) with
        output := drain (([] : Str) ++ delivered_in pre) p.recvs } st with
          output := drain (classify { ({} : ProcResult) with
            output := drain (([] : Str) ++ delivered_in pre) p.recvs } st).output
              env.final_reads }, ?_, ?_, ?_, ?_⟩
    · rw [run_process_capture_polled env args input timeout_ms limit_resources hp hf
        (by rw [hpolls]; simp), hloop]
      rfl
    · simp [classify_timed_out]
    · intro c hc
      subst hc
      rfl
    · intro s hs
      subst hs
      rfl
  · intro hw hd
    simp only [hw, hd, if_true] at hloop
    refine ⟨{ exit_code := 124, timed_out := true,
              output := drain (drain (([] : Str) ++ delivered_in pre) p.recvs)
                env.final_reads }, ?_, rfl, rfl⟩
    rw [run_process_capture_polled env args input timeout_ms limit_resources hp hf
      (by rw [hpolls]; simp), hloop]
    rfl
  · intro hw hd
    have hall : ∀ q ∈ pre ++ [p], q.wait = none ∧ q.elapsed_ms ≤ timeout_ms := by
      intro q hq
      rcases List.mem_append.mp hq with hq | hq
      · exact hpre q hq
      · rw [List.mem_singleton.mp hq]
        exact ⟨hw, hd⟩
    have e : env.polls = (pre ++ [p]) ++ rest := by
      rw [hpolls, List.append_assoc]
      rfl
    rw [e]
    exact poll_loop_append timeout_ms (pre ++ [p]) rest {} hall
  · intro r hr ht
    rw [run_process_capture_polled env args input timeout_ms limit_resources hp hf
      (by rw [hpolls]; simp)] at hr
    cases hl : poll_loop timeout_ms env.polls {} with
    | none => simp [hl] at hr
    | some res1 =>
      simp only [hl, Option.map_some', Option.some.injEq] at hr
      subst hr
      exact poll_loop_timed_out_split timeout_ms env.polls {} res1 rfl hl ht

/-- C23 at a child seen running at exactly 2000 ms and seen killed at 5000 ms, with a
timeout of 2000 ms. -/
theorem termination_check_precedes_deadline_witness :
    ∃ r, run_process_capture penv_late_kill [binary_path] [] 2000 true = some r ∧
      r.timed_out = false ∧
      (∀ c, WaitStatus.signaled 9 = WaitStatus.exited c → r.exit_code = (c : Int)) ∧
      (∀ s, WaitStatus.signaled 9 = WaitStatus.signaled s → r.exit_code = 128 + (s : Int)) :=
  (termination_check_precedes_deadline penv_late_kill [binary_path] [] 2000 true
    [⟨[], none, 2000⟩] [] ⟨[], some (WaitStatus.signaled 9), 5000⟩ rfl rfl rfl
    (by decide)).1 (WaitStatus.signaled 9) rfl

/-! ## Unescaping -/

theorem json_unescape_plain (c : Char) (t : Str) (h : c ≠ Char.ofNat 92) :
    json_unescape (c :: t) = c :: json_unescape t := by
  cases t with
  | nil => rfl
  | cons e rest =>
    rw [json_unescape, if_neg h]

theorem json_unescape_escape (e : Char) (t : Str) :
    json_unescape (Char.ofNat 92 :: e :: t) = unescape_char e :: json_unescape t := by
  rw [json_unescape, if_pos rfl]

theorem json_unescape_escape_char (c : Char) (t : Str) :
    json_unescape (json_escape_char c ++ t) =
      (if kept_byte c = true then [c] else []) ++ json_unescape t := by
  unfold json_escape_char
  by_cases h1 : c = Char.ofNat 92
  · subst h1
    rw [if_pos rfl]
    exact json_unescape_escape _ t
  by_cases h2 : c = Char.ofNat 34
  · subst h2
    rw [if_neg (by decide), if_pos rfl]
    exact json_unescape_escape _ t
  by_cases h3 : c = '\n'
  · subst h3
    rw [if_neg (by decide), if_neg (by decide), if_pos rfl]
    exact json_unescape_escape _ t
  by_cases h4 : c = '\r'
  · subst h4
    rw [if_neg (by decide), if_neg (by decide), if_neg (by decide), if_pos rfl]
    exact json_unescape_escape _ t
  by_cases h5 : c = '\t'
  · subst h5
    rw [if_neg (by decide), if_neg (by decide), if_neg (by decide), if_neg (by decide),
      if_pos rfl]
    exact json_unescape_escape _ t
  rw [if_neg h1, if_neg h2, if_neg h3, if_neg h4, if_neg h5]
  by_cases h6 : c.toNat < 0x20
  · have hk : kept_byte c = false := by
      simp [kept_byte, h3, h4, h5]
      omega
    rw [if_pos h6, hk]
    rfl
  · have hk : kept_byte c = true := by
      simp [kept_byte]
      omega
    rw [if_neg h6, hk]
    exact json_unescape_plain c t h1

/-- C24: unescaping `json_escape s` gives `s` without its bytes below 0x20 other than
LF, CR and TAB; it gives `s` itself when `s` holds no such byte, and on those strings
`json_escape` is injective. -/
theorem json_unescape_json_escape (s : Str) :
    json_unescape (json_escape s) = s.filter kept_byte ∧
    ((∀ c ∈ s, kept_byte c = true) → json_unescape (json_escape s) = s) ∧
    (∀ t : Str, (∀ c ∈ s, kept_byte c = true) → (∀ c ∈ t, kept_byte c = true) →
      json_escape s = json_escape t → s = t) := by
  have hmain : ∀ u : Str, json_unescape (json_escape u) = u.filter kept_byte := by
    intro u
    induction u with
    | nil => rfl
    | cons c u ih =>
      rw [json_escape_cons, json_unescape_escape_char, ih, List.filter_cons]
      by_cases hk : kept_byte c = true
      · simp [hk]
      · simp [hk]
  have hid : ∀ u : Str, (∀ c ∈ u, kept_byte c = true) →
      json_unescape (json_escape u) = u := by
    intro u hu
    rw [hmain u]
    exact List.filter_eq_self.mpr hu
  refine ⟨hmain s, hid s, ?_⟩
  intro t hs ht heq
  rw [← hid s hs, ← hid t ht, heq]

/-- C24 at a string with a quote, a backslash followed by `n`, a line feed and a bell. -/
theorem json_unescape_json_escape_witness :
    json_unescape (json_escape [Char.ofNat 34, Char.ofNat 92, 'n', '\n', Char.ofNat 7, 'z'])
      = [Char.ofNat 34, Char.ofNat 92, 'n', '\n', 'z'] ∧
    json_unescape (json_escape [Char.ofNat 34, Char.ofNat 92, 'n', '\n'])
      = [Char.ofNat 34, Char.ofNat 92, 'n', '\n'] :=
  ⟨(json_unescape_json_escape _).1.trans (by decide),
   (json_unescape_json_escape _).2.1 (by decide)⟩

/-! ## The snippet interpreter -/

/-- C25 at its failing input: on the line `div x` with `x` defined, no operand is read
and `value` keeps what it happened to hold; with 2 there the division is made, `x`
goes from 6 to 3 and nothing is printed, and only with 0 there the error is printed.
With an operand the division is guarded: `div x 0` and `div x abc` print the error and
leave `x`, `div x 2` and `div x -4` divide, `div y 2` reports the unknown variable. -/
theorem div_without_operand_is_not_guarded :
    Interpreter.runLine 2 "div x".toList [("x".toList, 6)]
      = Effect.ran [("x".toList, 3)] [] ∧
    Interpreter.runLine 0 "div x".toList [("x".toList, 6)]
      = Effect.ran [("x".toList, 6)] "Error: division by zero\n".toList ∧
    Interpreter.runLine 2 "div x 0".toList [("x".toList, 6)]
      = Effect.ran [("x".toList, 6)] "Error: division by zero\n".toList ∧
    Interpreter.runLine 2 "div x abc".toList [("x".toList, 6)]
      = Effect.ran [("x".toList, 6)] "Error: division by zero\n".toList ∧
    Interpreter.runLine 7 "div x 2".toList [("x".toList, 6), ("y".toList, 1)]
      = Effect.ran [("x".toList, 3), ("y".toList, 1)] [] ∧
    Interpreter.runLine 7 "div x -4".toList [("x".toList, 7)]
      = Effect.ran [("x".toList, -1)] [] ∧
    Interpreter.runLine 7 "div y 2".toList [("x".toList, 6)]
      = Effect.ran [("x".toList, 6)] "Error: variable 'y' not found\n".toList := by
  decide


/-- When an operand follows the name, what `value` held before plays no part: the
branch of `div` reports an unknown variable, or a zero operand, or divides. -/
theorem div_with_operand (uninit : Int) (rest var rest1 : Str) (vars : Variables)
    (h : extract_token rest = some (var, rest1)) (hop : rest1.dropWhile isspace ≠ []) :
    Interpreter.div uninit rest vars = Interpreter.div 0 rest vars ∧
    (vars_find var vars = none →
      Interpreter.div uninit rest vars =
        Effect.ran vars ("Error: variable '".toList ++ var ++ "' not found\n".toList)) ∧
    (∀ x, vars_find var vars = some x → extract_int 0 rest1 = 0 →
      Interpreter.div uninit rest vars = Effect.ran vars "Error: division by zero\n".toList) ∧
    (∀ x, vars_find var vars = some x → extract_int 0 rest1 ≠ 0 →
      ¬ (x = INT_MIN ∧ extract_int 0 rest1 = -1) →
      Interpreter.div uninit rest vars =
        Effect.ran (vars_set var (Int.tdiv x (extract_int 0 rest1)) vars) []) := by
  have hv : extract_int uninit rest1 = extract_int 0 rest1 := by
    unfold extract_int
    simp only [hop, if_false]
  have hr : read_var_value uninit rest = (var, extract_int 0 rest1) := by
    unfold read_var_value
    rw [h]
    simp only
    rw [hv]
  have hr0 : read_var_value 0 rest = (var, extract_int 0 rest1) := by
    unfold read_var_value
    rw [h]
  refine ⟨?_, ?_, ?_, ?_⟩
  · unfold Interpreter.div
    rw [hr, hr0]
  · intro hnone
    unfold Interpreter.div
    rw [hr]
    simp only [hnone]
  · intro x hx hz
    unfold Interpreter.div
    rw [hr]
    simp only [hx]
    rw [if_pos hz]
  · intro x hx hnz hno
    unfold Interpreter.div
    rw [hr]
    simp only [hx]
    rw [if_neg hnz, if_neg hno]


end Server
